import Mathlib

/-!
# Verification of the Reader repository's derived-view and import/export pipeline

This development shallowly embeds the algorithmic core of the Reader
reading-list application: the CSV import/export service
(`csv-import-export.service.ts`), the timeline builder (`TimelineService`),
the table view's filtering and sorting (`table-view.component.ts`) and the
graph view's date-range filter (`GraphViewComponent`).

Modelling conventions:
* TypeScript strings are embedded as `List Char` (`Str`); the handful of
  JavaScript string builtins the code uses (`trim`, `toLowerCase`, `split`,
  template concatenation) are defined below on `Str`.
* JavaScript `Date` values are embedded at day precision as `YMD`
  (year/month/day, month 1-based); the code only ever compares instants
  that are local midnights, renders them at day precision, or compares a
  midnight against "now", all of which are faithful at day granularity.
  The local-time/UTC distinction of `toISOString` is ignored (local = UTC).
* `new Date(year, month, day)` out-of-range normalization (month and day
  rollover) is modelled exactly by `jsMakeDate`.
* Fallible operations are embedded with `Option`/`Except`.
* JavaScript `Array.prototype.sort` (stable in modern engines) is modelled
  by a stable insertion sort `stableSort`.
-/

namespace Reader

/-- TypeScript strings, embedded as character lists. -/
abbrev Str := List Char

/-- Whitespace recognized by JavaScript `String.prototype.trim`
(ASCII subset actually reachable in this code base). -/
def isWS (c : Char) : Bool :=
  c = ' ' || c = '\t' || c = '\n' || c = '\r' || c = '\x0b' || c = '\x0c'

/-- Strip leading whitespace (left half of JS `trim`). -/
def trimLeft (s : Str) : Str := s.dropWhile isWS

/-- Strip trailing whitespace (right half of JS `trim`). -/
def trimRight (s : Str) : Str := (s.reverse.dropWhile isWS).reverse

/-- JavaScript `String.prototype.trim`. -/
def trim (s : Str) : Str := trimRight (trimLeft s)

/-- JavaScript `String.prototype.toLowerCase` (ASCII case folding,
which is all the code's inputs use). -/
def lower (s : Str) : Str := s.map Char.toLower

/-- Is every character a decimal digit (and the string non-empty)?
Mirrors a `\d{n}` regex group. -/
def allDigits (s : Str) : Bool := !s.isEmpty && s.all Char.isDigit

/-- Numeric value of a digit character. -/
def digitVal (c : Char) : Nat := c.toNat - 48

/-- JavaScript `parseInt` on a known-decimal-digit string. -/
def ofDigits (s : Str) : Nat := s.foldl (fun a c => a * 10 + digitVal c) 0

/-- Decimal digit character for `n < 10`. -/
def digitChar (n : Nat) : Char := Char.ofNat (48 + n)

/-- Most-significant-first digit extraction; the fuel (any bound on the
number of digits, `n` itself suffices) keeps the recursion structural. -/
def toDigitsAux : Nat → Nat → List Char
  | 0, n => [digitChar n]
  | fuel + 1, n =>
    if n < 10 then [digitChar n]
    else toDigitsAux fuel (n / 10) ++ [digitChar (n % 10)]

/-- Decimal rendering of a natural number (JS number-to-string). -/
def toDigits (n : Nat) : List Char := toDigitsAux n n

/-- Render a natural number, left-padded with `'0'` to two characters
(JS `String(n).padStart(2, '0')`). -/
def pad2 (n : Nat) : Str := if n < 10 then '0' :: toDigits n else toDigits n

/-- Render a year as the four digits of a `YYYY-MM-DD` date
(the code only ever renders years in 1000..9999). -/
def pad4 (n : Nat) : Str := toDigits n

/-- Split a character list at every occurrence of a separator character;
mirrors JS `String.prototype.split` with a single-character separator. -/
def splitOnChar (sep : Char) : Str → List Str
  | [] => [[]]
  | c :: rest =>
    match splitOnChar sep rest with
    | [] => if c = sep then [[], []] else [[c]]
    | h :: t => if c = sep then [] :: h :: t else (c :: h) :: t

/-- JS `Array.prototype.join` with a one-character separator. -/
def joinSep (sep : Char) : List Str → Str
  | [] => []
  | [x] => x
  | x :: y :: xs => x ++ sep :: joinSep sep (y :: xs)

/-- JS `Array.prototype.join` with a multi-character separator. -/
def joinSep2 (sep : Str) : List Str → Str
  | [] => []
  | [x] => x
  | x :: y :: xs => x ++ sep ++ joinSep2 sep (y :: xs)

/-- Split raw CSV text on `\r\n` or `\n` (the regex `/\r?\n/`);
a lone `\r` is not a separator. -/
def splitLines : Str → List Str
  | [] => [[]]
  | '\r' :: '\n' :: rest => [] :: splitLines rest
  | '\n' :: rest => [] :: splitLines rest
  | c :: rest =>
    match splitLines rest with
    | [] => [[c]]
    | h :: t => (c :: h) :: t

/-! ## Calendar dates -/

/-- A calendar date at day precision: what remains of a JS `Date` after
the code's own day-granularity uses. `m` is 1-based (January = 1). -/
structure YMD where
  y : Int
  m : Nat
  d : Nat
deriving DecidableEq, Repr

/-- Gregorian leap-year test (as implemented by JS `Date`). -/
def isLeap (y : Int) : Bool := y % 4 = 0 && (y % 100 ≠ 0 || y % 400 = 0)

/-- Days in a (1-based) month of a given year. -/
def daysInMonth (y : Int) (m : Nat) : Nat :=
  match m with
  | 1 => 31 | 2 => if isLeap y then 29 else 28
  | 3 => 31 | 4 => 30 | 5 => 31 | 6 => 30 | 7 => 31
  | 8 => 31 | 9 => 30 | 10 => 31 | 11 => 30 | 12 => 31
  | _ => 31

/-- The month after `(y, m)`. -/
def nextYM (y : Int) (m : Nat) : Int × Nat :=
  if m = 12 then (y + 1, 1) else (y, m + 1)

/-- The month before `(y, m)`. -/
def prevYM (y : Int) (m : Nat) : Int × Nat :=
  if m = 1 then (y - 1, 12) else (y, m - 1)

/-- Normalize an overflowing day-of-month by rolling into following
months, as JS `new Date(y, m, d)` does. The fuel is an upper bound on
the number of rolls; `d` itself always suffices. -/
def rollDay : Nat → Int → Nat → Nat → YMD
  | 0, y, m, d => ⟨y, m, d⟩
  | fuel + 1, y, m, d =>
    if d ≤ daysInMonth y m then ⟨y, m, d⟩
    else
      let ym := nextYM y m
      rollDay fuel ym.1 ym.2 (d - daysInMonth y m)

/-- JS `new Date(year, month0, day)` at day precision: `month0` is
0-based and may lie outside `[0, 11]` (it is carried into the year);
`day` may be `0` (the last day of the previous month) or exceed the
month length (rolled forward). -/
def jsMakeDate (y : Int) (month0 : Int) (d : Nat) : YMD :=
  let idx : Int := y * 12 + month0
  let y1 : Int := idx / 12
  let m1 : Nat := (idx % 12).toNat + 1
  if d = 0 then
    let p := prevYM y1 m1
    ⟨p.1, p.2, daysInMonth p.1 p.2⟩
  else rollDay d y1 m1 d

/-- JS `Date.prototype.getMonth` of an embedded date (0-based), as an
integer so it can be compared against an arbitrary parsed component. -/
def YMD.month0 (x : YMD) : Int := (x.m : Int) - 1

/-- Strict JS `<` comparison of two dates (timestamp order, faithful at
day precision for the midnight instants this code compares). -/
def YMD.ltb (a b : YMD) : Bool :=
  if a.y ≠ b.y then decide (a.y < b.y)
  else if a.m ≠ b.m then decide (a.m < b.m)
  else decide (a.d < b.d)

/-- JS `setDate(getDate() + 1)`: the following calendar day. -/
def addOneDay (x : YMD) : YMD :=
  if x.d + 1 ≤ daysInMonth x.y x.m then ⟨x.y, x.m, x.d + 1⟩
  else
    let p := nextYM x.y x.m
    ⟨p.1, p.2, 1⟩

/-! ## Date parsing (`CsvImportExportService.parseDate`) -/

/-- The regex `^(\d{1,2})\/(\d{1,2})\/(\d{4})$`: first capture, second
capture and year of a slash-separated date string. -/
def matchSlash (s : Str) : Option (Nat × Nat × Nat) :=
  match splitOnChar '/' s with
  | [a, b, c] =>
    if allDigits a && a.length ≤ 2 && allDigits b && b.length ≤ 2 &&
       allDigits c && c.length = 4 then
      some (ofDigits a, ofDigits b, ofDigits c)
    else none
  | _ => none

/-- The regex `^(\d{4})-(\d{2})-(\d{2})$`: year, month and day captures
of an ISO-shaped date string. -/
def matchISO (s : Str) : Option (Nat × Nat × Nat) :=
  match splitOnChar '-' s with
  | [a, b, c] =>
    if allDigits a && a.length = 4 && allDigits b && b.length = 2 &&
       allDigits c && c.length = 2 then
      some (ofDigits a, ofDigits b, ofDigits c)
    else none
  | _ => none

/-- Models the host JS engine's generic `new Date(string)` parser on the
string shapes that can actually reach the last-resort branch of
`parseDate` in this development: a slash-separated numeric date is
parsed as legacy US `M/D/YYYY`. The engine's legacy parser validates
only month ∈ [1,12] and day ∈ [1,31]; the accepted fields then go
through ECMA `MakeDay`, which rolls an overflowing day into the next
month (`new Date("2/29/2015")` is Mar 1 2015). Everything else is
"no date". The explicit slash and ISO branches of `parseDate` run
first, so the only strings our theorems pass here are slash strings
those branches rejected. -/
def jsGenericParse (s : Str) : Option YMD :=
  match matchSlash s with
  | some (a, b, c) =>
    if 1 ≤ a && a ≤ 12 && 1 ≤ b && b ≤ 31 then
      some (jsMakeDate (c : Int) ((a : Int) - 1) b)
    else none
  | none => none

/-- `CsvImportExportService.parseDate`: multi-format CSV date parsing.
Tries day-first `D/M/YYYY` (with a round-trip check on day and month),
then strict `YYYY-MM-DD` (no round-trip check), then month-first
`M/D/YYYY` (round-trip check on the month only), then the host's
generic parser. Empty or whitespace-only input is "no date". -/
def parseDate (dateString : Str) : Option YMD :=
  if (trim dateString).isEmpty then none
  else
    let t := trim dateString
    -- Format 1: DD/MM/YYYY or D/M/YYYY
    let f1 : Option YMD :=
      match matchSlash t with
      | some (day, mon, year) =>
        let date := jsMakeDate (year : Int) ((mon : Int) - 1) day
        if date.d = day && date.month0 = (mon : Int) - 1 then some date else none
      | none => none
    match f1 with
    | some d => some d
    | none =>
      -- Format 2: YYYY-MM-DD (ISO format); only checked for NaN, which
      -- cannot occur for in-range numeric arguments
      let f2 : Option YMD :=
        match matchISO t with
        | some (year, mon, day) => some (jsMakeDate (year : Int) ((mon : Int) - 1) day)
        | none => none
      match f2 with
      | some d => some d
      | none =>
        -- Format 3: MM/DD/YYYY (US format)
        let f3 : Option YMD :=
          match matchSlash t with
          | some (mon, day, year) =>
            let date := jsMakeDate (year : Int) ((mon : Int) - 1) day
            if date.month0 = (mon : Int) - 1 then some date else none
          | none => none
        match f3 with
        | some d => some d
        | none => jsGenericParse t

/-! ## Data model -/

/-- `BookStatus` enumeration (`book-status.model.ts`). -/
inductive BookStatus where
  | ToRead | Reading | Finished | OnHold | Abandoned
deriving DecidableEq, Repr

/-- The string value of each `BookStatus` member. -/
def BookStatus.str : BookStatus → Str
  | .ToRead => "to read".toList
  | .Reading => "reading".toList
  | .Finished => "finished".toList
  | .OnHold => "on hold".toList
  | .Abandoned => "abandoned".toList

/-- `BookRating` enumeration (`collection`/rating model). -/
inductive BookRating where
  | None | Positive | Negative | Favourite
deriving DecidableEq, Repr

/-- A book record (`book.model.ts`), restricted to the fields the
verified algorithms read. Date-valued fields are embedded after
`getDateValue`: `none` stands for an absent or unparsable stored value.
`id`, `imageUrl` and `owned` are never read by the code under proof. -/
structure Book where
  title : Str
  author : Str
  status : BookStatus
  addedDate : Option YMD := none
  publishedDate : Option YMD := none
  readingStartDate : Option YMD := none
  readingEndDate : Option YMD := none
  notes : Option Str := none
  tags : Option (List Str) := none
  rating : Option BookRating := none
deriving DecidableEq, Repr

/-- The record produced for each CSV row: `Omit<Book, 'id' | 'addedDate'>`
as returned by `parseBookFromRow` (rating is never set by the importer). -/
structure CsvBook where
  title : Str
  author : Str
  status : BookStatus
  publishedDate : Option YMD := none
  readingStartDate : Option YMD := none
  readingEndDate : Option YMD := none
  notes : Option Str := none
  tags : Option (List Str) := none
deriving DecidableEq, Repr

/-- The CSV-visible projection of a book: the fields the round-trip
property compares (everything CSV carries; never `id`/`addedDate`). -/
def Book.toCsv (b : Book) : CsvBook :=
  { title := b.title, author := b.author, status := b.status,
    publishedDate := b.publishedDate,
    readingStartDate := b.readingStartDate,
    readingEndDate := b.readingEndDate,
    notes := b.notes, tags := b.tags }

/-- Import outcome (`ImportResult`): number of rows written plus the
accumulated human-readable error strings. -/
structure ImportResult where
  success : Nat
  errors : List Str
deriving DecidableEq, Repr

/-! ## CSV tokenizer and escaping -/

/-- The character-by-character state machine inside
`CsvImportExportService.parseCSVLine`: `inQ` is the `inQuotes` flag and
`cur` the field accumulated so far. A doubled quote inside a quoted
field is an escaped literal quote; an unquoted comma ends the field. -/
def csvTok : Str → Bool → Str → List Str
  | [], _, cur => [cur]
  | '"' :: '"' :: rest, true, cur => csvTok rest true (cur ++ ['"'])
  | '"' :: rest, inQ, cur => csvTok rest (!inQ) cur
  | ',' :: rest, false, cur => cur :: csvTok rest false []
  | c :: rest, inQ, cur => csvTok rest inQ (cur ++ [c])

/-- `CsvImportExportService.parseCSVLine`: tokenize one CSV line and trim
every resulting field. -/
def parseCSVLine (line : Str) : List Str := (csvTok line false []).map trim

/-- Double every quote character (`value.replace(/"/g, '""')`). -/
def escQuotes : Str → Str
  | [] => []
  | '"' :: rest => '"' :: '"' :: escQuotes rest
  | c :: rest => c :: escQuotes rest

/-- `CsvImportExportService.escapeCSV`: wrap in quotes (doubling inner
quotes) when the value contains a comma, newline or quote. -/
def escapeCSV (value : Str) : Str :=
  if value.isEmpty then []
  else if value.contains ',' || value.contains '\n' || value.contains '"' then
    '"' :: escQuotes value ++ ['"']
  else value

/-! ## Tags and status normalization -/

/-- `CsvImportExportService.parseTags`: split on `;`, trim, drop empties.
(`none` models an `undefined` argument.) -/
def parseTags (tagsString : Option Str) : List Str :=
  match tagsString with
  | none => []
  | some s =>
    if s.isEmpty then []
    else ((splitOnChar ';' s).map trim).filter (fun t => !t.isEmpty)

/-- The fixed synonym table inside `validateStatus`. -/
def statusSynonyms : List (Str × BookStatus) :=
  [("to read".toList, .ToRead), ("toread".toList, .ToRead),
   ("want to read".toList, .ToRead),
   ("reading".toList, .Reading), ("currently reading".toList, .Reading),
   ("finished".toList, .Finished), ("read".toList, .Finished),
   ("completed".toList, .Finished), ("done".toList, .Finished),
   ("on hold".toList, .OnHold), ("onhold".toList, .OnHold),
   ("paused".toList, .OnHold),
   ("abandoned".toList, .Abandoned), ("dropped".toList, .Abandoned),
   ("did not finish".toList, .Abandoned), ("dnf".toList, .Abandoned)]

/-- The list of canonical status values (`Object.values(BookStatus)`). -/
def allStatuses : List BookStatus :=
  [.ToRead, .Reading, .Finished, .OnHold, .Abandoned]

/-- `CsvImportExportService.validateStatus`: case-insensitive direct
match against the enumeration values, then the synonym table. -/
def validateStatus (status : Option Str) : Option BookStatus :=
  match status with
  | none => none
  | some s =>
    if s.isEmpty then none
    else
      let normalized := trim (lower s)
      match allStatuses.find? (fun v => lower v.str = normalized) with
      | some v => some v
      | none =>
        match statusSynonyms.find? (fun p => p.1 = normalized) with
        | some p => some p.2
        | none => none

/-! ## CSV export (`buildCSVContent` / `buildCSVRow`) -/

/-- The fixed header list `CSV_HEADERS`. -/
def CSV_HEADERS : List Str :=
  ["Title".toList, "Author".toList, "Status".toList,
   "Published Date".toList, "Reading Start Date".toList,
   "Reading End Date".toList, "Notes".toList, "Tags".toList]

/-- `formatDateForCSV`: render a date as `YYYY-MM-DD`, or the empty
string for an absent/invalid value. -/
def formatDateForCSV (date : Option YMD) : Str :=
  match date with
  | none => []
  | some x => pad4 x.y.toNat ++ '-' :: pad2 x.m ++ '-' :: pad2 x.d

/-- `buildCSVRow`: one comma-joined, escaped CSV row for a book. -/
def buildCSVRow (b : Book) : Str :=
  joinSep ','
    [escapeCSV b.title, escapeCSV b.author, escapeCSV b.status.str,
     formatDateForCSV b.publishedDate,
     formatDateForCSV b.readingStartDate,
     formatDateForCSV b.readingEndDate,
     escapeCSV (b.notes.getD []),
     escapeCSV (match b.tags with
                | some ts => joinSep ';' ts
                | none => [])]

/-- `buildCSVContent` with `includeData = true`: header line then one
newline-terminated row per book. -/
def buildCSVContent (books : List Book) : Str :=
  joinSep ',' CSV_HEADERS ++ '\n' ::
    (books.map (fun b => buildCSVRow b ++ ['\n'])).flatten

/-! ## CSV import (`processCSVImport` and helpers) -/

/-- `splitCSVLines`: split on line endings and drop whitespace-only
lines. -/
def splitCSVLines (csv : Str) : List Str :=
  (splitLines csv).filter (fun line => (trim line).length > 0)

/-- Insertion into a JS object used as a string-keyed map: a fresh key
is appended (insertion order is preserved), an existing key keeps its
position and has its value replaced. -/
def objInsert (m : List (Str × Str)) (k v : Str) : List (Str × Str) :=
  match m with
  | [] => [(k, v)]
  | (k', v') :: rest =>
    if k' = k then (k', v) :: rest else (k', v') :: objInsert rest k v

/-- Key lookup in a JS-object association list. -/
def objGet (m : List (Str × Str)) (k : Str) : Option Str :=
  match m with
  | [] => none
  | (k', v) :: rest => if k' = k then some v else objGet rest k

/-- The canonical header (if any) that a parsed header matches
case-insensitively: the `find?` inside `validateHeaders`. -/
def canonOf (h : Str) : Option Str :=
  CSV_HEADERS.find? (fun eh => lower eh = lower h)

/-- `validateHeaders`: parse the header line, map each header
case-insensitively onto the canonical header list, and fail when the
mandatory `Title`/`Author` headers are missing, naming the missing
ones. Returns the header map (original header → canonical header). -/
def validateHeaders (headerLine : Str) :
    Except Str (List (Str × Str)) :=
  let headers := (parseCSVLine headerLine).map trim
  let headerMap := headers.foldl
    (fun m h =>
      match canonOf h with
      | some matched => objInsert m h matched
      | none => m) []
  let missing := (["Title".toList, "Author".toList]).filter
    (fun h => !(headerMap.map Prod.snd).contains h)
  if missing.isEmpty then .ok headerMap
  else .error ("Missing required headers: ".toList ++
               joinSep2 ", ".toList missing)

/-- Pad a value list with empty strings up to the header count
(the `while (values.length < headers.length)` loop). -/
def padValues (values : List Str) (n : Nat) : List Str :=
  values ++ List.replicate (n - values.length) []

/-- `parseBookFromRow`: map the row's values onto the (normalized)
headers, require a non-empty Title and Author, and assemble the
candidate record; the error message is the thrown `Error`'s message
(the caller prefixes the row number). The `rowNumber` argument exists
in the source but is unused by it. -/
def parseBookFromRow (line : Str) (headerMap : List (Str × Str))
    (_rowNumber : Nat) : Except Str CsvBook :=
  let values := parseCSVLine line
  let headers := headerMap.map Prod.fst
  let padded := padValues values headers.length
  let bookData := (headers.enum.foldl
    (fun m hi =>
      let normalized := (objGet headerMap hi.2).getD hi.2
      objInsert m normalized (trim (padded.getD hi.1 []))) [])
  let title := trim ((objGet bookData "Title".toList).getD [])
  let author := trim ((objGet bookData "Author".toList).getD [])
  if title.isEmpty || author.isEmpty then
    .error ("Title and Author are required (found: Title=\"".toList ++
            title ++ "\", Author=\"".toList ++ author ++ "\")".toList)
  else
    let status := (validateStatus (objGet bookData "Status".toList)).getD .ToRead
    let tags := parseTags (objGet bookData "Tags".toList)
    .ok { title := title, author := author, status := status,
          publishedDate := parseDate ((objGet bookData "Published Date".toList).getD []),
          readingStartDate := parseDate ((objGet bookData "Reading Start Date".toList).getD []),
          readingEndDate := parseDate ((objGet bookData "Reading End Date".toList).getD []),
          notes := (match objGet bookData "Notes".toList with
                    | some n => if n.isEmpty then none else some n
                    | none => none),
          tags := if tags.length > 0 then some tags else none }

/-- Decimal rendering of a row number for error messages. -/
def natRepr (n : Nat) : Str := toDigits n

/-- The deduplication key: lowercased, trimmed `title + "|" + author`. -/
def bookKey (title author : Str) : Str :=
  trim (lower title) ++ '|' :: trim (lower author)

/-- The per-row loop of `processCSVImport`: parse each data line,
skip rows whose key collides with an existing or already-accepted key,
and accumulate books to add and error strings in encounter order.
`rowNum` is the 1-based index of the row in the non-empty line list. -/
def importRows (headerMap : List (Str × Str)) :
    List Str → Nat → List Str → List CsvBook × List Str
  | [], _, _ => ([], [])
  | r :: rest, rowNum, keys =>
    let line := trim r
    if line.isEmpty then importRows headerMap rest (rowNum + 1) keys
    else
      match parseBookFromRow line headerMap rowNum with
      | .error e =>
        let p := importRows headerMap rest (rowNum + 1) keys
        (p.1, ("Row ".toList ++ natRepr rowNum ++ ": ".toList ++ e) :: p.2)
      | .ok b =>
        let k := bookKey b.title b.author
        if keys.contains k then
          let p := importRows headerMap rest (rowNum + 1) keys
          (p.1, ("Row ".toList ++ natRepr rowNum ++
                 ": Book \"".toList ++ b.title ++ "\" by ".toList ++
                 b.author ++ " already exists and was skipped".toList) :: p.2)
        else
          let p := importRows headerMap rest (rowNum + 1) (keys ++ [k])
          (b :: p.1, p.2)

/-- The synchronous parsing phase of `processCSVImport`: structural and
header validation, then the row loop (seeded with the existing books'
deduplication keys). Produces the list of records to add and the
per-row error strings, or a single structural failure. -/
def parsePhase (csv : Str) (existingBooks : List Book) :
    Except Str (List CsvBook × List Str) :=
  match splitCSVLines csv with
  | [] => .error "CSV file must have at least a header row and one data row".toList
  | [_] => .error "CSV file must have at least a header row and one data row".toList
  | headerLine :: rows =>
    match validateHeaders headerLine with
    | .error e => .error e
    | .ok headerMap =>
      let existingKeys := existingBooks.map (fun b => bookKey b.title b.author)
      .ok (importRows headerMap rows 2 existingKeys)

/-- The `processNext` recursion inside `addBooksSequentially`: `idx` is
the 0-based position in the batch, `cnt` the success count so far. -/
def addBooksLoop (cb : CsvBook → Except Str Unit) :
    List CsvBook → Nat → Nat → List Str → ImportResult
  | [], _, cnt, errs => ⟨cnt, errs⟩
  | b :: rest, idx, cnt, errs =>
    match cb b with
    | .ok _ => addBooksLoop cb rest (idx + 1) (cnt + 1) errs
    | .error m =>
      addBooksLoop cb rest (idx + 1) cnt
        (errs ++ [("Row ".toList ++ natRepr (idx + 1) ++
                   ": Failed to add \"".toList ++ b.title ++
                   "\" - ".toList ++ m)])

/-- `addBooksSequentially`: write each accepted record in order through
the injected callback, counting successes; a failed write appends an
error naming the record's 1-based position in the batch (`index + 1`)
and processing continues with the next record. -/
def addBooksSequentially (books : List CsvBook)
    (cb : CsvBook → Except Str Unit) (errors : List Str) : ImportResult :=
  addBooksLoop cb books 0 0 errors

/-- `processCSVImport` end to end: parse phase then the sequential add
loop over the injected store-write callback. -/
def processCSVImport (csv : Str) (existingBooks : List Book)
    (cb : CsvBook → Except Str Unit) : Except Str ImportResult :=
  match parsePhase csv existingBooks with
  | .error e => .error e
  | .ok p => .ok (addBooksSequentially p.1 cb p.2)

/-! ## Stable sorting (JS `Array.prototype.sort`) -/

/-- Insert `x` into a run, after every element `y` with `le y x`
(`le y x` is `comparator(y, x) <= 0`). -/
def insertS {α : Type} (le : α → α → Bool) (x : α) : List α → List α
  | [] => [x]
  | y :: ys => if le y x then y :: insertS le x ys else x :: y :: ys

/-- Stable insertion sort: models JS `Array.prototype.sort`, which is
stable in every modern engine; `le a b` means `comparator(a, b) <= 0`. -/
def stableSort {α : Type} (le : α → α → Bool) (l : List α) : List α :=
  l.foldl (fun acc x => insertS le x acc) []

/-! ## Table view sorting (`TableViewComponent.applySort`) -/

/-- The `SortField` union type of the table view. -/
inductive SortField where
  | title | author | status | addedDate | readingStartDate
  | readingEndDate | rating
deriving DecidableEq, Repr

/-- JS `<` on strings: lexicographic comparison by code unit. -/
def lexLt : Str → Str → Bool
  | [], [] => false
  | [], _ :: _ => true
  | _ :: _, [] => false
  | a :: as, b :: bs =>
    if a.toNat < b.toNat then true
    else if b.toNat < a.toNat then false
    else lexLt as bs

/-- Split into maximal whitespace-free runs (the effect of
`split(/\s+/)` on a trimmed string); `cur` is the reversed current run. -/
def wordsWS : Str → Str → List Str
  | [], cur => if cur.isEmpty then [] else [cur.reverse]
  | c :: rest, cur =>
    if isWS c then
      if cur.isEmpty then wordsWS rest [] else cur.reverse :: wordsWS rest []
    else wordsWS rest (c :: cur)

/-- `getAuthorSurname`: the last whitespace-delimited token of the
trimmed author (or the whole name when it is a single token),
lowercased; empty input maps to the empty string. -/
def getAuthorSurname (author : Str) : Str :=
  let trimmed := trim author
  if trimmed.isEmpty then []
  else lower ((wordsWS trimmed []).getLastD [])

/-- The `ratingPriority` table: favourite > positive > negative > none. -/
def ratingPriority : BookRating → Nat
  | .Favourite => 3 | .Positive => 2 | .Negative => 1 | .None => 0

/-- The tail of the table-view comparator, generic in the extracted key:
a null key sorts after anything (returning before the direction flip is
applied), otherwise keys are compared and the result negated for a
descending sort. -/
def jsCmp {V : Type} (ltb : V → V → Bool) (asc : Bool) :
    Option V → Option V → Int
  | none, _ => 1
  | some _, none => -1
  | some x, some y =>
    let c : Int := if ltb x y then -1 else if ltb y x then 1 else 0
    if asc then c else -c

/-- The comparator passed to `books.sort` in
`TableViewComponent.applySort`, by active sort field and direction. -/
def sortCmp (f : SortField) (asc : Bool) (a b : Book) : Int :=
  match f with
  | .title => jsCmp lexLt asc (some (lower a.title)) (some (lower b.title))
  | .author =>
    jsCmp lexLt asc (some (getAuthorSurname a.author))
      (some (getAuthorSurname b.author))
  | .status => jsCmp lexLt asc (some a.status.str) (some b.status.str)
  | .addedDate => jsCmp YMD.ltb asc a.addedDate b.addedDate
  | .readingStartDate => jsCmp YMD.ltb asc a.readingStartDate b.readingStartDate
  | .readingEndDate => jsCmp YMD.ltb asc a.readingEndDate b.readingEndDate
  | .rating =>
    jsCmp (fun x y : Nat => decide (x < y)) asc
      (some (ratingPriority (a.rating.getD .None)))
      (some (ratingPriority (b.rating.getD .None)))

/-- `TableViewComponent.applySort`: sort the given books by the active
field and direction. -/
def applySort (f : SortField) (asc : Bool) (books : List Book) : List Book :=
  stableSort (fun a b => decide (sortCmp f asc a b ≤ 0)) books

/-- The value space of the table-view sort keys: JS strings, dates, or
rating-priority numbers. -/
inductive SKey where
  | s (v : Str)
  | d (v : YMD)
  | n (v : Nat)
deriving DecidableEq, Repr

/-- JS `<` on two sort-key values (only like-kinded keys are ever
compared for a fixed sort field). -/
def SKey.ltb : SKey → SKey → Bool
  | .s a, .s b => lexLt a b
  | .d a, .d b => YMD.ltb a b
  | .n a, .n b => decide (a < b)
  | _, _ => false

/-- The `aValue`/`bValue` extracted by the comparator switch for each
sort field; `none` is a JS `null`/`undefined` key. -/
def sortKey (f : SortField) (b : Book) : Option SKey :=
  match f with
  | .title => some (.s (lower b.title))
  | .author => some (.s (getAuthorSurname b.author))
  | .status => some (.s b.status.str)
  | .addedDate => b.addedDate.map .d
  | .readingStartDate => b.readingStartDate.map .d
  | .readingEndDate => b.readingEndDate.map .d
  | .rating => some (.n (ratingPriority (b.rating.getD .None)))

/-! ## Date-range filters -/

/-- The date-range branch of `TableViewComponent.applyFiltersAndSort`
(lines 138–184): raw start/end dates are tested against the optional
range bounds with early-return failures; no effective-end substitution
is performed here. -/
def tableDateRangeFilter (rangeStart rangeEnd : Option YMD) (b : Book) : Bool :=
  let sd := b.readingStartDate
  let ed := b.readingEndDate
  let failStart :=
    match sd with
    | some s =>
      (match rangeStart with
       | some rs => YMD.ltb s rs &&
           (match ed with
            | some e => YMD.ltb e rs
            | none => true)
       | none => false) ||
      (match rangeEnd with
       | some re => YMD.ltb re s
       | none => false)
    | none => false
  let failEnd :=
    match ed with
    | some e =>
      (match rangeEnd with
       | some re => YMD.ltb re e &&
           (match sd with
            | some s => YMD.ltb re s
            | none => true)
       | none => false) ||
      (match rangeStart with
       | some rs => YMD.ltb e rs
       | none => false)
    | none => false
  let failNoDates := sd.isNone && ed.isNone
  !(failStart || failEnd || failNoDates)

/-- The effective end date used by `GraphViewComponent.filterBooks`:
the book's end date, else "now" for a book currently being read, else
its start date plus one day. -/
def effectiveEnd (now : YMD) (b : Book) (s : YMD) : YMD :=
  match b.readingEndDate with
  | some e => e
  | none => if b.status = .Reading then now else addOneDay s

/-- The date-range branch of `GraphViewComponent.filterBooks`: the
effective end must not precede the range start and the start date must
not exceed the range end; a book without a start date never matches. -/
def graphDateRangeFilter (rangeStart rangeEnd : Option YMD) (now : YMD)
    (b : Book) : Bool :=
  match b.readingStartDate with
  | none => false
  | some s =>
    let e := effectiveEnd now b s
    !((match rangeStart with
       | some rs => YMD.ltb e rs
       | none => false) ||
      (match rangeEnd with
       | some re => YMD.ltb re s
       | none => false))

/-! ## Timeline (`TimelineService`) -/

/-- The comparator of `sortBooksForTimeline`: start date descending,
ties broken by end date descending, a present end date before an absent
one. Both arguments are eligible books, so their start dates are
present (`getDateValue(...)!`); an absent start is given a dummy value
that eligibility makes unreachable. -/
def timelineCmp (a b : Book) : Int :=
  let sA := a.readingStartDate.getD ⟨0, 1, 1⟩
  let sB := b.readingStartDate.getD ⟨0, 1, 1⟩
  if YMD.ltb sA sB then 1
  else if YMD.ltb sB sA then -1
  else
    match a.readingEndDate, b.readingEndDate with
    | some eA, some eB =>
      if YMD.ltb eA eB then 1 else if YMD.ltb eB eA then -1 else 0
    | some _, none => -1
    | none, some _ => 1
    | none, none => 0

/-- `sortBooksForTimeline`. -/
def sortBooksForTimeline (books : List Book) : List Book :=
  stableSort (fun a b => decide (timelineCmp a b ≤ 0)) books

/-- Render a JS number (the year, possibly negative) in decimal. -/
def intRepr (y : Int) : Str :=
  if y < 0 then '-' :: toDigits (-y).toNat else toDigits y.toNat

/-- The month key `` `${getFullYear()}-${String(getMonth()+1).padStart(2,'0')}` ``. -/
def monthKeyStr (d : YMD) : Str := intRepr d.y ++ '-' :: pad2 d.m

/-- `findMostRecentMonth`: the latest first-of-month among the books'
end-else-start dates, defaulting to the current month. -/
def findMostRecentMonth (books : List Book) (now : YMD) : YMD :=
  (books.foldl
    (fun mostRecent b =>
      match (match b.readingEndDate with
             | some e => some e
             | none => b.readingStartDate) with
      | none => mostRecent
      | some dc =>
        let monthStart : YMD := ⟨dc.y, dc.m, 1⟩
        match mostRecent with
        | none => some monthStart
        | some mr => if YMD.ltb mr monthStart then some monthStart else some mr)
    none).getD now

/-- A timeline bucket: its `YYYY-MM` key and member books in order.
(The display label `monthLabel` is pure presentation and not modelled.) -/
structure TimelineGroup where
  monthKey : Str
  books : List Book
deriving DecidableEq, Repr

/-- Append a book to the group with the given key, creating the group
at the end on first use (JS `Map` insertion order). -/
def addToGroup : List TimelineGroup → Str → Book → List TimelineGroup
  | [], key, b => [⟨key, [b]⟩]
  | g :: gs, key, b =>
    if g.monthKey = key then ⟨g.monthKey, g.books ++ [b]⟩ :: gs
    else g :: addToGroup gs key b

/-- `TimelineService.buildTimeline`: keep books with a start date, sort
them, bucket each by its end date's month (books without an end date
fall into the most recent month of the whole eligible set), and emit
buckets most-recent key first. -/
def buildTimeline (now : YMD) (books : List Book) : List TimelineGroup :=
  let eligible := books.filter (fun b => b.readingStartDate.isSome)
  let sorted := sortBooksForTimeline eligible
  let mostRecentMonth := findMostRecentMonth sorted now
  let groups := sorted.foldl
    (fun gs b =>
      let dateForGrouping :=
        match b.readingEndDate with
        | some e => e
        | none => mostRecentMonth
      addToGroup gs (monthKeyStr dateForGrouping) b) []
  stableSort
    (fun g1 g2 =>
      decide ((if lexLt g2.monthKey g1.monthKey then (-1 : Int)
               else if lexLt g1.monthKey g2.monthKey then 1 else 0) ≤ 0))
    groups


/-! ## Statement-level predicates

Decidable side conditions used by the claim theorems to delimit the
inputs that survive CSV encoding (the spec's "fields survive CSV
encoding" hedge). -/

/-- A real calendar date whose ISO rendering has a four-digit year. -/
abbrev validYMD (x : YMD) : Prop :=
  1000 ≤ x.y ∧ x.y ≤ 9999 ∧ 1 ≤ x.m ∧ x.m ≤ 12 ∧ 1 ≤ x.d ∧
    x.d ≤ daysInMonth x.y x.m

/-- A field value that line splitting cannot break. -/
abbrev lineSafe (f : Str) : Prop := '\n' ∉ f ∧ '\r' ∉ f

/-- A field value that survives the importer's trimming. -/
abbrev fieldOK (f : Str) : Prop := trim f = f ∧ lineSafe f

/-- A tag that survives the `;`-joined round trip. -/
abbrev tagOK (t : Str) : Prop := fieldOK t ∧ t ≠ [] ∧ ';' ∉ t

/-- A book every CSV-carried field of which survives encoding: title
and author are trimmed, non-empty and line-safe; dates are real
calendar dates with four-digit years; notes, when present, are
trimmed, non-empty and line-safe; tags, when present, are a non-empty
list of `;`-free trimmed non-empty tags. -/
abbrev bookCsvSafe (b : Book) : Prop :=
  fieldOK b.title ∧ b.title ≠ [] ∧
  fieldOK b.author ∧ b.author ≠ [] ∧
  (∀ x ∈ b.publishedDate, validYMD x) ∧
  (∀ x ∈ b.readingStartDate, validYMD x) ∧
  (∀ x ∈ b.readingEndDate, validYMD x) ∧
  (∀ n ∈ b.notes, fieldOK n ∧ n ≠ []) ∧
  (∀ ts ∈ b.tags, ts ≠ [] ∧ ∀ t ∈ ts, tagOK t)

/-- The exported header line. -/
def headerLine : Str := joinSep ',' CSV_HEADERS

/-- The header map produced for the canonical header line: every
canonical header maps to itself. -/
def canonicalHeaderMap : List (Str × Str) := CSV_HEADERS.map (fun h => (h, h))


end Reader
/-! # Lemma layer

Auxiliary lemmas about the string, date and tokenizer embeddings; the
claim theorems follow at the end of the file. -/

namespace Reader

theorem dropWhile_head_not (p : Char → Bool) (s : Str) :
    s.dropWhile p = [] ∨ ∃ c t, s.dropWhile p = c :: t ∧ p c = false := by
  induction s with
  | nil => exact .inl rfl
  | cons c t ih =>
    by_cases h : p c
    · simpa [List.dropWhile, h] using ih
    · right; exact ⟨c, t, by simp [List.dropWhile, h], by simpa using h⟩

theorem dropWhile_idem (p : Char → Bool) (s : Str) :
    (s.dropWhile p).dropWhile p = s.dropWhile p := by
  rcases dropWhile_head_not p s with h | ⟨c, t, h, hc⟩
  · simp [h]
  · simp [h, List.dropWhile, hc]

theorem dropWhile_eq_self_of_head (p : Char → Bool) (s : Str)
    (h : s = [] ∨ ∃ c t, s = c :: t ∧ p c = false) :
    s.dropWhile p = s := by
  rcases h with h | ⟨c, t, h, hc⟩
  · simp [h]
  · simp [h, List.dropWhile, hc]

theorem dropWhile_length_le (p : Char → Bool) (s : Str) :
    (s.dropWhile p).length ≤ s.length := by
  induction s with
  | nil => simp
  | cons c t ih =>
    by_cases h : p c
    · simp only [List.dropWhile, h]
      simp only [List.length_cons]
      omega
    · simp [List.dropWhile, h]

theorem dropWhile_length_eq (p : Char → Bool) (s : Str)
    (h : (s.dropWhile p).length = s.length) : s.dropWhile p = s := by
  cases s with
  | nil => rfl
  | cons c t =>
    by_cases hc : p c
    · exfalso
      have hle := dropWhile_length_le p t
      simp [List.dropWhile, hc] at h
      omega
    · simp [List.dropWhile, hc]

theorem trimLeft_head_not (s : Str) :
    trimLeft s = [] ∨ ∃ c t, trimLeft s = c :: t ∧ isWS c = false :=
  dropWhile_head_not isWS s

theorem trimLeft_eq_self (s : Str)
    (h : s = [] ∨ ∃ c t, s = c :: t ∧ isWS c = false) : trimLeft s = s :=
  dropWhile_eq_self_of_head isWS s h

theorem trimRight_idem (s : Str) : trimRight (trimRight s) = trimRight s := by
  unfold trimRight
  rw [List.reverse_reverse, dropWhile_idem]

theorem trimRight_decomp (s : Str) :
    ∃ w, (∀ c ∈ w, isWS c = true) ∧ s = trimRight s ++ w := by
  refine ⟨(s.reverse.takeWhile isWS).reverse, ?_, ?_⟩
  · intro c hc
    rw [List.mem_reverse] at hc
    exact List.mem_takeWhile_imp hc
  · unfold trimRight
    conv_lhs => rw [← s.reverse_reverse,
      ← List.takeWhile_append_dropWhile (p := isWS) (l := s.reverse)]
    rw [List.reverse_append]

theorem trimLeft_decomp (s : Str) :
    ∃ w, (∀ c ∈ w, isWS c = true) ∧ s = w ++ trimLeft s := by
  refine ⟨s.takeWhile isWS, ?_, ?_⟩
  · intro c hc; exact List.mem_takeWhile_imp hc
  · rw [trimLeft, List.takeWhile_append_dropWhile]

theorem head?_trimRight (s : Str) (h : trimRight s ≠ []) :
    (trimRight s).head? = s.head? := by
  obtain ⟨w, _, hs⟩ := trimRight_decomp s
  conv_rhs => rw [hs]
  cases hv : trimRight s with
  | nil => exact absurd hv h
  | cons c t => simp [hv]

theorem trim_idem (s : Str) : trim (trim s) = trim s := by
  unfold trim
  have hv : trimLeft (trimRight (trimLeft s)) = trimRight (trimLeft s) := by
    apply trimLeft_eq_self
    cases hvv : trimRight (trimLeft s) with
    | nil => exact .inl rfl
    | cons c t =>
      right
      refine ⟨c, t, rfl, ?_⟩
      have hne : trimRight (trimLeft s) ≠ [] := by simp [hvv]
      have hh := head?_trimRight (trimLeft s) hne
      rw [hvv] at hh
      rcases trimLeft_head_not s with h | ⟨c', t', h, hc'⟩
      · rw [h] at hvv; simp [trimRight] at hvv
      · rw [h] at hh
        simp at hh
        rw [hh]
        exact hc'
  rw [hv, trimRight_idem]

theorem trim_eq_self_of_forall (s : Str) (h : ∀ c ∈ s, isWS c = false) :
    trim s = s := by
  have h1 : trimLeft s = s := by
    apply trimLeft_eq_self
    cases s with
    | nil => exact .inl rfl
    | cons c t => exact .inr ⟨c, t, rfl, h c (by simp)⟩
  rw [trim, h1]
  unfold trimRight
  rw [dropWhile_eq_self_of_head, List.reverse_reverse]
  cases hs : s.reverse with
  | nil => exact .inl rfl
  | cons c t =>
    refine .inr ⟨c, t, rfl, ?_⟩
    apply h
    rw [← List.mem_reverse, hs]
    simp

theorem trim_decomp (s : Str) :
    ∃ w1 w2, (∀ c ∈ w1, isWS c = true) ∧ (∀ c ∈ w2, isWS c = true) ∧
      s = w1 ++ trim s ++ w2 := by
  obtain ⟨w1, hw1, h1⟩ := trimLeft_decomp s
  obtain ⟨w2, hw2, h2⟩ := trimRight_decomp (trimLeft s)
  refine ⟨w1, w2, hw1, hw2, ?_⟩
  rw [trim, List.append_assoc, ← h2, ← h1]

theorem trim_ne_nil (s : Str) (c : Char) (hc : c ∈ s) (hw : isWS c = false) :
    trim s ≠ [] := by
  obtain ⟨w1, w2, hw1, hw2, hs⟩ := trim_decomp s
  intro hnil
  rw [hs, hnil] at hc
  simp at hc
  rcases hc with h | h
  · rw [hw1 c h] at hw; cases hw
  · rw [hw2 c h] at hw; cases hw

theorem trimLeft_of_trim_eq (s : Str) (h : trim s = s) : trimLeft s = s := by
  have hlen1 : (trimLeft s).length ≤ s.length := dropWhile_length_le isWS s
  have hlen2 : (trim s).length ≤ (trimLeft s).length := by
    rw [trim]
    unfold trimRight
    calc ((trimLeft s).reverse.dropWhile isWS).reverse.length
        = ((trimLeft s).reverse.dropWhile isWS).length := by
          rw [List.length_reverse]
      _ ≤ (trimLeft s).reverse.length := dropWhile_length_le isWS _
      _ = (trimLeft s).length := by rw [List.length_reverse]
  rw [h] at hlen2
  unfold trimLeft at hlen1 hlen2
  exact dropWhile_length_eq isWS s (by omega)

theorem head_not_ws_of_trim_eq (s : Str) (c : Char) (t : Str)
    (h : trim s = s) (hs : s = c :: t) : isWS c = false := by
  have h1 := trimLeft_of_trim_eq s h
  by_contra hc
  simp at hc
  rw [hs] at h1
  simp only [trimLeft, List.dropWhile, hc] at h1
  have hle := dropWhile_length_le isWS t
  have hlen := congrArg List.length h1
  simp only [List.length_cons] at hlen
  change (t.dropWhile isWS).length = t.length + 1 at hlen
  omega

theorem getLast?_not_ws_of_trim_eq (s : Str) (c : Char)
    (h : trim s = s) (hc : s.getLast? = some c) : isWS c = false := by
  have h1 := trimLeft_of_trim_eq s h
  rw [trim, h1] at h
  have h2 : s.reverse.dropWhile isWS = s.reverse := by
    have h3 := congrArg List.reverse h
    unfold trimRight at h3
    rwa [List.reverse_reverse] at h3
  rcases dropWhile_head_not isWS s.reverse with hn | ⟨c', t', he, hc'⟩
  · rw [h2] at hn
    rw [← List.head?_reverse, hn] at hc
    cases hc
  · rw [h2] at he
    rw [← List.head?_reverse, he] at hc
    simp at hc
    rwa [hc] at hc'

end Reader
namespace Reader

theorem toDigitsAux_congr (n : Nat) : ∀ f1 f2, n ≤ f1 → n ≤ f2 →
    toDigitsAux f1 n = toDigitsAux f2 n := by
  induction n using Nat.strong_induction_on with
  | _ n ih =>
    intro f1 f2 h1 h2
    by_cases h10 : n < 10
    · cases f1 <;> cases f2 <;> simp [toDigitsAux, h10]
    · cases f1 with
      | zero => omega
      | succ f1' =>
        cases f2 with
        | zero => omega
        | succ f2' =>
          simp only [toDigitsAux, h10, if_neg]
          rw [ih (n / 10) (Nat.div_lt_self (by omega) (by omega)) f1' f2'
            (by omega) (by omega)]

theorem toDigits_small (n : Nat) (h : n < 10) : toDigits n = [digitChar n] := by
  unfold toDigits
  cases n <;> simp [toDigitsAux, h]

theorem toDigits_step (n : Nat) (h : ¬ n < 10) :
    toDigits n = toDigits (n / 10) ++ [digitChar (n % 10)] := by
  unfold toDigits
  cases hn : n with
  | zero => omega
  | succ k =>
    rw [← hn]
    have hh : toDigitsAux n n = toDigitsAux (k + 1) n := by
      rw [hn]
    rw [hh]
    have hred : toDigitsAux (k + 1) n = toDigitsAux k (n / 10) ++ [digitChar (n % 10)] := by
      simp [toDigitsAux, h]
    rw [hred, toDigitsAux_congr (n / 10) k (n / 10) (by omega) (by omega)]

theorem digitChar_isDigit (n : Nat) (h : n < 10) :
    (digitChar n).isDigit = true := by
  interval_cases n <;> decide

theorem digitVal_digitChar (n : Nat) (h : n < 10) :
    digitVal (digitChar n) = n := by
  interval_cases n <;> decide

theorem toDigits_mem_isDigit (n : Nat) : ∀ c ∈ toDigits n, c.isDigit = true := by
  induction n using Nat.strong_induction_on with
  | _ n ih =>
    by_cases h : n < 10
    · rw [toDigits_small n h]
      intro c hc
      simp at hc
      rw [hc]
      exact digitChar_isDigit n h
    · rw [toDigits_step n h]
      intro c hc
      simp at hc
      rcases hc with hc | hc
      · exact ih (n / 10) (Nat.div_lt_self (by omega) (by omega)) c hc
      · rw [hc]
        exact digitChar_isDigit _ (Nat.mod_lt n (by omega))

theorem ofDigits_foldl (l : Str) : ∀ init : Nat,
    l.foldl (fun a c => a * 10 + digitVal c) init =
      init * 10 ^ l.length + ofDigits l := by
  induction l with
  | nil => intro init; simp [ofDigits]
  | cons c t ih =>
    intro init
    show t.foldl (fun a c => a * 10 + digitVal c) (init * 10 + digitVal c) =
      init * 10 ^ (c :: t).length + ofDigits (c :: t)
    rw [ih (init * 10 + digitVal c)]
    have h2 : ofDigits (c :: t) = digitVal c * 10 ^ t.length + ofDigits t := by
      show t.foldl (fun a c => a * 10 + digitVal c) (0 * 10 + digitVal c) = _
      rw [ih (0 * 10 + digitVal c)]
      ring
    rw [h2, List.length_cons]
    ring

theorem ofDigits_append (a b : Str) :
    ofDigits (a ++ b) = ofDigits a * 10 ^ b.length + ofDigits b := by
  rw [ofDigits, List.foldl_append, ← ofDigits, ofDigits_foldl]

theorem ofDigits_toDigits (n : Nat) : ofDigits (toDigits n) = n := by
  induction n using Nat.strong_induction_on with
  | _ n ih =>
    by_cases h : n < 10
    · rw [toDigits_small n h]
      show ofDigits [digitChar n] = n
      simp [ofDigits, digitVal_digitChar n h]
    · rw [toDigits_step n h]
      rw [ofDigits_append, ih (n / 10) (Nat.div_lt_self (by omega) (by omega))]
      show n / 10 * 10 ^ 1 + ofDigits [digitChar (n % 10)] = n
      have : ofDigits [digitChar (n % 10)] = n % 10 := by
        simp [ofDigits, digitVal_digitChar _ (Nat.mod_lt n (by omega))]
      rw [this]
      omega

theorem toDigits_length_eq (k : Nat) : ∀ n, 10 ^ k ≤ n → n < 10 ^ (k + 1) →
    (toDigits n).length = k + 1 := by
  induction k with
  | zero =>
    intro n h1 h2
    have h2' : n < 10 := by simpa using h2
    rw [toDigits_small n h2']
    rfl
  | succ k ih =>
    intro n h1 h2
    have h10 : ¬ n < 10 := by
      have : (10:Nat) ^ 1 ≤ 10 ^ (k + 1) := Nat.pow_le_pow_right (by omega) (by omega)
      simp at this
      omega
    rw [toDigits_step n h10, List.length_append]
    have hd1 : 10 ^ k ≤ n / 10 := by
      rw [Nat.le_div_iff_mul_le (by omega)]
      calc 10 ^ k * 10 = 10 ^ (k + 1) := by ring
        _ ≤ n := h1
    have hd2 : n / 10 < 10 ^ (k + 1) := by
      rw [Nat.div_lt_iff_lt_mul (by omega)]
      calc n < 10 ^ (k + 2) := h2
        _ = 10 ^ (k + 1) * 10 := by ring
    rw [ih (n / 10) hd1 hd2]
    simp

theorem toDigits_length_one (n : Nat) (h : n < 10) : toDigits n = [digitChar n] :=
  toDigits_small n h

theorem pad2_length (n : Nat) (h : n ≤ 99) : (pad2 n).length = 2 := by
  rw [pad2]
  by_cases h10 : n < 10
  · simp [h10, toDigits_length_one n h10]
  · rw [if_neg h10]
    exact toDigits_length_eq 1 n (by omega) (by simp; omega)

theorem pad2_mem_isDigit (n : Nat) : ∀ c ∈ pad2 n, c.isDigit = true := by
  rw [pad2]
  by_cases h10 : n < 10
  · rw [if_pos h10]
    intro c hc
    simp at hc
    rcases hc with hc | hc
    · rw [hc]; decide
    · exact toDigits_mem_isDigit n c hc
  · rw [if_neg h10]
    exact toDigits_mem_isDigit n

theorem ofDigits_pad2 (n : Nat) : ofDigits (pad2 n) = n := by
  rw [pad2]
  by_cases h10 : n < 10
  · rw [if_pos h10]
    have : ('0' :: toDigits n) = ['0'] ++ toDigits n := rfl
    rw [this, ofDigits_append, ofDigits_toDigits]
    simp [ofDigits, digitVal]
  · rw [if_neg h10]
    exact ofDigits_toDigits n

theorem pad4_length (n : Nat) (h1 : 1000 ≤ n) (h2 : n ≤ 9999) :
    (pad4 n).length = 4 := by
  rw [pad4]
  exact toDigits_length_eq 3 n (by omega) (by norm_num; omega)

theorem pad4_mem_isDigit (n : Nat) : ∀ c ∈ pad4 n, c.isDigit = true :=
  toDigits_mem_isDigit n

theorem ofDigits_pad4 (n : Nat) : ofDigits (pad4 n) = n := ofDigits_toDigits n

theorem isDigit_ne_of_not_digit (c d : Char) (hc : c.isDigit = true)
    (hd : d.isDigit = false) : c ≠ d := by
  intro h
  rw [h, hd] at hc
  cases hc

theorem isDigit_not_ws (c : Char) (hc : c.isDigit = true) : isWS c = false := by
  have h1 : c ≠ ' ' := isDigit_ne_of_not_digit c ' ' hc (by decide)
  have h2 : c ≠ '\t' := isDigit_ne_of_not_digit c '\t' hc (by decide)
  have h3 : c ≠ '\n' := isDigit_ne_of_not_digit c '\n' hc (by decide)
  have h4 : c ≠ '\r' := isDigit_ne_of_not_digit c '\r' hc (by decide)
  have h5 : c ≠ '\x0b' := isDigit_ne_of_not_digit c '\x0b' hc (by decide)
  have h6 : c ≠ '\x0c' := isDigit_ne_of_not_digit c '\x0c' hc (by decide)
  simp [isWS, h1, h2, h3, h4, h5, h6]

end Reader
namespace Reader

theorem splitOnChar_ne_nil (sep : Char) (s : Str) : splitOnChar sep s ≠ [] := by
  cases s with
  | nil => simp [splitOnChar]
  | cons c rest =>
    simp only [splitOnChar]
    cases splitOnChar sep rest with
    | nil => by_cases h : c = sep <;> simp [h]
    | cons h t => by_cases hc : c = sep <;> simp [hc]

theorem splitOnChar_of_not_mem (sep : Char) (s : Str) (h : sep ∉ s) :
    splitOnChar sep s = [s] := by
  induction s with
  | nil => rfl
  | cons c rest ih =>
    have hc : c ≠ sep := by intro hh; exact h (by simp [hh])
    have hr : sep ∉ rest := by intro hh; exact h (by simp [hh])
    simp only [splitOnChar, ih hr]
    simp [hc]

theorem splitOnChar_append (sep : Char) (a rest : Str) (h : sep ∉ a) :
    splitOnChar sep (a ++ sep :: rest) = a :: splitOnChar sep rest := by
  induction a with
  | nil =>
    simp only [List.nil_append, splitOnChar]
    cases hsp : splitOnChar sep rest with
    | nil => exact absurd hsp (splitOnChar_ne_nil sep rest)
    | cons x t => simp
  | cons c a' ih =>
    have hc : c ≠ sep := by intro hh; exact h (by simp [hh])
    have ha : sep ∉ a' := by intro hh; exact h (by simp [hh])
    show splitOnChar sep (c :: (a' ++ sep :: rest)) = (c :: a') :: splitOnChar sep rest
    simp only [splitOnChar]
    rw [ih ha]
    simp [hc]

theorem joinSep_cons_cons (sep : Char) (c : Char) (h : Str) (t : List Str) :
    joinSep sep ((c :: h) :: t) = c :: joinSep sep (h :: t) := by
  cases t with
  | nil => rfl
  | cons y ys => simp [joinSep]

theorem joinSep_splitOnChar (sep : Char) (s : Str) :
    joinSep sep (splitOnChar sep s) = s := by
  induction s with
  | nil => rfl
  | cons c rest ih =>
    simp only [splitOnChar]
    cases hsp : splitOnChar sep rest with
    | nil => exact absurd hsp (splitOnChar_ne_nil sep rest)
    | cons x t =>
      rw [hsp] at ih
      by_cases hc : c = sep
      · simp only [hc, if_pos rfl]
        show [] ++ sep :: joinSep sep (x :: t) = sep :: rest
        rw [List.nil_append, ih]
      · simp only [hc, if_neg, ite_false]
        rw [joinSep_cons_cons, ih]

theorem mem_joinSep (sep : Char) (l : List Str) (c : Char)
    (hc : c ∈ joinSep sep l) : c = sep ∨ ∃ part ∈ l, c ∈ part := by
  induction l with
  | nil => cases hc
  | cons x t ih =>
    cases t with
    | nil =>
      right
      exact ⟨x, by simp, hc⟩
    | cons y ys =>
      simp only [joinSep] at hc
      rw [List.mem_append] at hc
      rcases hc with hc | hc
      · right; exact ⟨x, by simp, hc⟩
      · simp at hc
        rcases hc with hc | hc
        · left; exact hc
        · rcases ih hc with h | ⟨part, hp, hcp⟩
          · left; exact h
          · right; exact ⟨part, by simp [hp], hcp⟩

theorem splitLines_ne_nil (s : Str) : splitLines s ≠ [] := by
  rw [splitLines.eq_def]
  split
  · simp
  · simp
  · simp
  · split <;> simp

theorem splitLines_append (a rest : Str) (h1 : '\n' ∉ a) (h2 : '\r' ∉ a) :
    splitLines (a ++ '\n' :: rest) = a :: splitLines rest := by
  induction a with
  | nil =>
    show splitLines ('\n' :: rest) = [] :: splitLines rest
    rfl
  | cons c a' ih =>
    have hc1 : c ≠ '\n' := by intro hh; exact h1 (by simp [hh])
    have hc2 : c ≠ '\r' := by intro hh; exact h2 (by simp [hh])
    have ha1 : '\n' ∉ a' := by intro hh; exact h1 (by simp [hh])
    have ha2 : '\r' ∉ a' := by intro hh; exact h2 (by simp [hh])
    show splitLines (c :: (a' ++ '\n' :: rest)) = (c :: a') :: splitLines rest
    rw [splitLines.eq_def]
    split
    · rename_i heq
      cases heq
    · rename_i heq2 heq
      rw [List.cons_eq_cons] at heq
      exact absurd heq.1 hc2
    · rename_i x y heq
      rw [List.cons_eq_cons] at heq
      exact absurd heq.1 hc1
    · rename_i x1 c2 rest2 g1 g2 heq
      rw [List.cons_eq_cons] at heq
      rw [← heq.1, ← heq.2, ih ha1 ha2]

end Reader
namespace Reader

theorem csvTok_step_other (c : Char) (rest : Str) (inQ : Bool) (cur : Str)
    (hq : c ≠ '"') (hc : c = ',' → inQ = true) :
    csvTok (c :: rest) inQ cur = csvTok rest inQ (cur ++ [c]) := by
  rw [csvTok.eq_def]
  split <;> simp_all

theorem csvTok_step_comma (rest : Str) (cur : Str) :
    csvTok (',' :: rest) false cur = cur :: csvTok rest false [] := rfl

theorem csvTok_step_quote_in (rest : Str) (cur : Str) :
    csvTok ('"' :: '"' :: rest) true cur = csvTok rest true (cur ++ ['"']) := rfl

theorem csvTok_step_quote_open (rest : Str) (cur : Str) :
    csvTok ('"' :: rest) false cur = csvTok rest true cur := by
  rw [csvTok.eq_def]
  split <;> simp_all
  rename_i heq hnc
  exact absurd heq.1.symm (by assumption)

theorem csvTok_step_quote_close (c2 : Char) (t : Str) (cur : Str)
    (h : c2 ≠ '"') :
    csvTok ('"' :: c2 :: t) true cur = csvTok (c2 :: t) false cur := by
  rw [csvTok.eq_def]
  split <;> simp_all
  rename_i heq
  exact absurd heq.1.symm (by assumption)

theorem csvTok_step_quote_close_nil (cur : Str) :
    csvTok ['"'] true cur = [cur] := by
  rw [csvTok.eq_def]
  split <;> simp_all
  · rfl
  · rename_i heq
    exact absurd heq.1.symm (by assumption)

end Reader
namespace Reader

theorem csvTok_plain_mid (f : Str) (hq : '"' ∉ f) (hc : ',' ∉ f) :
    ∀ (rest cur : Str),
    csvTok (f ++ ',' :: rest) false cur = (cur ++ f) :: csvTok rest false [] := by
  induction f with
  | nil => intro rest cur; simp [csvTok_step_comma]
  | cons c f' ih =>
    intro rest cur
    have h1 : c ≠ '"' := fun h => hq (by simp [h])
    have h2 : c ≠ ',' := fun h => hc (by simp [h])
    have hq' : '"' ∉ f' := fun h => hq (by simp [h])
    have hc' : ',' ∉ f' := fun h => hc (by simp [h])
    rw [List.cons_append,
      csvTok_step_other c _ false cur h1 (fun h => absurd h h2),
      ih hq' hc']
    simp

theorem csvTok_plain_end (f : Str) (hq : '"' ∉ f) (hc : ',' ∉ f) :
    ∀ cur : Str, csvTok f false cur = [cur ++ f] := by
  induction f with
  | nil => intro cur; simp [csvTok]
  | cons c f' ih =>
    intro cur
    have h1 : c ≠ '"' := fun h => hq (by simp [h])
    have h2 : c ≠ ',' := fun h => hc (by simp [h])
    have hq' : '"' ∉ f' := fun h => hq (by simp [h])
    have hc' : ',' ∉ f' := fun h => hc (by simp [h])
    rw [csvTok_step_other c _ false cur h1 (fun h => absurd h h2), ih hq' hc']
    simp

theorem escQuotes_cons (c : Char) (f : Str) (h : c ≠ '"') :
    escQuotes (c :: f) = c :: escQuotes f := by
  rw [escQuotes.eq_def]
  split <;> simp_all

theorem csvTok_esc_mid (f : Str) : ∀ (rest cur : Str),
    csvTok (escQuotes f ++ '"' :: ',' :: rest) true cur =
      (cur ++ f) :: csvTok rest false [] := by
  induction f with
  | nil =>
    intro rest cur
    show csvTok ('"' :: ',' :: rest) true cur = (cur ++ []) :: csvTok rest false []
    rw [csvTok_step_quote_close ',' rest cur (by decide), csvTok_step_comma]
    simp
  | cons c f' ih =>
    intro rest cur
    by_cases hcq : c = '"'
    · rw [hcq]
      show csvTok ('"' :: '"' :: (escQuotes f' ++ '"' :: ',' :: rest)) true cur = _
      rw [csvTok_step_quote_in, ih rest (cur ++ ['"'])]
      simp
    · rw [escQuotes_cons c f' hcq, List.cons_append,
        csvTok_step_other c _ true cur hcq (fun _ => rfl), ih]
      simp

theorem csvTok_esc_end (f : Str) : ∀ cur : Str,
    csvTok (escQuotes f ++ ['"']) true cur = [cur ++ f] := by
  induction f with
  | nil =>
    intro cur
    show csvTok ['"'] true cur = [cur ++ []]
    rw [csvTok_step_quote_close_nil]
    simp
  | cons c f' ih =>
    intro cur
    by_cases hcq : c = '"'
    · rw [hcq]
      show csvTok ('"' :: '"' :: (escQuotes f' ++ ['"'])) true cur = _
      rw [csvTok_step_quote_in, ih (cur ++ ['"'])]
      simp
    · rw [escQuotes_cons c f' hcq, List.cons_append,
        csvTok_step_other c _ true cur hcq (fun _ => rfl), ih]
      simp

theorem not_mem_of_contains_false (f : Str) (c : Char)
    (h : f.contains c = false) : c ∉ f := by
  intro hm
  simp at h
  exact h hm

theorem csvTok_escape_mid (f : Str) (rest cur : Str) :
    csvTok (escapeCSV f ++ ',' :: rest) false cur =
      (cur ++ f) :: csvTok rest false [] := by
  rw [escapeCSV]
  by_cases he : f.isEmpty
  · rw [if_pos he]
    have : f = [] := by simpa using he
    rw [this]
    simp [csvTok_step_comma]
  · rw [if_neg he]
    by_cases hcond : (f.contains ',' || f.contains '\n' || f.contains '"') = true
    · rw [if_pos hcond]
      show csvTok (('"' :: (escQuotes f ++ ['"'])) ++ ',' :: rest) false cur = _
      rw [List.cons_append, csvTok_step_quote_open, List.append_assoc]
      show csvTok (escQuotes f ++ '"' :: ',' :: rest) true cur = _
      exact csvTok_esc_mid f rest cur
    · rw [if_neg hcond]
      simp only [Bool.or_eq_true, not_or, Bool.not_eq_true] at hcond
      exact csvTok_plain_mid f (not_mem_of_contains_false f '"' hcond.2)
        (not_mem_of_contains_false f ',' hcond.1.1) rest cur

theorem csvTok_escape_end (f : Str) (cur : Str) :
    csvTok (escapeCSV f) false cur = [cur ++ f] := by
  rw [escapeCSV]
  by_cases he : f.isEmpty
  · rw [if_pos he]
    have : f = [] := by simpa using he
    rw [this]
    simp [csvTok]
  · rw [if_neg he]
    by_cases hcond : (f.contains ',' || f.contains '\n' || f.contains '"') = true
    · rw [if_pos hcond]
      show csvTok ('"' :: (escQuotes f ++ ['"'])) false cur = _
      rw [csvTok_step_quote_open]
      exact csvTok_esc_end f cur
    · rw [if_neg hcond]
      simp only [Bool.or_eq_true, not_or, Bool.not_eq_true] at hcond
      exact csvTok_plain_end f (not_mem_of_contains_false f '"' hcond.2)
        (not_mem_of_contains_false f ',' hcond.1.1) cur

theorem csvTok_row (fields : List Str) (h : fields ≠ []) :
    csvTok (joinSep ',' (fields.map escapeCSV)) false [] = fields := by
  induction fields with
  | nil => exact absurd rfl h
  | cons f t ih =>
    cases t with
    | nil =>
      show csvTok (joinSep ',' [escapeCSV f]) false [] = [f]
      rw [joinSep]
      rw [csvTok_escape_end f []]
      simp
    | cons g t' =>
      simp only [List.map] at ih ⊢
      rw [joinSep]
      rw [csvTok_escape_mid f _ []]
      rw [ih (by simp)]
      simp

theorem parseCSVLine_join (fields : List Str) (h : fields ≠ []) :
    parseCSVLine (joinSep ',' (fields.map escapeCSV)) = fields.map trim := by
  rw [parseCSVLine, csvTok_row fields h]

end Reader
namespace Reader

theorem char_digit_bounds (c : Char) (h : c.isDigit = true) :
    48 ≤ c.toNat ∧ c.toNat ≤ 57 := by
  rw [Char.isDigit, Bool.and_eq_true] at h
  obtain ⟨h1, h2⟩ := h
  rw [decide_eq_true_eq] at h1 h2
  exact ⟨h1, h2⟩

theorem digitVal_le_9 (c : Char) (h : c.isDigit = true) : digitVal c ≤ 9 := by
  have := char_digit_bounds c h
  unfold digitVal
  omega

theorem ofDigits_lt_pow (s : Str) (h : ∀ c ∈ s, c.isDigit = true) :
    ofDigits s < 10 ^ s.length := by
  induction s with
  | nil => simp [ofDigits]
  | cons c t ih =>
    have hc : ofDigits (c :: t) = digitVal c * 10 ^ t.length + ofDigits t := by
      have : (c :: t) = [c] ++ t := rfl
      rw [this, ofDigits_append]
      simp [ofDigits]
    rw [hc, List.length_cons]
    have h1 := digitVal_le_9 c (h c (by simp))
    have h2 := ih (fun x hx => h x (by simp [hx]))
    calc digitVal c * 10 ^ t.length + ofDigits t
        ≤ 9 * 10 ^ t.length + ofDigits t := by
          have := Nat.mul_le_mul_right (10 ^ t.length) h1
          omega
      _ < 9 * 10 ^ t.length + 10 ^ t.length := by omega
      _ = 10 ^ (t.length + 1) := by ring

theorem matchSlash_elim (s : Str) (a b c : Nat)
    (h : matchSlash s = some (a, b, c)) :
    ∃ A B C, splitOnChar '/' s = [A, B, C] ∧
      allDigits A = true ∧ A.length ≤ 2 ∧
      allDigits B = true ∧ B.length ≤ 2 ∧
      allDigits C = true ∧ C.length = 4 ∧
      a = ofDigits A ∧ b = ofDigits B ∧ c = ofDigits C := by
  rw [matchSlash] at h
  split at h
  · rename_i A B C heq
    split at h
    · rename_i hcond
      simp only [Option.some.injEq, Prod.mk.injEq] at h
      simp only [Bool.and_eq_true, decide_eq_true_eq] at hcond
      exact ⟨A, B, C, heq, hcond.1.1.1.1.1, hcond.1.1.1.1.2, hcond.1.1.1.2,
        hcond.1.1.2, hcond.1.2, hcond.2, h.1.symm, h.2.1.symm, h.2.2.symm⟩
    · cases h
  · cases h

theorem allDigits_mem (s : Str) (h : allDigits s = true) :
    ∀ c ∈ s, c.isDigit = true := by
  rw [allDigits, Bool.and_eq_true] at h
  intro c hc
  have := h.2
  rw [List.all_eq_true] at this
  exact this c hc

theorem matchSlash_bounds (s : Str) (a b c : Nat)
    (h : matchSlash s = some (a, b, c)) : a ≤ 99 ∧ b ≤ 99 ∧ c ≤ 9999 := by
  obtain ⟨A, B, C, _, hA, hAl, hB, hBl, hC, hCl, ha, hb, hc⟩ :=
    matchSlash_elim s a b c h
  refine ⟨?_, ?_, ?_⟩
  · rw [ha]
    have := ofDigits_lt_pow A (allDigits_mem A hA)
    have hle : (10:Nat) ^ A.length ≤ 10 ^ 2 := Nat.pow_le_pow_right (by omega) hAl
    simp at hle
    omega
  · rw [hb]
    have := ofDigits_lt_pow B (allDigits_mem B hB)
    have hle : (10:Nat) ^ B.length ≤ 10 ^ 2 := Nat.pow_le_pow_right (by omega) hBl
    simp at hle
    omega
  · rw [hc]
    have := ofDigits_lt_pow C (allDigits_mem C hC)
    rw [hCl] at this
    norm_num at this
    omega

theorem matchSlash_chars (s : Str) (a b c : Nat)
    (h : matchSlash s = some (a, b, c)) :
    ∀ ch ∈ s, ch = '/' ∨ ch.isDigit = true := by
  obtain ⟨A, B, C, hsp, hA, _, hB, _, hC, _, _, _, _⟩ := matchSlash_elim s a b c h
  intro ch hch
  have hs : s = joinSep '/' [A, B, C] := by
    rw [← joinSep_splitOnChar '/' s, hsp]
  rw [hs] at hch
  rcases mem_joinSep '/' [A, B, C] ch hch with hc | ⟨part, hp, hcp⟩
  · exact .inl hc
  · right
    simp at hp
    rcases hp with hp | hp | hp
    · exact allDigits_mem A hA ch (hp ▸ hcp)
    · exact allDigits_mem B hB ch (hp ▸ hcp)
    · exact allDigits_mem C hC ch (hp ▸ hcp)

theorem matchSlash_no_dash (s : Str) (a b c : Nat)
    (h : matchSlash s = some (a, b, c)) : '-' ∉ s := by
  intro hm
  rcases matchSlash_chars s a b c h '-' hm with hc | hc
  · cases hc
  · cases hc

theorem matchISO_elim (s : Str) (a b c : Nat)
    (h : matchISO s = some (a, b, c)) :
    ∃ A B C, splitOnChar '-' s = [A, B, C] ∧
      allDigits A = true ∧ A.length = 4 ∧
      allDigits B = true ∧ B.length = 2 ∧
      allDigits C = true ∧ C.length = 2 ∧
      a = ofDigits A ∧ b = ofDigits B ∧ c = ofDigits C := by
  rw [matchISO] at h
  split at h
  · rename_i A B C heq
    split at h
    · rename_i hcond
      simp only [Option.some.injEq, Prod.mk.injEq] at h
      simp only [Bool.and_eq_true, decide_eq_true_eq] at hcond
      exact ⟨A, B, C, heq, hcond.1.1.1.1.1, hcond.1.1.1.1.2, hcond.1.1.1.2,
        hcond.1.1.2, hcond.1.2, hcond.2, h.1.symm, h.2.1.symm, h.2.2.symm⟩
    · cases h
  · cases h

theorem matchISO_chars (s : Str) (a b c : Nat)
    (h : matchISO s = some (a, b, c)) :
    ∀ ch ∈ s, ch = '-' ∨ ch.isDigit = true := by
  obtain ⟨A, B, C, hsp, hA, _, hB, _, hC, _, _, _, _⟩ := matchISO_elim s a b c h
  intro ch hch
  have hs : s = joinSep '-' [A, B, C] := by
    rw [← joinSep_splitOnChar '-' s, hsp]
  rw [hs] at hch
  rcases mem_joinSep '-' [A, B, C] ch hch with hc | ⟨part, hp, hcp⟩
  · exact .inl hc
  · right
    simp at hp
    rcases hp with hp | hp | hp
    · exact allDigits_mem A hA ch (hp ▸ hcp)
    · exact allDigits_mem B hB ch (hp ▸ hcp)
    · exact allDigits_mem C hC ch (hp ▸ hcp)

theorem matchISO_no_slash (s : Str) (a b c : Nat)
    (h : matchISO s = some (a, b, c)) : '/' ∉ s := by
  intro hm
  rcases matchISO_chars s a b c h '/' hm with hc | hc
  · cases hc
  · cases hc

theorem matchSlash_none_of_no_slash (s : Str) (h : '/' ∉ s) :
    matchSlash s = none := by
  rw [matchSlash, splitOnChar_of_not_mem '/' s h]

theorem matchISO_none_of_no_dash (s : Str) (h : '-' ∉ s) :
    matchISO s = none := by
  rw [matchISO, splitOnChar_of_not_mem '-' s h]

end Reader
namespace Reader

theorem daysInMonth_ge_28 (y : Int) (m : Nat) (h1 : 1 ≤ m) (h2 : m ≤ 12) :
    28 ≤ daysInMonth y m := by
  interval_cases m <;> simp [daysInMonth] <;> split <;> omega

theorem nextYM_bounds (y : Int) (m : Nat) (h1 : 1 ≤ m) (h2 : m ≤ 12) :
    (nextYM y m).1 * 12 + ((nextYM y m).2 : Int) = y * 12 + (m : Int) + 1 ∧
      1 ≤ (nextYM y m).2 ∧ (nextYM y m).2 ≤ 12 := by
  unfold nextYM
  by_cases hm : m = 12
  · rw [if_pos hm]
    subst hm
    refine ⟨by push_cast; ring, by norm_num, by norm_num⟩
  · rw [if_neg hm]
    refine ⟨by push_cast; ring, by omega, by omega⟩

theorem rollDay_spec (fuel : Nat) : ∀ (y : Int) (m d : Nat),
    1 ≤ m → m ≤ 12 → 1 ≤ d → d ≤ fuel →
    ∃ k : Nat,
      (rollDay fuel y m d).y * 12 + ((rollDay fuel y m d).m : Int) =
        y * 12 + (m : Int) + (k : Int) ∧
      28 * k < d + 28 ∧
      (daysInMonth y m < d → 1 ≤ k) ∧
      1 ≤ (rollDay fuel y m d).m ∧ (rollDay fuel y m d).m ≤ 12 := by
  induction fuel with
  | zero => intro y m d _ _ hd1 hd2; omega
  | succ fuel ih =>
    intro y m d hm1 hm2 hd1 hd2
    rw [rollDay]
    by_cases hle : d ≤ daysInMonth y m
    · rw [if_pos hle]
      exact ⟨0, by push_cast; ring, by omega, by omega, hm1, hm2⟩
    · rw [if_neg hle]
      have h28 := daysInMonth_ge_28 y m hm1 hm2
      have hb := nextYM_bounds y m hm1 hm2
      obtain ⟨k', hk1, hk2, _, hk4, hk5⟩ :=
        ih (nextYM y m).1 (nextYM y m).2 (d - daysInMonth y m)
          hb.2.1 hb.2.2 (by omega) (by omega)
      refine ⟨k' + 1, ?_, by omega, by omega, hk4, hk5⟩
      rw [hk1, hb.1]
      push_cast
      ring

theorem rollDay_id (fuel : Nat) (y : Int) (m d : Nat)
    (h : d ≤ daysInMonth y m) : rollDay fuel y m d = ⟨y, m, d⟩ := by
  cases fuel with
  | zero => rfl
  | succ f => rw [rollDay, if_pos h]

theorem jsMakeDate_norm (y : Int) (m : Nat) (hm1 : 1 ≤ m) (hm2 : m ≤ 12) :
    (y * 12 + ((m : Int) - 1)) / 12 = y ∧
      (y * 12 + ((m : Int) - 1)) % 12 = (m : Int) - 1 := by
  have hidx : y * 12 + ((m : Int) - 1) = ((m : Int) - 1) + 12 * y := by ring
  constructor
  · rw [hidx, Int.add_mul_ediv_left _ _ (by norm_num)]
    rw [Int.ediv_eq_zero_of_lt (by omega) (by omega)]
    omega
  · rw [hidx, Int.add_mul_emod_self_left]
    exact Int.emod_eq_of_lt (by omega) (by omega)

theorem jsMakeDate_valid (y : Int) (m d : Nat) (hm1 : 1 ≤ m) (hm2 : m ≤ 12)
    (hd1 : 1 ≤ d) (hd2 : d ≤ daysInMonth y m) :
    jsMakeDate y ((m : Int) - 1) d = ⟨y, m, d⟩ := by
  obtain ⟨hdiv, hmod⟩ := jsMakeDate_norm y m hm1 hm2
  show (if d = 0 then _ else rollDay d ((y * 12 + ((m : Int) - 1)) / 12)
    (((y * 12 + ((m : Int) - 1)) % 12).toNat + 1) d) = (⟨y, m, d⟩ : YMD)
  rw [if_neg (by omega), hdiv, hmod]
  have hm' : ((m : Int) - 1).toNat + 1 = m := by omega
  rw [hm']
  exact rollDay_id d y m d hd2

theorem prevYM_bounds (y : Int) (m : Nat) (h1 : 1 ≤ m) (h2 : m ≤ 12) :
    1 ≤ (prevYM y m).2 ∧ (prevYM y m).2 ≤ 12 := by
  unfold prevYM
  by_cases hm : m = 1
  · rw [if_pos hm]
    exact ⟨by norm_num, by norm_num⟩
  · rw [if_neg hm]
    exact ⟨by omega, by omega⟩

theorem jsMakeDate_def2 (y m0 : Int) (d : Nat) :
    jsMakeDate y m0 d =
      if d = 0 then
        ⟨(prevYM ((y * 12 + m0) / 12) (((y * 12 + m0) % 12).toNat + 1)).1,
         (prevYM ((y * 12 + m0) / 12) (((y * 12 + m0) % 12).toNat + 1)).2,
         daysInMonth (prevYM ((y * 12 + m0) / 12) (((y * 12 + m0) % 12).toNat + 1)).1
           (prevYM ((y * 12 + m0) / 12) (((y * 12 + m0) % 12).toNat + 1)).2⟩
      else rollDay d ((y * 12 + m0) / 12) (((y * 12 + m0) % 12).toNat + 1) d := rfl

theorem jsMakeDate_m_bounds (y : Int) (m0 : Int) (d : Nat) :
    1 ≤ (jsMakeDate y m0 d).m ∧ (jsMakeDate y m0 d).m ≤ 12 := by
  have hmod1 : 0 ≤ (y * 12 + m0) % 12 := Int.emod_nonneg _ (by norm_num)
  have hmod2 : (y * 12 + m0) % 12 < 12 := Int.emod_lt_of_pos _ (by norm_num)
  rw [jsMakeDate_def2]
  by_cases hd : d = 0
  · rw [if_pos hd]
    exact prevYM_bounds _ _ (by omega) (by omega)
  · rw [if_neg hd]
    obtain ⟨k, h1', h2', h3', h4', h5'⟩ :=
      rollDay_spec d ((y * 12 + m0) / 12) (((y * 12 + m0) % 12).toNat + 1) d
        (by omega) (by omega) (by omega) (le_refl d)
    exact ⟨h4', h5'⟩

theorem jsMakeDate_overflow_month (y : Int) (m d : Nat) (hm1 : 1 ≤ m)
    (hm2 : m ≤ 12) (hd : daysInMonth y m < d) (hd2 : d ≤ 99) :
    (jsMakeDate y ((m : Int) - 1) d).m ≠ m := by
  have h28 := daysInMonth_ge_28 y m hm1 hm2
  have hd1 : 1 ≤ d := by omega
  obtain ⟨hdiv, hmod⟩ := jsMakeDate_norm y m hm1 hm2
  have hform : jsMakeDate y ((m : Int) - 1) d = rollDay d y m d := by
    show (if d = 0 then _ else rollDay d ((y * 12 + ((m : Int) - 1)) / 12)
      (((y * 12 + ((m : Int) - 1)) % 12).toNat + 1) d) = rollDay d y m d
    rw [if_neg (by omega), hdiv, hmod]
    have hm' : ((m : Int) - 1).toNat + 1 = m := by omega
    rw [hm']
  rw [hform]
  obtain ⟨k, hk1, hk2, hk3, _, _⟩ :=
    rollDay_spec d y m d hm1 hm2 hd1 (le_refl d)
  have hk1' := hk3 hd
  intro hEq
  rw [hEq] at hk1
  omega

theorem jsMakeDate_big_month0 (y : Int) (m0 : Int) (d : Nat) (h : 12 ≤ m0) :
    ((jsMakeDate y m0 d).m : Int) - 1 ≠ m0 := by
  have := jsMakeDate_m_bounds y m0 d
  omega

end Reader
namespace Reader

theorem matchSlash_nil : matchSlash [] = none := rfl

theorem matchISO_nil : matchISO [] = none := rfl

theorem trim_ne_of_matchSlash (s : Str) (a b c : Nat)
    (ht : matchSlash (trim s) = some (a, b, c)) : (trim s).isEmpty = false := by
  cases hts : trim s with
  | nil => rw [hts] at ht; cases ht
  | cons x t => simp

theorem trim_ne_of_matchISO (s : Str) (a b c : Nat)
    (ht : matchISO (trim s) = some (a, b, c)) : (trim s).isEmpty = false := by
  cases hts : trim s with
  | nil => rw [hts] at ht; cases ht
  | cons x t => simp

theorem parseDate_empty (s : Str) (h : trim s = []) : parseDate s = none := by
  unfold parseDate
  rw [if_pos (by simp [h])]

theorem parseDate_dayfirst (s : Str) (a b c : Nat)
    (ht : matchSlash (trim s) = some (a, b, c))
    (hm1 : 1 ≤ b) (hm2 : b ≤ 12) (hd1 : 1 ≤ a) (hd2 : a ≤ daysInMonth c b) :
    parseDate s = some ⟨(c : Int), b, a⟩ := by
  have hne := trim_ne_of_matchSlash s a b c ht
  unfold parseDate
  rw [if_neg (by simp [hne])]
  simp only [ht]
  rw [jsMakeDate_valid (c : Int) b a hm1 hm2 hd1 hd2]
  simp [YMD.month0]

end Reader
namespace Reader

theorem parseDate_iso (s : Str) (y m d : Nat)
    (ht : matchISO (trim s) = some (y, m, d)) :
    parseDate s = some (jsMakeDate (y : Int) ((m : Int) - 1) d) := by
  have hne := trim_ne_of_matchISO s y m d ht
  have hslash : matchSlash (trim s) = none :=
    matchSlash_none_of_no_slash (trim s) (matchISO_no_slash (trim s) y m d ht)
  unfold parseDate
  rw [if_neg (by simp [hne])]
  simp only [hslash, ht]

theorem parseDate_monthfirst (s : Str) (a b c : Nat)
    (ht : matchSlash (trim s) = some (a, b, c))
    (hb : 12 < b) (ha1 : 1 ≤ a) (ha2 : a ≤ 12) (hbd : b ≤ daysInMonth c a) :
    parseDate s = some ⟨(c : Int), a, b⟩ := by
  have hne := trim_ne_of_matchSlash s a b c ht
  have hiso : matchISO (trim s) = none :=
    matchISO_none_of_no_dash (trim s) (matchSlash_no_dash (trim s) a b c ht)
  have hday : ((jsMakeDate (c : Int) ((b : Int) - 1) a).m : Int) - 1 ≠ (b : Int) - 1 :=
    jsMakeDate_big_month0 (c : Int) ((b : Int) - 1) a (by omega)
  unfold parseDate
  rw [if_neg (by simp [hne])]
  simp only [ht, hiso]
  rw [jsMakeDate_valid (c : Int) a b ha1 ha2 (by omega) hbd]
  have hmf : ((⟨(c : Int), a, b⟩ : YMD)).month0 = (a : Int) - 1 := rfl
  simp only [YMD.month0] at hday ⊢
  rw [if_neg (by simp [hday]), if_pos (by simp)]

theorem parseDate_slash_bad_day1 (s : Str) (a b c : Nat)
    (ht : matchSlash (trim s) = some (a, b, c))
    (hm1 : 1 ≤ b) (hm2 : b ≤ 12) (hd : daysInMonth c b < a) :
    parseDate s = none := by
  have hne := trim_ne_of_matchSlash s a b c ht
  have hbounds := matchSlash_bounds (trim s) a b c ht
  have hiso : matchISO (trim s) = none :=
    matchISO_none_of_no_dash (trim s) (matchSlash_no_dash (trim s) a b c ht)
  have h28 := daysInMonth_ge_28 (c : Int) b hm1 hm2
  -- day-first rejected: rolled month differs
  have hroll := jsMakeDate_overflow_month (c : Int) b a hm1 hm2 hd (by omega)
  -- month-first rejected: a - 1 ≥ 12 as a month index
  have hmf : ((jsMakeDate (c : Int) ((a : Int) - 1) b).m : Int) - 1 ≠ (a : Int) - 1 :=
    jsMakeDate_big_month0 (c : Int) ((a : Int) - 1) b (by omega)
  unfold parseDate
  rw [if_neg (by simp [hne])]
  simp only [ht, hiso]
  have hroll' : ((jsMakeDate (c : Int) ((b : Int) - 1) a).m : Int) - 1 ≠ (b : Int) - 1 := by
    intro hEq
    exact hroll (by omega)
  simp only [YMD.month0]
  rw [if_neg (by simp [hroll']), if_neg (by simp [hmf])]
  show jsGenericParse (trim s) = none
  rw [jsGenericParse, ht]
  show (if (decide (1 ≤ a) && decide (a ≤ 12) && decide (1 ≤ b) &&
      decide (b ≤ 31)) = true then
      some (jsMakeDate (c : Int) ((a : Int) - 1) b) else none) = none
  rw [if_neg (by simp; omega)]

theorem parseDate_slash_roll_day2 (s : Str) (a b c : Nat)
    (ht : matchSlash (trim s) = some (a, b, c))
    (ha1 : 1 ≤ a) (ha2 : a ≤ 12) (hbd : daysInMonth c a < b)
    (hb31 : b ≤ 31) :
    parseDate s = some (jsMakeDate (c : Int) ((a : Int) - 1) b) := by
  have hne := trim_ne_of_matchSlash s a b c ht
  have hbounds := matchSlash_bounds (trim s) a b c ht
  have hiso : matchISO (trim s) = none :=
    matchISO_none_of_no_dash (trim s) (matchSlash_no_dash (trim s) a b c ht)
  have h28 := daysInMonth_ge_28 (c : Int) a ha1 ha2
  -- day-first rejected: month index b - 1 ≥ 28 is out of range
  have hdf : ((jsMakeDate (c : Int) ((b : Int) - 1) a).m : Int) - 1 ≠ (b : Int) - 1 :=
    jsMakeDate_big_month0 (c : Int) ((b : Int) - 1) a (by omega)
  -- month-first rejected: day b overflows month a
  have hroll := jsMakeDate_overflow_month (c : Int) a b ha1 ha2 hbd (by omega)
  have hroll' : ((jsMakeDate (c : Int) ((a : Int) - 1) b).m : Int) - 1 ≠ (a : Int) - 1 := by
    intro hEq
    exact hroll (by omega)
  unfold parseDate
  rw [if_neg (by simp [hne])]
  simp only [ht, hiso]
  simp only [YMD.month0]
  rw [if_neg (by simp [hdf]), if_neg (by simp [hroll'])]
  show jsGenericParse (trim s) = some (jsMakeDate (c : Int) ((a : Int) - 1) b)
  rw [jsGenericParse, ht]
  show (if (decide (1 ≤ a) && decide (a ≤ 12) && decide (1 ≤ b) &&
      decide (b ≤ 31)) = true then
      some (jsMakeDate (c : Int) ((a : Int) - 1) b) else none) =
    some (jsMakeDate (c : Int) ((a : Int) - 1) b)
  rw [if_pos (by simp; omega)]

end Reader
namespace Reader

theorem daysInMonth_le_31 (y : Int) (m : Nat) : daysInMonth y m ≤ 31 := by
  unfold daysInMonth
  split
  · omega
  · split <;> omega
  all_goals omega

theorem allDigits_intro (s : Str) (hne : s ≠ [])
    (h : ∀ c ∈ s, c.isDigit = true) : allDigits s = true := by
  rw [allDigits, Bool.and_eq_true]
  constructor
  · simp [hne]
  · rw [List.all_eq_true]
    exact h

theorem not_dash_of_digits (s : Str) (h : ∀ c ∈ s, c.isDigit = true) :
    '-' ∉ s := by
  intro hm
  have := h '-' hm
  cases this

theorem matchISO_render (y : Int) (m d : Nat) (hy1 : 1000 ≤ y) (hy2 : y ≤ 9999)
    (hm : m ≤ 99) (hd : d ≤ 99) :
    matchISO (pad4 y.toNat ++ '-' :: (pad2 m ++ '-' :: pad2 d)) =
      some (y.toNat, m, d) := by
  have hy1' : 1000 ≤ y.toNat := by omega
  have hy2' : y.toNat ≤ 9999 := by omega
  have hnd4 : '-' ∉ pad4 y.toNat := not_dash_of_digits _ (pad4_mem_isDigit y.toNat)
  have hndm : '-' ∉ pad2 m := not_dash_of_digits _ (pad2_mem_isDigit m)
  have hndd : '-' ∉ pad2 d := not_dash_of_digits _ (pad2_mem_isDigit d)
  have hl4 := pad4_length y.toNat hy1' hy2'
  have hlm := pad2_length m hm
  have hld := pad2_length d hd
  rw [matchISO, splitOnChar_append '-' _ _ hnd4,
    splitOnChar_append '-' _ _ hndm, splitOnChar_of_not_mem '-' _ hndd]
  have hcond : (allDigits (pad4 y.toNat) && decide ((pad4 y.toNat).length = 4) &&
      allDigits (pad2 m) && decide ((pad2 m).length = 2) &&
      allDigits (pad2 d) && decide ((pad2 d).length = 2)) = true := by
    rw [allDigits_intro _ (by intro hnil; rw [hnil] at hl4; cases hl4)
        (pad4_mem_isDigit y.toNat),
      allDigits_intro _ (by intro hnil; rw [hnil] at hlm; cases hlm)
        (pad2_mem_isDigit m),
      allDigits_intro _ (by intro hnil; rw [hnil] at hld; cases hld)
        (pad2_mem_isDigit d), hl4, hlm, hld]
    simp
  show (if (allDigits (pad4 y.toNat) && decide ((pad4 y.toNat).length = 4) &&
      allDigits (pad2 m) && decide ((pad2 m).length = 2) &&
      allDigits (pad2 d) && decide ((pad2 d).length = 2)) = true then
      some (ofDigits (pad4 y.toNat), ofDigits (pad2 m), ofDigits (pad2 d))
    else none) = some (y.toNat, m, d)
  rw [if_pos hcond, ofDigits_pad4, ofDigits_pad2, ofDigits_pad2]

theorem formatDateForCSV_some (x : YMD) :
    formatDateForCSV (some x) = pad4 x.y.toNat ++ '-' :: (pad2 x.m ++ '-' :: pad2 x.d) := by
  rw [formatDateForCSV]
  simp

theorem formatDate_chars (x : YMD) :
    ∀ c ∈ formatDateForCSV (some x), c = '-' ∨ c.isDigit = true := by
  rw [formatDateForCSV_some]
  intro c hc
  simp at hc
  rcases hc with h | h | h | h | h
  · exact .inr (pad4_mem_isDigit _ c h)
  · exact .inl h
  · exact .inr (pad2_mem_isDigit _ c h)
  · exact .inl h
  · exact .inr (pad2_mem_isDigit _ c h)

theorem formatDate_not_ws (x : YMD) :
    ∀ c ∈ formatDateForCSV (some x), isWS c = false := by
  intro c hc
  rcases formatDate_chars x c hc with h | h
  · rw [h]; decide
  · exact isDigit_not_ws c h

theorem parseDate_format (x : YMD) (hv : validYMD x) :
    parseDate (formatDateForCSV (some x)) = some x := by
  obtain ⟨hy1, hy2, hm1, hm2, hd1, hd2⟩ := hv
  have h31 := daysInMonth_le_31 x.y x.m
  have htrim : trim (formatDateForCSV (some x)) = formatDateForCSV (some x) :=
    trim_eq_self_of_forall _ (formatDate_not_ws x)
  have hiso : matchISO (trim (formatDateForCSV (some x))) =
      some (x.y.toNat, x.m, x.d) := by
    rw [htrim, formatDateForCSV_some]
    exact matchISO_render x.y x.m x.d hy1 hy2 (by omega) (by omega)
  rw [parseDate_iso _ _ _ _ hiso]
  have hyy : (x.y.toNat : Int) = x.y := by omega
  rw [hyy, jsMakeDate_valid x.y x.m x.d hm1 hm2 hd1 hd2]

theorem parseDate_format_none : parseDate (formatDateForCSV none) = none := by
  rw [formatDateForCSV]
  exact parseDate_empty [] rfl

end Reader
/-! # Claim theorems -/

namespace Reader

/-- C2, counterexample: the claim says every recognized calendar format
rejects a day that does not exist in the named month, but two of the
three formats roll it over instead. The strict `YYYY-MM-DD` branch of
`parseDate` has no round-trip check, so `2024-04-31` (April has 30
days) silently becomes 2024-05-01; and a month-first `04/31/2024`
falls past handled branches (day-first sees month 31, month-first fails
its month round-trip check) into the engine's generic `new Date(string)`
parse, whose legacy US parser accepts any day up to 31 and rolls it
over, yielding 2024-05-01 as well — never "no date". -/
theorem claim_C2_counterexample :
    (parseDate ("2024-04-31".toList) = some ⟨2024, 5, 1⟩ ∧
      parseDate ("2024-04-31".toList) ≠ none) ∧
    (parseDate ("04/31/2024".toList) = some ⟨2024, 5, 1⟩ ∧
      parseDate ("04/31/2024".toList) ≠ none) := by
  refine ⟨⟨?_, ?_⟩, ?_, ?_⟩ <;> decide

/-- C2, amended: only the day-first `D/M/YYYY` reading rejects a day
that does not exist in the named month (such a day exceeds 12, so the
month-first retry and the generic US fallback both see an invalid
month): it yields "no date". A `YYYY-MM-DD` string is accepted with JS
`Date` rollover normalization and no round-trip check, and a
month-first `M/D/YYYY` string with a valid month and an overflowing
day up to 31 reaches the engine's generic `new Date(string)` parse and
comes back as the rolled-over date. -/
theorem claim_C2 :
    (∀ (s : Str) (a b c : Nat), matchSlash (trim s) = some (a, b, c) →
      1 ≤ b → b ≤ 12 → daysInMonth (c : Int) b < a → parseDate s = none) ∧
    (∀ (s : Str) (a b c : Nat), matchSlash (trim s) = some (a, b, c) →
      1 ≤ a → a ≤ 12 → daysInMonth (c : Int) a < b → b ≤ 31 →
      parseDate s = some (jsMakeDate (c : Int) ((a : Int) - 1) b)) ∧
    (∀ (s : Str) (y m d : Nat), matchISO (trim s) = some (y, m, d) →
      parseDate s = some (jsMakeDate (y : Int) ((m : Int) - 1) d)) :=
  ⟨fun s a b c ht hm1 hm2 hd => parseDate_slash_bad_day1 s a b c ht hm1 hm2 hd,
   fun s a b c ht ha1 ha2 hbd hb31 =>
     parseDate_slash_roll_day2 s a b c ht ha1 ha2 hbd hb31,
   fun s y m d ht => parseDate_iso s y m d ht⟩

/-- C2, witness: the amended claim applied at `31/04/2024` (day-first
overflow: "no date"), `04/31/2024` (month-first overflow: rolls over
to 2024-05-01) and `2024-02-30` (ISO rollover to 2024-03-01). -/
theorem claim_C2_witness :
    parseDate ("31/04/2024".toList) = none ∧
      parseDate ("04/31/2024".toList) = some ⟨2024, 5, 1⟩ ∧
      parseDate ("2024-02-30".toList) = some ⟨2024, 3, 1⟩ :=
  ⟨claim_C2.1 _ 31 4 2024 (by decide) (by decide) (by decide) (by decide),
   (claim_C2.2.1 _ 4 31 2024 (by decide) (by decide) (by decide) (by decide)
     (by decide)).trans (by decide),
   (claim_C2.2.2 _ 2024 2 30 (by decide)).trans (by decide)⟩

/-- C7: `parseDate` tries day-first, then ISO, then month-first, then
the generic parse, with the claimed observable consequences: (1) empty
or whitespace-only input yields "no date"; (2) a slash string whose
day-first reading is a valid calendar date is parsed day-first (so a
string valid under both slash interpretations, like 05/04/2024, is
day-first); (3) a slash string whose day-first month is invalid
(greater than 12) and whose month-first reading is valid falls back to
month-first. -/
theorem claim_C7 :
    (∀ s : Str, trim s = [] → parseDate s = none) ∧
    (∀ (s : Str) (a b c : Nat), matchSlash (trim s) = some (a, b, c) →
      1 ≤ b → b ≤ 12 → 1 ≤ a → a ≤ daysInMonth (c : Int) b →
      parseDate s = some ⟨(c : Int), b, a⟩) ∧
    (∀ (s : Str) (a b c : Nat), matchSlash (trim s) = some (a, b, c) →
      12 < b → 1 ≤ a → a ≤ 12 → b ≤ daysInMonth (c : Int) a →
      parseDate s = some ⟨(c : Int), a, b⟩) :=
  ⟨fun s h => parseDate_empty s h,
   fun s a b c ht hm1 hm2 hd1 hd2 => parseDate_dayfirst s a b c ht hm1 hm2 hd1 hd2,
   fun s a b c ht hb ha1 ha2 hbd => parseDate_monthfirst s a b c ht hb ha1 ha2 hbd⟩

/-- C7, witness: whitespace-only input, the ambiguous string
05/04/2024 parsed day-first as 2024-04-05, and 05/13/2024 parsed
month-first as 2024-05-13. -/
theorem claim_C7_witness :
    parseDate ("   ".toList) = none ∧
      parseDate ("05/04/2024".toList) = some ⟨2024, 4, 5⟩ ∧
      parseDate ("05/13/2024".toList) = some ⟨2024, 5, 13⟩ :=
  ⟨claim_C7.1 _ (by decide),
   claim_C7.2.1 _ 5 4 2024 (by decide) (by decide) (by decide) (by decide) (by decide),
   claim_C7.2.2 _ 5 13 2024 (by decide) (by decide) (by decide) (by decide) (by decide)⟩

end Reader
namespace Reader

/-- C1, counterexample: the claim says the date-range filter
substitutes the effective end date for every book lacking one, so a
currently-reading book whose start date lies before the range matches.
The graph view does substitute (and matches), but the table view's
date-range branch performs no substitution and excludes that book. -/
theorem claim_C1_counterexample :
    tableDateRangeFilter (some ⟨2024, 1, 1⟩) (some ⟨2024, 12, 31⟩)
      (⟨"A".toList, "X".toList, .Reading, none, none,
        some ⟨2023, 6, 1⟩, none, none, none, none⟩ : Book) = false ∧
    graphDateRangeFilter (some ⟨2024, 1, 1⟩) (some ⟨2024, 12, 31⟩) ⟨2024, 6, 15⟩
      (⟨"A".toList, "X".toList, .Reading, none, none,
        some ⟨2023, 6, 1⟩, none, none, none, none⟩ : Book) = true := by
  constructor
  · decide
  · decide

/-- C1, amended: only the graph view's date-range filter substitutes
the effective end date ("now" for a reading book, start plus one day
otherwise), so there a reading book with a start date inside or before
the range matches whenever "now" is not before the range start and the
start is not after the range end. The table view's date-range branch
uses the raw dates: a book without an end date matches exactly when
its start date lies within the range, and one whose start date
precedes the range start never matches, whatever its status. -/
theorem claim_C1 :
    (∀ (rs re : Option YMD) (now : YMD) (b : Book) (s : YMD),
      b.readingStartDate = some s → b.readingEndDate = none →
      b.status = .Reading →
      (∀ r, rs = some r → YMD.ltb now r = false) →
      (∀ r, re = some r → YMD.ltb r s = false) →
      graphDateRangeFilter rs re now b = true) ∧
    (∀ (rs re : Option YMD) (b : Book) (s : YMD),
      b.readingStartDate = some s → b.readingEndDate = none →
      (∀ r, rs = some r → YMD.ltb s r = false) →
      (∀ r, re = some r → YMD.ltb r s = false) →
      tableDateRangeFilter rs re b = true) ∧
    (∀ (rs re : Option YMD) (b : Book) (s r : YMD),
      b.readingStartDate = some s → b.readingEndDate = none →
      rs = some r → YMD.ltb s r = true →
      tableDateRangeFilter rs re b = false) := by
  refine ⟨?_, ?_, ?_⟩
  · intro rs re now b s hs he hst hrs hre
    have hee : effectiveEnd now b s = now := by
      simp [effectiveEnd, he, hst]
    simp only [graphDateRangeFilter, hs, hee]
    cases rs with
    | none =>
      cases re with
      | none => rfl
      | some r => simp [hre r rfl]
    | some r =>
      cases re with
      | none => simp [hrs r rfl]
      | some r2 => simp [hrs r rfl, hre r2 rfl]
  · intro rs re b s hs he hrs hre
    rw [tableDateRangeFilter, hs, he]
    cases rs with
    | none =>
      cases re with
      | none => rfl
      | some r => simp [hre r rfl]
    | some r =>
      cases re with
      | none => simp [hrs r rfl]
      | some r2 => simp [hrs r rfl, hre r2 rfl]
  · intro rs re b s r hs he hrs hlt
    rw [tableDateRangeFilter, hs, he, hrs]
    simp [hlt]

/-- C1, witness: the amended claim at the counterexample book (start
2023-06-01, no end date, status reading) with the range
[2024-01-01, 2024-12-31] and "now" = 2024-06-15, and at a book started
2024-03-01 inside the range for the table view. -/
theorem claim_C1_witness :
    graphDateRangeFilter (some ⟨2024, 1, 1⟩) (some ⟨2024, 12, 31⟩) ⟨2024, 6, 15⟩
      (⟨"A".toList, "X".toList, .Reading, none, none,
        some ⟨2023, 6, 1⟩, none, none, none, none⟩ : Book) = true ∧
    tableDateRangeFilter (some ⟨2024, 1, 1⟩) (some ⟨2024, 12, 31⟩)
      (⟨"B".toList, "X".toList, .Reading, none, none,
        some ⟨2024, 3, 1⟩, none, none, none, none⟩ : Book) = true ∧
    tableDateRangeFilter (some ⟨2024, 1, 1⟩) (some ⟨2024, 12, 31⟩)
      (⟨"A".toList, "X".toList, .Reading, none, none,
        some ⟨2023, 6, 1⟩, none, none, none, none⟩ : Book) = false :=
  ⟨claim_C1.1 _ _ _ _ ⟨2023, 6, 1⟩ rfl rfl rfl
      (by intro r hr; cases hr; decide) (by intro r hr; cases hr; decide),
   claim_C1.2.1 _ _ _ ⟨2024, 3, 1⟩ rfl rfl
      (by intro r hr; cases hr; decide) (by intro r hr; cases hr; decide),
   claim_C1.2.2 _ _ _ ⟨2023, 6, 1⟩ ⟨2024, 1, 1⟩ rfl rfl rfl (by decide)⟩

end Reader
namespace Reader

/-- C10: every field produced by `parseCSVLine` is trimmed — including
fields that were enclosed in quotes, so surrounding whitespace inside a
quoted field is never preserved — while commas and doubled quotes
inside quotes are preserved as literal content (`" a "` parses to `a`,
`"x,y"` keeps its comma, `"q""z"` keeps a literal quote). -/
theorem claim_C10 :
    (∀ line : Str, ∀ f ∈ parseCSVLine line, trim f = f) ∧
    parseCSVLine ("\" a \",\"x,y\",\"q\"\"z\"".toList) =
      ["a".toList, "x,y".toList, "q\"z".toList] := by
  constructor
  · intro line f hf
    rw [parseCSVLine] at hf
    simp at hf
    obtain ⟨g, _, hg⟩ := hf
    rw [← hg, trim_idem]
  · decide

/-- C10, witness: the trimming clause applied to the quoted field
`" a "` of a concrete line, whose parsed value is `a`. -/
theorem claim_C10_witness :
    trim ("a".toList) = "a".toList :=
  claim_C10.1 ("\" a \"".toList) ("a".toList) (by decide)

end Reader
namespace Reader

/-- C5: evaluation of the import at the failing input. The CSV has
data rows `Dune,Frank Herbert` (CSV row 2) and `Emma,Jane Austen`
(CSV row 3); the store write fails for Dune and succeeds for Emma.
Processing continues past the failure and the result carries one error
for the failed row — but the error names "Row 1", the record's 1-based
position in the batch of accepted rows (`index + 1` in
`addBooksSequentially`), not the row's CSV row number 2 that the claim
(and the parse-phase errors in the same list) use. -/
theorem claim_C5 :
    processCSVImport ("Title,Author\nDune,Frank Herbert\nEmma,Jane Austen\n".toList)
      []
      (fun b => if b.title = "Dune".toList then .error ("Network error".toList)
                else .ok ()) =
      .ok ⟨1, [("Row 1: Failed to add \"Dune\" - Network error".toList)]⟩ := by
  rfl

end Reader
namespace Reader

theorem objGet_some_mem (m : List (Str × Str)) (k w : Str)
    (h : objGet m k = some w) : (k, w) ∈ m := by
  induction m with
  | nil => cases h
  | cons p rest ih =>
    rw [objGet] at h
    by_cases hk : p.1 = k
    · rw [if_pos hk] at h
      simp at h
      have : p = (k, w) := by
        cases p
        simp at hk h ⊢
        exact ⟨hk, h⟩
      rw [← this]
      exact List.mem_cons_self p rest
    · rw [if_neg hk] at h
      right
      exact ih h

theorem objInsert_values_of_get_eq (m : List (Str × Str)) (k v : Str)
    (h : objGet m k = some v) :
    (objInsert m k v).map Prod.snd = m.map Prod.snd := by
  induction m with
  | nil => cases h
  | cons p rest ih =>
    rw [objGet] at h
    rw [objInsert]
    by_cases hk : p.1 = k
    · rw [if_pos hk] at h
      simp at h
      simp [hk, h]
    · rw [if_neg hk] at h
      simp [hk, ih h]

theorem objInsert_values_of_get_none (m : List (Str × Str)) (k v : Str)
    (h : objGet m k = none) :
    (objInsert m k v).map Prod.snd = m.map Prod.snd ++ [v] := by
  induction m with
  | nil => simp [objInsert]
  | cons p rest ih =>
    rw [objGet] at h
    rw [objInsert]
    by_cases hk : p.1 = k
    · rw [if_pos hk] at h
      cases h
    · rw [if_neg hk] at h
      simp [hk, ih h]

theorem objInsert_inv (m : List (Str × Str)) (k v : Str)
    (inv : ∀ p ∈ m, canonOf p.1 = some p.2) (hv : canonOf k = some v) :
    ∀ p ∈ objInsert m k v, canonOf p.1 = some p.2 := by
  induction m with
  | nil =>
    intro p hp
    simp [objInsert] at hp
    rw [hp]
    exact hv
  | cons q rest ih =>
    intro p hp
    rw [objInsert] at hp
    by_cases hk : q.1 = k
    · rw [if_pos hk] at hp
      simp at hp
      rcases hp with hp | hp
      · rw [hp]
        show canonOf q.1 = some v
        rw [hk]
        exact hv
      · exact inv p (by simp [hp])
    · rw [if_neg hk] at hp
      simp at hp
      rcases hp with hp | hp
      · exact inv p (by simp [hp])
      · exact ih (fun q' hq' => inv q' (by simp [hq'])) p hp

theorem headerFold_values (headers : List Str) :
    ∀ (m : List (Str × Str)), (∀ p ∈ m, canonOf p.1 = some p.2) →
    ∀ v, v ∈ (headers.foldl
        (fun m h => match canonOf h with
          | some matched => objInsert m h matched
          | none => m) m).map Prod.snd ↔
      v ∈ m.map Prod.snd ∨ ∃ h ∈ headers, canonOf h = some v := by
  induction headers with
  | nil =>
    intro m _ v
    simp
  | cons h t ih =>
    intro m inv v
    rw [List.foldl_cons]
    cases hc : canonOf h with
    | none =>
      simp only [hc]
      rw [ih m inv v]
      constructor
      · rintro (hv | hv)
        · exact .inl hv
        · exact .inr (by obtain ⟨h', hh', hcv⟩ := hv; exact ⟨h', by simp [hh'], hcv⟩)
      · rintro (hv | ⟨h', hh', hcv⟩)
        · exact .inl hv
        · simp at hh'
          rcases hh' with hh' | hh'
          · rw [hh'] at hcv
            rw [hcv] at hc
            cases hc
          · exact .inr ⟨h', hh', hcv⟩
    | some c =>
      simp only [hc]
      have inv' : ∀ p ∈ objInsert m h c, canonOf p.1 = some p.2 :=
        objInsert_inv m h c inv hc
      rw [ih (objInsert m h c) inv' v]
      cases hget : objGet m h with
      | some w =>
        have hmem := objGet_some_mem m h w hget
        have hwc : w = c := by
          have := inv (h, w) hmem
          simp at this
          rw [this] at hc
          simp at hc
          exact hc
        rw [objInsert_values_of_get_eq m h c (by rw [hget, hwc])]
        constructor
        · rintro (hv | hv)
          · exact .inl hv
          · exact .inr (by obtain ⟨h', hh', hcv⟩ := hv; exact ⟨h', by simp [hh'], hcv⟩)
        · rintro (hv | ⟨h', hh', hcv⟩)
          · exact .inl hv
          · simp at hh'
            rcases hh' with hh' | hh'
            · left
              rw [hh'] at hcv
              rw [hcv] at hc
              simp at hc
              rw [← hc] at hwc
              rw [← hwc]
              exact List.mem_map_of_mem Prod.snd hmem
            · exact .inr ⟨h', hh', hcv⟩
      | none =>
        rw [objInsert_values_of_get_none m h c hget]
        constructor
        · rintro (hv | hv)
          · rw [List.mem_append] at hv
            rcases hv with hv | hv
            · exact .inl hv
            · simp at hv
              exact .inr ⟨h, by simp, by rw [hv]; exact hc⟩
          · exact .inr (by obtain ⟨h', hh', hcv⟩ := hv; exact ⟨h', by simp [hh'], hcv⟩)
        · rintro (hv | ⟨h', hh', hcv⟩)
          · exact .inl (by rw [List.mem_append]; exact .inl hv)
          · simp at hh'
            rcases hh' with hh' | hh'
            · left
              rw [List.mem_append]
              right
              rw [hh'] at hcv
              rw [hcv] at hc
              simp at hc
              simp [hc]
            · exact .inr ⟨h', hh', hcv⟩

end Reader
namespace Reader

theorem canonOf_title (h : Str) :
    canonOf h = some ("Title".toList) ↔ lower h = "title".toList := by
  constructor
  · intro hc
    rw [canonOf] at hc
    have hp := List.find?_some hc
    simp at hp
    rw [← hp]
    decide
  · intro hl
    rw [canonOf, CSV_HEADERS]
    rw [List.find?_cons_of_pos]
    simp [hl]
    decide

theorem canonOf_author (h : Str) :
    canonOf h = some ("Author".toList) ↔ lower h = "author".toList := by
  constructor
  · intro hc
    rw [canonOf] at hc
    have hp := List.find?_some hc
    simp at hp
    rw [← hp]
    decide
  · intro hl
    rw [canonOf, CSV_HEADERS]
    rw [List.find?_cons_of_neg, List.find?_cons_of_pos]
    · simp [hl]
      decide
    · simp [hl]
      decide

end Reader
namespace Reader

theorem contains_eq_true_of_mem (l : List Str) (v : Str) (h : v ∈ l) :
    l.contains v = true := List.elem_eq_true_of_mem h

theorem contains_eq_false_of_not_mem (l : List Str) (v : Str) (h : v ∉ l) :
    l.contains v = false := by
  cases hc : l.contains v with
  | false => rfl
  | true => exact absurd (List.mem_of_elem_eq_true hc) h

theorem validateHeaders_missing (header : Str)
    (hmiss : ¬((∃ h ∈ (parseCSVLine header).map trim, lower h = "title".toList) ∧
      (∃ h ∈ (parseCSVLine header).map trim, lower h = "author".toList))) :
    validateHeaders header =
      .error ("Missing required headers: ".toList ++ joinSep2 (", ".toList)
        ((if ∃ h ∈ (parseCSVLine header).map trim, lower h = "title".toList
          then [] else ["Title".toList]) ++
         (if ∃ h ∈ (parseCSVLine header).map trim, lower h = "author".toList
          then [] else ["Author".toList]))) := by
  have hvals := headerFold_values ((parseCSVLine header).map trim) []
    (by intro p hp; cases hp)
  have hTiff : ("Title".toList ∈ List.map Prod.snd (List.foldl
      (fun m h => match canonOf h with
        | some matched => objInsert m h matched
        | none => m) [] (List.map trim (parseCSVLine header)))) ↔
      (∃ h ∈ (parseCSVLine header).map trim, lower h = "title".toList) := by
    rw [hvals ("Title".toList)]
    simp only [List.map_nil, List.not_mem_nil, false_or]
    exact exists_congr (fun h => and_congr_right (fun _ => canonOf_title h))
  have hAiff : ("Author".toList ∈ List.map Prod.snd (List.foldl
      (fun m h => match canonOf h with
        | some matched => objInsert m h matched
        | none => m) [] (List.map trim (parseCSVLine header)))) ↔
      (∃ h ∈ (parseCSVLine header).map trim, lower h = "author".toList) := by
    rw [hvals ("Author".toList)]
    simp only [List.map_nil, List.not_mem_nil, false_or]
    exact exists_congr (fun h => and_congr_right (fun _ => canonOf_author h))
  simp only [validateHeaders]
  rw [List.filter_cons, List.filter_cons, List.filter_nil]
  by_cases hpT : ∃ h ∈ (parseCSVLine header).map trim, lower h = "title".toList <;>
    by_cases hpA : ∃ h ∈ (parseCSVLine header).map trim, lower h = "author".toList
  · exact absurd ⟨hpT, hpA⟩ hmiss
  · rw [contains_eq_true_of_mem _ _ (hTiff.mpr hpT),
      contains_eq_false_of_not_mem _ _ (fun hm => hpA (hAiff.mp hm))]
    simp only [Bool.not_true, Bool.not_false, if_false, if_true]
    rw [if_neg (by simp), if_pos hpT, if_neg hpA]
    rfl
  · rw [contains_eq_false_of_not_mem _ _ (fun hm => hpT (hTiff.mp hm)),
      contains_eq_true_of_mem _ _ (hAiff.mpr hpA)]
    simp only [Bool.not_true, Bool.not_false, if_false, if_true]
    rw [if_neg (by simp), if_neg hpT, if_pos hpA]
    rfl
  · rw [contains_eq_false_of_not_mem _ _ (fun hm => hpT (hTiff.mp hm)),
      contains_eq_false_of_not_mem _ _ (fun hm => hpA (hAiff.mp hm))]
    simp only [Bool.not_true, Bool.not_false, if_false, if_true]
    rw [if_neg (by simp), if_neg hpT, if_neg hpA]
    rfl

end Reader
namespace Reader

/-- C8: a CSV with fewer than two non-empty lines aborts the
whole import with the structural error, and a CSV whose header row (matched
case-insensitively) lacks the mandatory Title or Author header aborts
the whole import before any data row is processed with an error naming
exactly the missing mandatory headers; in both cases the result is a
single failure, never a row-level result. -/
theorem claim_C8 :
    (∀ (csv : Str) (existing : List Book) (cb : CsvBook → Except Str Unit),
      (splitCSVLines csv).length < 2 →
      processCSVImport csv existing cb =
        .error ("CSV file must have at least a header row and one data row".toList)) ∧
    (∀ (csv : Str) (existing : List Book) (cb : CsvBook → Except Str Unit)
        (header : Str) (rows : List Str),
      splitCSVLines csv = header :: rows → rows ≠ [] →
      ¬((∃ h ∈ (parseCSVLine header).map trim, lower h = "title".toList) ∧
        (∃ h ∈ (parseCSVLine header).map trim, lower h = "author".toList)) →
      processCSVImport csv existing cb =
        .error ("Missing required headers: ".toList ++ joinSep2 (", ".toList)
          ((if ∃ h ∈ (parseCSVLine header).map trim, lower h = "title".toList
            then [] else ["Title".toList]) ++
           (if ∃ h ∈ (parseCSVLine header).map trim, lower h = "author".toList
            then [] else ["Author".toList])))) := by
  constructor
  · intro csv existing cb hlen
    rw [processCSVImport, parsePhase]
    rcases hsp : splitCSVLines csv with _ | ⟨h1, _ | ⟨h2, t⟩⟩
    · rfl
    · rfl
    · rw [hsp] at hlen
      simp only [List.length_cons] at hlen
      omega
  · intro csv existing cb header rows hsp hrows hmiss
    rw [processCSVImport, parsePhase]
    cases rows with
    | nil => exact absurd rfl hrows
    | cons r t =>
      simp only [hsp, validateHeaders_missing header hmiss]

end Reader
namespace Reader

/-- C8, witness: a one-line CSV aborts with the structural error, and
a CSV whose header row has neither Title nor Author aborts naming both
missing headers. -/
theorem claim_C8_witness :
    processCSVImport ("Title,Author".toList) []
      (fun _ => .ok ()) =
      .error ("CSV file must have at least a header row and one data row".toList) ∧
    processCSVImport ("Notes,Tags\nx,y".toList) [] (fun _ => .ok ()) =
      .error ("Missing required headers: Title, Author".toList) :=
  ⟨claim_C8.1 _ [] _ (by decide),
   (claim_C8.2 _ [] _ ("Notes,Tags".toList) ["x,y".toList] (by decide)
      (by decide) (by decide)).trans (by rfl)⟩

end Reader
namespace Reader

theorem splitLines_single (s : Str) (h1 : '\n' ∉ s) (h2 : '\r' ∉ s) :
    splitLines s = [s] := by
  induction s with
  | nil => rfl
  | cons c t ih =>
    have hc1 : c ≠ '\n' := by intro hh; exact h1 (by simp [hh])
    have hc2 : c ≠ '\r' := by intro hh; exact h2 (by simp [hh])
    have ht1 : '\n' ∉ t := by intro hh; exact h1 (by simp [hh])
    have ht2 : '\r' ∉ t := by intro hh; exact h2 (by simp [hh])
    rw [splitLines.eq_def]
    split
    · rename_i heq
      cases heq
    · rename_i heq2 heq
      rw [List.cons_eq_cons] at heq
      exact absurd heq.1 hc2
    · rename_i x y heq
      rw [List.cons_eq_cons] at heq
      exact absurd heq.1 hc1
    · rename_i x1 c2 rest2 g1 g2 heq
      rw [List.cons_eq_cons] at heq
      rw [← heq.1, ← heq.2, ih ht1 ht2]

theorem trim_len_pos (s : Str) (h : trim s ≠ []) : ((trim s).length > 0) = True := by
  simp
  exact List.length_pos.mpr h

theorem importRows_nil (hm : List (Str × Str)) (n : Nat) (keys : List Str) :
    importRows hm [] n keys = ([], []) := rfl

theorem importRows_cons_fresh (hm : List (Str × Str)) (r : Str)
    (rest : List Str) (rowNum : Nat) (keys : List Str) (b : CsvBook)
    (hne : (trim r).isEmpty = false)
    (hp : parseBookFromRow (trim r) hm rowNum = .ok b)
    (hdup : keys.contains (bookKey b.title b.author) = false) :
    importRows hm (r :: rest) rowNum keys =
      (b :: (importRows hm rest (rowNum + 1)
          (keys ++ [bookKey b.title b.author])).1,
        (importRows hm rest (rowNum + 1)
          (keys ++ [bookKey b.title b.author])).2) := by
  rw [importRows]
  rw [if_neg (by simp [hne])]
  simp only [hp]
  rw [if_neg (by rw [hdup]; simp)]

theorem importRows_cons_dup (hm : List (Str × Str)) (r : Str)
    (rest : List Str) (rowNum : Nat) (keys : List Str) (b : CsvBook)
    (hne : (trim r).isEmpty = false)
    (hp : parseBookFromRow (trim r) hm rowNum = .ok b)
    (hdup : keys.contains (bookKey b.title b.author) = true) :
    importRows hm (r :: rest) rowNum keys =
      ((importRows hm rest (rowNum + 1) keys).1,
        ("Row ".toList ++ natRepr rowNum ++ ": Book \"".toList ++ b.title ++
          "\" by ".toList ++ b.author ++
          " already exists and was skipped".toList) ::
          (importRows hm rest (rowNum + 1) keys).2) := by
  rw [importRows]
  rw [if_neg (by simp [hne])]
  simp only [hp]
  rw [if_pos hdup]

theorem importRows_cons_err (hm : List (Str × Str)) (r : Str)
    (rest : List Str) (rowNum : Nat) (keys : List Str) (e : Str)
    (hne : (trim r).isEmpty = false)
    (hp : parseBookFromRow (trim r) hm rowNum = .error e) :
    importRows hm (r :: rest) rowNum keys =
      ((importRows hm rest (rowNum + 1) keys).1,
        ("Row ".toList ++ natRepr rowNum ++ ": ".toList ++ e) ::
          (importRows hm rest (rowNum + 1) keys).2) := by
  rw [importRows]
  rw [if_neg (by simp [hne])]
  simp only [hp]

end Reader
namespace Reader

theorem splitCSVLines_header_two (r1 r2 : Str)
    (h1 : lineSafe r1) (h2 : lineSafe r2)
    (ht1 : trim r1 ≠ []) (ht2 : trim r2 ≠ []) :
    splitCSVLines (headerLine ++ '\n' :: (r1 ++ '\n' :: r2)) =
      [headerLine, r1, r2] := by
  rw [splitCSVLines, splitLines_append _ _ (by decide) (by decide),
    splitLines_append _ _ h1.1 h1.2, splitLines_single _ h2.1 h2.2]
  rw [List.filter_cons, List.filter_cons, List.filter_cons, List.filter_nil]
  rw [if_pos (by decide), if_pos (by simp; exact List.length_pos.mpr ht1),
    if_pos (by simp; exact List.length_pos.mpr ht2)]

theorem splitCSVLines_header_one (r : Str)
    (h1 : lineSafe r) (ht1 : trim r ≠ []) :
    splitCSVLines (headerLine ++ '\n' :: r) = [headerLine, r] := by
  rw [splitCSVLines, splitLines_append _ _ (by decide) (by decide),
    splitLines_single _ h1.1 h1.2]
  rw [List.filter_cons, List.filter_cons, List.filter_nil]
  rw [if_pos (by decide), if_pos (by simp; exact List.length_pos.mpr ht1)]

theorem validateHeaders_canonical :
    validateHeaders headerLine = .ok canonicalHeaderMap := rfl

/-- C6: importing a CSV that contains two data rows with equal
lowercased-trimmed title+author keys (and no existing record with that
key) accepts exactly the first of the two rows and reports exactly one
"already exists" error for the other, whichever row comes first; and a
single row whose key matches an existing record is skipped and
reported, not written. -/
theorem claim_C6 :
    (∀ (r1 r2 : Str) (b1 b2 : CsvBook),
      lineSafe r1 → lineSafe r2 → trim r1 ≠ [] → trim r2 ≠ [] →
      parseBookFromRow (trim r1) canonicalHeaderMap 2 = .ok b1 →
      parseBookFromRow (trim r2) canonicalHeaderMap 3 = .ok b2 →
      bookKey b2.title b2.author = bookKey b1.title b1.author →
      parsePhase (headerLine ++ '\n' :: (r1 ++ '\n' :: r2)) [] =
        .ok ([b1],
          [("Row ".toList ++ natRepr 3 ++ ": Book \"".toList ++ b2.title ++
            "\" by ".toList ++ b2.author ++
            " already exists and was skipped".toList)])) ∧
    (∀ (r : Str) (b : CsvBook) (x : Book),
      lineSafe r → trim r ≠ [] →
      parseBookFromRow (trim r) canonicalHeaderMap 2 = .ok b →
      bookKey b.title b.author = bookKey x.title x.author →
      parsePhase (headerLine ++ '\n' :: r) [x] =
        .ok ([],
          [("Row ".toList ++ natRepr 2 ++ ": Book \"".toList ++ b.title ++
            "\" by ".toList ++ b.author ++
            " already exists and was skipped".toList)])) := by
  constructor
  · intro r1 r2 b1 b2 h1 h2 ht1 ht2 hp1 hp2 hkey
    rw [parsePhase, splitCSVLines_header_two r1 r2 h1 h2 ht1 ht2]
    simp only [validateHeaders_canonical, List.map_nil]
    rw [importRows_cons_fresh _ r1 [r2] 2 [] b1
        (by simp [List.isEmpty_iff]; exact ht1) hp1 rfl]
    rw [importRows_cons_dup _ r2 [] 3 _ b2
        (by simp [List.isEmpty_iff]; exact ht2) hp2
        (by rw [hkey]; simp)]
    rw [importRows_nil]
  · intro r b x h1 ht1 hp hkey
    rw [parsePhase, splitCSVLines_header_one r h1 ht1]
    simp only [validateHeaders_canonical, List.map_cons, List.map_nil]
    rw [importRows_cons_dup _ r [] 2 _ b
        (by simp [List.isEmpty_iff]; exact ht1) hp
        (by rw [hkey]; simp)]
    rw [importRows_nil]

end Reader
namespace Reader

/-- C6, witness: a CSV with rows `Dune,Frank Herbert` and
`dune , FRANK HERBERT` (equal keys after trim and case-folding, no
existing records) accepts only the first row and reports one
"already exists" error for row 3. -/
theorem claim_C6_witness :
    parsePhase (headerLine ++ '\n' ::
        ("Dune,Frank Herbert".toList ++ '\n' :: "dune , FRANK HERBERT".toList)) [] =
      .ok ([⟨"Dune".toList, "Frank Herbert".toList, .ToRead,
            none, none, none, none, none⟩],
        ["Row 3: Book \"dune\" by FRANK HERBERT already exists and was skipped".toList]) :=
  (claim_C6.1 ("Dune,Frank Herbert".toList) ("dune , FRANK HERBERT".toList)
    (⟨"Dune".toList, "Frank Herbert".toList, .ToRead, none, none, none, none, none⟩)
    (⟨"dune".toList, "FRANK HERBERT".toList, .ToRead, none, none, none, none, none⟩)
    (by decide) (by decide) (by decide) (by decide)
    (by rfl) (by rfl) (by decide)).trans (by rfl)

end Reader
namespace Reader

theorem insertS_mem {α : Type} (le : α → α → Bool) (a x : α) (l : List α) :
    x ∈ insertS le a l ↔ x = a ∨ x ∈ l := by
  induction l with
  | nil => simp [insertS]
  | cons y ys ih =>
    rw [insertS]
    by_cases h : le y a
    · rw [if_pos h]
      simp only [List.mem_cons, ih]
      tauto
    · rw [if_neg h]
      simp only [List.mem_cons]
      try tauto

theorem foldl_insertS_mem {α : Type} (le : α → α → Bool) (l : List α) :
    ∀ (acc : List α) (x : α),
      x ∈ l.foldl (fun acc y => insertS le y acc) acc ↔ x ∈ acc ∨ x ∈ l := by
  induction l with
  | nil => intro acc x; simp
  | cons b t ih =>
    intro acc x
    rw [List.foldl_cons, ih, insertS_mem]
    simp only [List.mem_cons]
    tauto

theorem stableSort_mem {α : Type} (le : α → α → Bool) (l : List α) (x : α) :
    x ∈ stableSort le l ↔ x ∈ l := by
  rw [stableSort, foldl_insertS_mem]
  simp

theorem addToGroup_cases (gs : List TimelineGroup) (key : Str) (b : Book)
    (g : TimelineGroup) (hg : g ∈ addToGroup gs key b) :
    g ∈ gs ∨
      (∃ g' ∈ gs, g'.monthKey = key ∧ g = ⟨g'.monthKey, g'.books ++ [b]⟩) ∨
      g = ⟨key, [b]⟩ := by
  induction gs with
  | nil =>
    have hrw : addToGroup [] key b = [⟨key, [b]⟩] := rfl
    rw [hrw] at hg
    exact .inr (.inr (List.mem_singleton.mp hg))
  | cons g0 rest ih =>
    rw [addToGroup] at hg
    by_cases hk : g0.monthKey = key
    · rw [if_pos hk] at hg
      simp at hg
      rcases hg with hg | hg
      · exact .inr (.inl ⟨g0, by simp, hk, hg⟩)
      · exact .inl (by simp [hg])
    · rw [if_neg hk] at hg
      simp at hg
      rcases hg with hg | hg
      · exact .inl (by simp [hg])
      · rcases ih hg with h | ⟨g', hg', hk', he⟩ | h
        · exact .inl (by simp [h])
        · exact .inr (.inl ⟨g', by simp [hg'], hk', he⟩)
        · exact .inr (.inr h)

theorem addToGroup_new (gs : List TimelineGroup) (key : Str) (b : Book) :
    ∃ g ∈ addToGroup gs key b, g.monthKey = key ∧ b ∈ g.books := by
  induction gs with
  | nil => exact ⟨⟨key, [b]⟩, by simp [addToGroup], rfl, by simp⟩
  | cons g0 rest ih =>
    rw [addToGroup]
    by_cases hk : g0.monthKey = key
    · rw [if_pos hk]
      exact ⟨⟨g0.monthKey, g0.books ++ [b]⟩, by simp, hk, by simp⟩
    · rw [if_neg hk]
      obtain ⟨g, hg, hgk, hgb⟩ := ih
      exact ⟨g, by simp [hg], hgk, hgb⟩

theorem addToGroup_old (gs : List TimelineGroup) (key : Str) (b : Book)
    (g' : TimelineGroup) (b' : Book) (hg' : g' ∈ gs) (hb' : b' ∈ g'.books) :
    ∃ g ∈ addToGroup gs key b, g.monthKey = g'.monthKey ∧ b' ∈ g.books := by
  induction gs with
  | nil => cases hg'
  | cons g0 rest ih =>
    rw [addToGroup]
    by_cases hk : g0.monthKey = key
    · rw [if_pos hk]
      rcases List.mem_cons.mp hg' with he | he
      · exact ⟨⟨g0.monthKey, g0.books ++ [b]⟩, by simp, by rw [he],
          by rw [he] at hb'; simp [hb']⟩
      · exact ⟨g', by simp [he], rfl, hb'⟩
    · rw [if_neg hk]
      rcases List.mem_cons.mp hg' with he | he
      · exact ⟨g0, by simp, by rw [he], by rw [he] at hb'; exact hb'⟩
      · obtain ⟨g, hg, hgk, hgb⟩ := ih he
        exact ⟨g, by simp [hg], hgk, hgb⟩

theorem timelineFold_sound (keyOf : Book → Str) (l : List Book) :
    ∀ (gs : List TimelineGroup),
    (∀ g ∈ gs, ∀ b ∈ g.books, g.monthKey = keyOf b) →
    ∀ g ∈ l.foldl (fun gs b => addToGroup gs (keyOf b) b) gs,
      ∀ b ∈ g.books, g.monthKey = keyOf b := by
  induction l with
  | nil => intro gs inv g hg; exact inv g hg
  | cons x t ih =>
    intro gs inv g hg
    rw [List.foldl_cons] at hg
    refine ih (addToGroup gs (keyOf x) x) ?_ g hg
    intro g' hg' b' hb'
    rcases addToGroup_cases gs (keyOf x) x g' hg' with h | ⟨g0, hg0, hk0, he⟩ | h
    · exact inv g' h b' hb'
    · rw [he] at hb' ⊢
      simp at hb'
      rcases hb' with hb' | hb'
      · exact inv g0 hg0 b' hb'
      · rw [hb', hk0]
    · rw [h] at hb' ⊢
      simp at hb'
      rw [hb']

theorem timelineFold_complete (keyOf : Book → Str) (l : List Book) :
    ∀ (gs : List TimelineGroup) (b : Book),
      (b ∈ l ∨ ∃ g' ∈ gs, b ∈ g'.books) →
      ∃ g ∈ l.foldl (fun gs b => addToGroup gs (keyOf b) b) gs, b ∈ g.books := by
  induction l with
  | nil =>
    intro gs b hb
    rcases hb with hb | ⟨g', hg', hb'⟩
    · cases hb
    · exact ⟨g', hg', hb'⟩
  | cons x t ih =>
    intro gs b hb
    rw [List.foldl_cons]
    rcases hb with hb | ⟨g', hg', hb'⟩
    · rcases List.mem_cons.mp hb with he | he
      · refine ih _ b (.inr ?_)
        obtain ⟨g, hg, _, hgb⟩ := addToGroup_new gs (keyOf x) x
        exact ⟨g, hg, by rw [he]; exact hgb⟩
      · exact ih _ b (.inl he)
    · refine ih _ b (.inr ?_)
      obtain ⟨g, hg, _, hgb⟩ := addToGroup_old gs (keyOf x) x g' b hg' hb'
      exact ⟨g, hg, hgb⟩

end Reader
namespace Reader

theorem timelineFold_sub (keyOf : Book → Str) (S : Book → Prop) (l : List Book)
    (hl : ∀ b ∈ l, S b) :
    ∀ (gs : List TimelineGroup), (∀ g ∈ gs, ∀ b ∈ g.books, S b) →
    ∀ g ∈ l.foldl (fun gs b => addToGroup gs (keyOf b) b) gs,
      ∀ b ∈ g.books, S b := by
  induction l with
  | nil => intro gs inv g hg; exact inv g hg
  | cons x t ih =>
    intro gs inv g hg
    rw [List.foldl_cons] at hg
    refine ih (fun b hb => hl b (by simp [hb])) (addToGroup gs (keyOf x) x)
      ?_ g hg
    intro g' hg' b' hb'
    rcases addToGroup_cases gs (keyOf x) x g' hg' with h | ⟨g0, hg0, _, he⟩ | h
    · exact inv g' h b' hb'
    · rw [he] at hb'
      simp at hb'
      rcases hb' with hb' | hb'
      · exact inv g0 hg0 b' hb'
      · rw [hb']
        exact hl x (by simp)
    · rw [h] at hb'
      simp at hb'
      rw [hb']
      exact hl x (by simp)

/-- C4: in the timeline built from any book list, every group member
has a reading start date (eligibility), a member with an end date sits
in the bucket keyed by that end date's year-month, and a member
without an end date sits in the bucket keyed by the single most recent
month computed over the whole eligible set by `findMostRecentMonth`
(which prefers each book's end date over its start date) — never its
own start month unless that is the most recent; and every eligible
book of the input appears in some group. -/
theorem claim_C4 (now : YMD) (books : List Book) :
    (∀ g ∈ buildTimeline now books, ∀ b ∈ g.books,
      b.readingStartDate.isSome = true ∧
      g.monthKey = monthKeyStr (match b.readingEndDate with
        | some e => e
        | none => findMostRecentMonth (sortBooksForTimeline
            (books.filter (fun b => b.readingStartDate.isSome))) now)) ∧
    (∀ b ∈ books, b.readingStartDate.isSome = true →
      ∃ g ∈ buildTimeline now books, b ∈ g.books) := by
  constructor
  · intro g hg b hb
    simp only [buildTimeline] at hg
    have hg' := (stableSort_mem _ _ g).mp hg
    constructor
    · have hsub := timelineFold_sub
        (fun b => monthKeyStr (match b.readingEndDate with
          | some e => e
          | none => findMostRecentMonth (sortBooksForTimeline
              (books.filter (fun b => b.readingStartDate.isSome))) now))
        (fun b => b.readingStartDate.isSome = true)
        (sortBooksForTimeline (books.filter (fun b => b.readingStartDate.isSome)))
        (fun b hbm => by
          have := (stableSort_mem _ _ b).mp hbm
          exact (List.mem_filter.mp this).2)
        [] (by intro g hgg; cases hgg) g hg' b hb
      exact hsub
    · exact timelineFold_sound
        (fun b => monthKeyStr (match b.readingEndDate with
          | some e => e
          | none => findMostRecentMonth (sortBooksForTimeline
              (books.filter (fun b => b.readingStartDate.isSome))) now))
        (sortBooksForTimeline (books.filter (fun b => b.readingStartDate.isSome)))
        [] (by intro g hgg; cases hgg) g hg' b hb
  · intro b hb hsome
    simp only [buildTimeline]
    have hbe : b ∈ books.filter (fun b => b.readingStartDate.isSome) :=
      List.mem_filter.mpr ⟨hb, hsome⟩
    have hbs : b ∈ sortBooksForTimeline
        (books.filter (fun b => b.readingStartDate.isSome)) := by
      rw [sortBooksForTimeline, stableSort_mem]
      exact hbe
    obtain ⟨g, hg, hgb⟩ := timelineFold_complete
      (fun b => monthKeyStr (match b.readingEndDate with
        | some e => e
        | none => findMostRecentMonth (sortBooksForTimeline
            (books.filter (fun b => b.readingStartDate.isSome))) now))
      (sortBooksForTimeline (books.filter (fun b => b.readingStartDate.isSome)))
      [] b (.inl hbs)
    exact ⟨g, (stableSort_mem _ _ g).mpr hg, hgb⟩

end Reader

namespace Reader

theorem claim_C4_witness :
    ∃ g ∈ buildTimeline ⟨2025, 3, 3⟩
      [{ title := ['P'], author := ['A'], status := .Finished,
         readingStartDate := some ⟨2024, 1, 5⟩,
         readingEndDate := some ⟨2024, 2, 10⟩ }],
      ({ title := ['P'], author := ['A'], status := .Finished,
         readingStartDate := some ⟨2024, 1, 5⟩,
         readingEndDate := some ⟨2024, 2, 10⟩ } : Book) ∈ g.books :=
  (claim_C4 ⟨2025, 3, 3⟩ _).2 _ (by simp) (by decide)

end Reader
namespace Reader

theorem char_toNat_inj (a b : Char) (h : a.toNat = b.toNat) : a = b := by
  rcases a with ⟨⟨av, hav⟩⟩
  rcases b with ⟨⟨bv, hbv⟩⟩
  simp [Char.toNat, UInt32.toNat] at h
  simp_all

theorem lexLt_asym : ∀ a b : Str, lexLt a b = true → lexLt b a = false
  | [], [], h => by simp [lexLt] at h
  | [], _ :: _, _ => rfl
  | _ :: _, [], h => by simp [lexLt] at h
  | a :: as, b :: bs, h => by
    simp only [lexLt] at h ⊢
    by_cases h1 : a.toNat < b.toNat
    · rw [if_neg (by omega : ¬ b.toNat < a.toNat), if_pos h1]
    · by_cases h2 : b.toNat < a.toNat
      · rw [if_neg h1, if_pos h2] at h
        exact absurd h (by simp)
      · rw [if_neg h1, if_neg h2] at h
        rw [if_neg h2, if_neg h1]
        exact lexLt_asym as bs h

theorem lexLt_trans : ∀ a b c : Str,
    lexLt a b = true → lexLt b c = true → lexLt a c = true
  | [], [], _, h1, _ => by simp [lexLt] at h1
  | [], _ :: _, [], _, h2 => by simp [lexLt] at h2
  | [], _ :: _, _ :: _, _, _ => rfl
  | _ :: _, [], _, h1, _ => by simp [lexLt] at h1
  | _ :: _, _ :: _, [], _, h2 => by simp [lexLt] at h2
  | a :: as, b :: bs, c :: cs, h1, h2 => by
    simp only [lexLt] at h1 h2 ⊢
    by_cases hab : a.toNat < b.toNat
    · by_cases hbc : b.toNat < c.toNat
      · rw [if_pos (by omega : a.toNat < c.toNat)]
      · by_cases hcb : c.toNat < b.toNat
        · rw [if_neg hbc, if_pos hcb] at h2
          exact absurd h2 (by simp)
        · rw [if_pos (by omega : a.toNat < c.toNat)]
    · by_cases hba : b.toNat < a.toNat
      · rw [if_neg hab, if_pos hba] at h1
        exact absurd h1 (by simp)
      · by_cases hbc : b.toNat < c.toNat
        · rw [if_pos (by omega : a.toNat < c.toNat)]
        · by_cases hcb : c.toNat < b.toNat
          · rw [if_neg hbc, if_pos hcb] at h2
            exact absurd h2 (by simp)
          · rw [if_neg hab, if_neg hba] at h1
            rw [if_neg hbc, if_neg hcb] at h2
            rw [if_neg (by omega : ¬ a.toNat < c.toNat),
              if_neg (by omega : ¬ c.toNat < a.toNat)]
            exact lexLt_trans as bs cs h1 h2

theorem lexLt_conn : ∀ a b : Str,
    lexLt a b = false → lexLt b a = false → a = b
  | [], [], _, _ => rfl
  | [], _ :: _, h1, _ => by simp [lexLt] at h1
  | _ :: _, [], _, h2 => by simp [lexLt] at h2
  | a :: as, b :: bs, h1, h2 => by
    simp only [lexLt] at h1 h2
    by_cases hab : a.toNat < b.toNat
    · rw [if_pos hab] at h1
      exact absurd h1 (by simp)
    · by_cases hba : b.toNat < a.toNat
      · rw [if_pos hba] at h2
        exact absurd h2 (by simp)
      · rw [if_neg hab, if_neg hba] at h1
        rw [if_neg hba, if_neg hab] at h2
        rw [char_toNat_inj a b (by omega), lexLt_conn as bs h1 h2]

theorem ymdLtb_iff (a b : YMD) : YMD.ltb a b = true ↔
    (a.y < b.y ∨ (a.y = b.y ∧ (a.m < b.m ∨ (a.m = b.m ∧ a.d < b.d)))) := by
  simp only [YMD.ltb]
  by_cases hy : a.y = b.y
  · rw [if_neg (not_not_intro hy)]
    by_cases hm : a.m = b.m
    · rw [if_neg (not_not_intro hm)]
      simp only [decide_eq_true_eq]
      omega
    · rw [if_pos hm]
      simp only [decide_eq_true_eq]
      omega
  · rw [if_pos hy]
    simp only [decide_eq_true_eq]
    omega

theorem ymdLtb_asym (a b : YMD) (h : YMD.ltb a b = true) :
    YMD.ltb b a = false := by
  cases hba : YMD.ltb b a
  · rfl
  · rw [ymdLtb_iff] at h hba
    exact absurd rfl (by omega : ¬ (0 : Nat) = 0)

theorem ymdLtb_trans (a b c : YMD) (h1 : YMD.ltb a b = true)
    (h2 : YMD.ltb b c = true) : YMD.ltb a c = true := by
  rw [ymdLtb_iff] at h1 h2 ⊢
  omega

theorem ymdLtb_conn (a b : YMD) (h1 : YMD.ltb a b = false)
    (h2 : YMD.ltb b a = false) : a = b := by
  have h1' : ¬ (YMD.ltb a b = true) := by simp [h1]
  have h2' : ¬ (YMD.ltb b a = true) := by simp [h2]
  rw [ymdLtb_iff] at h1' h2'
  rcases a with ⟨ay, am, ad⟩
  rcases b with ⟨cy, cm, cd⟩
  simp only [YMD.mk.injEq]
  dsimp only at h1' h2'
  omega

end Reader
namespace Reader

theorem skeyLtb_asym : ∀ a b : SKey, SKey.ltb a b = true → SKey.ltb b a = false
  | .s x, .s y, h => lexLt_asym x y h
  | .d x, .d y, h => ymdLtb_asym x y h
  | .n x, .n y, h => by
    simp only [SKey.ltb, decide_eq_true_eq] at h
    simp only [SKey.ltb, decide_eq_false_iff_not]
    omega
  | .s _, .d _, h => Bool.noConfusion h
  | .s _, .n _, h => Bool.noConfusion h
  | .d _, .s _, h => Bool.noConfusion h
  | .d _, .n _, h => Bool.noConfusion h
  | .n _, .s _, h => Bool.noConfusion h
  | .n _, .d _, h => Bool.noConfusion h

theorem skeyLtb_trans : ∀ a b c : SKey,
    SKey.ltb a b = true → SKey.ltb b c = true → SKey.ltb a c = true
  | .s x, .s y, .s z, h1, h2 => lexLt_trans x y z h1 h2
  | .d x, .d y, .d z, h1, h2 => ymdLtb_trans x y z h1 h2
  | .n x, .n y, .n z, h1, h2 => by
    simp only [SKey.ltb, decide_eq_true_eq] at h1 h2 ⊢
    omega
  | .s _, .d _, _, h1, _ => Bool.noConfusion h1
  | .s _, .n _, _, h1, _ => Bool.noConfusion h1
  | .d _, .s _, _, h1, _ => Bool.noConfusion h1
  | .d _, .n _, _, h1, _ => Bool.noConfusion h1
  | .n _, .s _, _, h1, _ => Bool.noConfusion h1
  | .n _, .d _, _, h1, _ => Bool.noConfusion h1
  | .s _, .s _, .d _, _, h2 => Bool.noConfusion h2
  | .s _, .s _, .n _, _, h2 => Bool.noConfusion h2
  | .d _, .d _, .s _, _, h2 => Bool.noConfusion h2
  | .d _, .d _, .n _, _, h2 => Bool.noConfusion h2
  | .n _, .n _, .s _, _, h2 => Bool.noConfusion h2
  | .n _, .n _, .d _, _, h2 => Bool.noConfusion h2

theorem sortKey_conn (f : SortField) (a b : Book) (ka kb : SKey)
    (hka : sortKey f a = some ka) (hkb : sortKey f b = some kb)
    (h1 : SKey.ltb ka kb = false) (h2 : SKey.ltb kb ka = false) : ka = kb := by
  cases f
  case title =>
    simp only [sortKey, Option.some.injEq] at hka hkb
    subst hka hkb
    exact congrArg SKey.s (lexLt_conn _ _ h1 h2)
  case author =>
    simp only [sortKey, Option.some.injEq] at hka hkb
    subst hka hkb
    exact congrArg SKey.s (lexLt_conn _ _ h1 h2)
  case status =>
    simp only [sortKey, Option.some.injEq] at hka hkb
    subst hka hkb
    exact congrArg SKey.s (lexLt_conn _ _ h1 h2)
  case addedDate =>
    cases ha : a.addedDate with
    | none => rw [sortKey, ha] at hka; exact Option.noConfusion hka
    | some va =>
      cases hb : b.addedDate with
      | none => rw [sortKey, hb] at hkb; exact Option.noConfusion hkb
      | some vb =>
        rw [sortKey, ha] at hka
        rw [sortKey, hb] at hkb
        simp only [Option.map_some', Option.some.injEq] at hka hkb
        subst hka hkb
        exact congrArg SKey.d (ymdLtb_conn _ _ h1 h2)
  case readingStartDate =>
    cases ha : a.readingStartDate with
    | none => rw [sortKey, ha] at hka; exact Option.noConfusion hka
    | some va =>
      cases hb : b.readingStartDate with
      | none => rw [sortKey, hb] at hkb; exact Option.noConfusion hkb
      | some vb =>
        rw [sortKey, ha] at hka
        rw [sortKey, hb] at hkb
        simp only [Option.map_some', Option.some.injEq] at hka hkb
        subst hka hkb
        exact congrArg SKey.d (ymdLtb_conn _ _ h1 h2)
  case readingEndDate =>
    cases ha : a.readingEndDate with
    | none => rw [sortKey, ha] at hka; exact Option.noConfusion hka
    | some va =>
      cases hb : b.readingEndDate with
      | none => rw [sortKey, hb] at hkb; exact Option.noConfusion hkb
      | some vb =>
        rw [sortKey, ha] at hka
        rw [sortKey, hb] at hkb
        simp only [Option.map_some', Option.some.injEq] at hka hkb
        subst hka hkb
        exact congrArg SKey.d (ymdLtb_conn _ _ h1 h2)
  case rating =>
    simp only [sortKey, Option.some.injEq] at hka hkb
    subst hka hkb
    simp only [SKey.ltb, decide_eq_false_iff_not] at h1 h2
    exact congrArg SKey.n (by omega)

theorem sortCmp_eq (f : SortField) (asc : Bool) (a b : Book) :
    sortCmp f asc a b = jsCmp SKey.ltb asc (sortKey f a) (sortKey f b) := by
  cases f
  case title => rfl
  case author => rfl
  case status => rfl
  case addedDate =>
    simp only [sortCmp, sortKey]
    cases a.addedDate <;> cases b.addedDate <;> rfl
  case readingStartDate =>
    simp only [sortCmp, sortKey]
    cases a.readingStartDate <;> cases b.readingStartDate <;> rfl
  case readingEndDate =>
    simp only [sortCmp, sortKey]
    cases a.readingEndDate <;> cases b.readingEndDate <;> rfl
  case rating => rfl

theorem jsCmp_true_le (ka kb : SKey) :
    jsCmp SKey.ltb true (some ka) (some kb) ≤ 0 ↔ SKey.ltb kb ka = false := by
  show (if SKey.ltb ka kb then (-1 : Int)
    else if SKey.ltb kb ka then 1 else 0) ≤ 0 ↔ SKey.ltb kb ka = false
  cases h : SKey.ltb ka kb
  · cases h2 : SKey.ltb kb ka <;> simp
  · simp [skeyLtb_asym ka kb h]

theorem jsCmp_false_le (ka kb : SKey) :
    jsCmp SKey.ltb false (some ka) (some kb) ≤ 0 ↔ SKey.ltb ka kb = false := by
  show -(if SKey.ltb ka kb then (-1 : Int)
    else if SKey.ltb kb ka then 1 else 0) ≤ 0 ↔ SKey.ltb ka kb = false
  cases h : SKey.ltb ka kb
  · cases h2 : SKey.ltb kb ka <;> simp
  · simp

end Reader
namespace Reader

theorem insertS_perm {α : Type} (le : α → α → Bool) (x : α) :
    ∀ l : List α, (insertS le x l).Perm (x :: l)
  | [] => List.Perm.refl _
  | y :: ys => by
    rw [insertS]
    by_cases h : le y x
    · rw [if_pos h]
      exact ((insertS_perm le x ys).cons y).trans (List.Perm.swap x y ys)
    · rw [if_neg h]

theorem foldl_insertS_perm {α : Type} (le : α → α → Bool) :
    ∀ (l acc : List α),
      (l.foldl (fun acc x => insertS le x acc) acc).Perm (acc ++ l)
  | [], acc => by simp
  | x :: t, acc => by
    rw [List.foldl_cons]
    refine (foldl_insertS_perm le t (insertS le x acc)).trans ?_
    refine (List.Perm.append_right t (insertS_perm le x acc)).trans ?_
    exact List.perm_middle.symm

theorem stableSort_perm {α : Type} (le : α → α → Bool) (l : List α) :
    (stableSort le l).Perm l := by
  rw [stableSort]
  simpa using foldl_insertS_perm le l []

theorem insertS_pairwise {α : Type} (le : α → α → Bool) (x : α) :
    ∀ l : List α,
    (∀ y ∈ l, le y x = true ∨ le x y = true) →
    (∀ b ∈ l, ∀ c ∈ l, le x b = true → le b c = true → le x c = true) →
    l.Pairwise (fun a b => le a b = true) →
    (insertS le x l).Pairwise (fun a b => le a b = true)
  | [], _, _, _ => by simp [insertS]
  | y :: ys, htot, htr, hp => by
    rw [insertS]
    rw [List.pairwise_cons] at hp
    obtain ⟨hy, hys⟩ := hp
    by_cases h : le y x
    · rw [if_pos h]
      rw [List.pairwise_cons]
      constructor
      · intro b hb
        rcases (insertS_mem le x b ys).mp hb with hb | hb
        · rw [hb]; exact h
        · exact hy b hb
      · exact insertS_pairwise le x ys
          (fun z hz => htot z (by simp [hz]))
          (fun b hb c hc => htr b (by simp [hb]) c (by simp [hc]))
          hys
    · rw [if_neg h]
      have hxy : le x y = true := by
        rcases htot y (by simp) with h' | h'
        · exact absurd h' h
        · exact h'
      rw [List.pairwise_cons]
      refine ⟨?_, by rw [List.pairwise_cons]; exact ⟨hy, hys⟩⟩
      intro b hb
      rcases List.mem_cons.mp hb with hb | hb
      · rw [hb]; exact hxy
      · exact htr y (by simp) b (by simp [hb]) hxy (hy b hb)

theorem foldl_insertS_pairwise {α : Type} (le : α → α → Bool) (S : α → Prop)
    (total : ∀ a b, S a → S b → le a b = true ∨ le b a = true)
    (trans : ∀ a b c, S a → S b → S c →
      le a b = true → le b c = true → le a c = true) :
    ∀ (l acc : List α), (∀ a ∈ l, S a) → (∀ a ∈ acc, S a) →
    acc.Pairwise (fun a b => le a b = true) →
    (l.foldl (fun acc x => insertS le x acc)
      acc).Pairwise (fun a b => le a b = true)
  | [], _, _, _, hp => hp
  | x :: t, acc, hl, hacc, hp => by
    rw [List.foldl_cons]
    refine foldl_insertS_pairwise le S total trans t (insertS le x acc)
      (fun a ha => hl a (by simp [ha])) ?_ ?_
    · intro a ha
      rcases (insertS_mem le x a acc).mp ha with ha | ha
      · rw [ha]; exact hl x (by simp)
      · exact hacc a ha
    · refine insertS_pairwise le x acc ?_ ?_ hp
      · intro y hy
        exact total y x (hacc y hy) (hl x (by simp))
      · intro b hb c hc hxb hbc
        exact trans x b c (hl x (by simp)) (hacc b hb) (hacc c hc) hxb hbc

theorem stableSort_pairwise {α : Type} (le : α → α → Bool) (l : List α)
    (total : ∀ a ∈ l, ∀ b ∈ l, le a b = true ∨ le b a = true)
    (trans : ∀ a ∈ l, ∀ b ∈ l, ∀ c ∈ l,
      le a b = true → le b c = true → le a c = true) :
    (stableSort le l).Pairwise (fun a b => le a b = true) := by
  rw [stableSort]
  exact foldl_insertS_pairwise le (fun a => a ∈ l)
    (fun a b ha hb => total a ha b hb)
    (fun a b c ha hb hc => trans a ha b hb c hc)
    l [] (fun a ha => ha) (by simp) List.Pairwise.nil

theorem pairwise_perm_eq {α : Type} (R : α → α → Prop) :
    ∀ (l1 l2 : List α), l1.Perm l2 →
    (∀ a ∈ l1, ∀ b ∈ l1, R a b → R b a → a = b) →
    l1.Pairwise R → l2.Pairwise R → l1 = l2
  | [], l2, hp, _, _, _ => (hp.symm.eq_nil).symm
  | a :: t1, l2, hp, hanti, h1, h2 => by
    cases l2 with
    | nil => exact absurd hp.eq_nil (by simp)
    | cons b t2 =>
      by_cases hab : a = b
      · subst hab
        have ht := hp.cons_inv
        rw [pairwise_perm_eq R t1 t2 ht
          (fun x hx y hy => hanti x (by simp [hx]) y (by simp [hy]))
          (List.Pairwise.of_cons h1) (List.Pairwise.of_cons h2)]
      · exfalso
        have hbl1 : b ∈ a :: t1 := hp.mem_iff.mpr (by simp)
        have hal2 : a ∈ b :: t2 := hp.mem_iff.mp (by simp)
        have hb1 : b ∈ t1 := by
          rcases List.mem_cons.mp hbl1 with h | h
          · exact absurd h.symm hab
          · exact h
        have ha2 : a ∈ t2 := by
          rcases List.mem_cons.mp hal2 with h | h
          · exact absurd h hab
          · exact h
        have hRab : R a b := (List.pairwise_cons.mp h1).1 b hb1
        have hRba : R b a := (List.pairwise_cons.mp h2).1 a ha2
        exact hab (hanti a (by simp) b (by simp [hb1]) hRab hRba)

end Reader
namespace Reader

/-- C9 (corrected): with the added hypothesis that every book has a
non-null key for the active sort column, pairwise-distinct keys make the
descending sort the exact reverse of the ascending sort, for every
sortable column. Without the non-null hypothesis the claim is false:
the comparator returns its null-after verdict before the direction flip
is applied, pinning null-keyed books to the end in both directions (see
the counterexample). -/
theorem claim_C9 (f : SortField) (books : List Book)
    (hsome : ∀ b ∈ books, (sortKey f b).isSome = true)
    (hdist : books.Pairwise (fun a b => sortKey f a ≠ sortKey f b)) :
    applySort f false books = (applySort f true books).reverse := by
  have hkey : ∀ b ∈ books, ∃ k, sortKey f b = some k := by
    intro b hb
    exact Option.isSome_iff_exists.mp (hsome b hb)
  have hchar_t : ∀ a b : Book, ∀ ka kb : SKey,
      sortKey f a = some ka → sortKey f b = some kb →
      ((fun a b => decide (sortCmp f true a b ≤ 0)) a b = true ↔
        SKey.ltb kb ka = false) := by
    intro a b ka kb hka hkb
    simp only [decide_eq_true_eq, sortCmp_eq, hka, hkb]
    exact jsCmp_true_le ka kb
  have hchar_f : ∀ a b : Book, ∀ ka kb : SKey,
      sortKey f a = some ka → sortKey f b = some kb →
      ((fun a b => decide (sortCmp f false a b ≤ 0)) a b = true ↔
        SKey.ltb ka kb = false) := by
    intro a b ka kb hka hkb
    simp only [decide_eq_true_eq, sortCmp_eq, hka, hkb]
    exact jsCmp_false_le ka kb
  have htotal : ∀ a ∈ books, ∀ b ∈ books,
      (fun a b => decide (sortCmp f true a b ≤ 0)) a b = true ∨
      (fun a b => decide (sortCmp f true a b ≤ 0)) b a = true := by
    intro a ha b hb
    obtain ⟨ka, hka⟩ := hkey a ha
    obtain ⟨kb, hkb⟩ := hkey b hb
    cases h : SKey.ltb kb ka
    · exact Or.inl ((hchar_t a b ka kb hka hkb).mpr h)
    · exact Or.inr ((hchar_t b a kb ka hkb hka).mpr (skeyLtb_asym kb ka h))
  have htrans : ∀ a ∈ books, ∀ b ∈ books, ∀ c ∈ books,
      (fun a b => decide (sortCmp f true a b ≤ 0)) a b = true →
      (fun a b => decide (sortCmp f true a b ≤ 0)) b c = true →
      (fun a b => decide (sortCmp f true a b ≤ 0)) a c = true := by
    intro a ha b hb c hc h1 h2
    obtain ⟨ka, hka⟩ := hkey a ha
    obtain ⟨kb, hkb⟩ := hkey b hb
    obtain ⟨kc, hkc⟩ := hkey c hc
    rw [hchar_t a b ka kb hka hkb] at h1
    rw [hchar_t b c kb kc hkb hkc] at h2
    rw [hchar_t a c ka kc hka hkc]
    cases hck : SKey.ltb kc ka
    · rfl
    · exfalso
      cases h3 : SKey.ltb ka kb
      · have hke : ka = kb := sortKey_conn f a b ka kb hka hkb h3 h1
        rw [hke] at hck
        exact absurd hck (by simp [h2])
      · exact absurd (skeyLtb_trans kc ka kb hck h3) (by simp [h2])
  have hsorted_t := stableSort_pairwise
    (fun a b => decide (sortCmp f true a b ≤ 0)) books htotal htrans
  have hperm_t := stableSort_perm
    (fun a b => decide (sortCmp f true a b ≤ 0)) books
  have hperm_f := stableSort_perm
    (fun a b => decide (sortCmp f false a b ≤ 0)) books
  have hmem_f : ∀ x ∈ stableSort
      (fun a b => decide (sortCmp f false a b ≤ 0)) books, x ∈ books := by
    intro x hx
    exact (stableSort_mem _ _ x).mp hx
  have hmem_t : ∀ x ∈ stableSort
      (fun a b => decide (sortCmp f true a b ≤ 0)) books, x ∈ books := by
    intro x hx
    exact (stableSort_mem _ _ x).mp hx
  have hflip : ∀ a ∈ books, ∀ b ∈ books,
      (fun a b => decide (sortCmp f false a b ≤ 0)) a b = true →
      (fun a b => decide (sortCmp f true a b ≤ 0)) b a = true := by
    intro a ha b hb h
    obtain ⟨ka, hka⟩ := hkey a ha
    obtain ⟨kb, hkb⟩ := hkey b hb
    rw [hchar_f a b ka kb hka hkb] at h
    exact (hchar_t b a kb ka hkb hka).mpr h
  have htotal_f : ∀ a ∈ books, ∀ b ∈ books,
      (fun a b => decide (sortCmp f false a b ≤ 0)) a b = true ∨
      (fun a b => decide (sortCmp f false a b ≤ 0)) b a = true := by
    intro a ha b hb
    obtain ⟨ka, hka⟩ := hkey a ha
    obtain ⟨kb, hkb⟩ := hkey b hb
    cases h : SKey.ltb ka kb
    · exact Or.inl ((hchar_f a b ka kb hka hkb).mpr h)
    · exact Or.inr ((hchar_f b a kb ka hkb hka).mpr (skeyLtb_asym ka kb h))
  have htrans_f : ∀ a ∈ books, ∀ b ∈ books, ∀ c ∈ books,
      (fun a b => decide (sortCmp f false a b ≤ 0)) a b = true →
      (fun a b => decide (sortCmp f false a b ≤ 0)) b c = true →
      (fun a b => decide (sortCmp f false a b ≤ 0)) a c = true := by
    intro a ha b hb c hc h1 h2
    obtain ⟨ka, hka⟩ := hkey a ha
    obtain ⟨kb, hkb⟩ := hkey b hb
    obtain ⟨kc, hkc⟩ := hkey c hc
    rw [hchar_f a b ka kb hka hkb] at h1
    rw [hchar_f b c kb kc hkb hkc] at h2
    rw [hchar_f a c ka kc hka hkc]
    cases hac : SKey.ltb ka kc
    · rfl
    · exfalso
      cases h3 : SKey.ltb kb ka
      · have hke : kb = ka := sortKey_conn f b a kb ka hkb hka h3 h1
        rw [← hke] at hac
        exact absurd hac (by simp [h2])
      · exact absurd (skeyLtb_trans kb ka kc h3 hac) (by simp [h2])
  have hsorted_f := stableSort_pairwise
    (fun a b => decide (sortCmp f false a b ≤ 0)) books htotal_f htrans_f
  have hrev : ((stableSort (fun a b => decide (sortCmp f false a b ≤ 0))
      books).reverse).Pairwise
      (fun a b => (fun a b => decide (sortCmp f true a b ≤ 0)) a b = true) := by
    rw [List.pairwise_reverse]
    refine hsorted_f.imp_of_mem ?_
    intro a b ha hb h
    exact hflip a (hmem_f a ha) b (hmem_f b hb) h
  have hanti : ∀ a ∈ stableSort
        (fun a b => decide (sortCmp f true a b ≤ 0)) books,
      ∀ b ∈ stableSort (fun a b => decide (sortCmp f true a b ≤ 0)) books,
      (fun a b => decide (sortCmp f true a b ≤ 0)) a b = true →
      (fun a b => decide (sortCmp f true a b ≤ 0)) b a = true → a = b := by
    intro a ha b hb h1 h2
    have ha' := hmem_t a ha
    have hb' := hmem_t b hb
    obtain ⟨ka, hka⟩ := hkey a ha'
    obtain ⟨kb, hkb⟩ := hkey b hb'
    rw [hchar_t a b ka kb hka hkb] at h1
    rw [hchar_t b a kb ka hkb hka] at h2
    have hke : ka = kb := sortKey_conn f a b ka kb hka hkb h2 h1
    by_contra hne
    have hsymm : Symmetric (fun a b : Book => sortKey f a ≠ sortKey f b) :=
      fun x y h e => h e.symm
    have := hdist.forall hsymm ha' hb' hne
    rw [hka, hkb, hke] at this
    exact this rfl
  have hperm : (stableSort (fun a b => decide (sortCmp f true a b ≤ 0))
      books).Perm ((stableSort
        (fun a b => decide (sortCmp f false a b ≤ 0)) books).reverse) :=
    (hperm_t.trans hperm_f.symm).trans (List.reverse_perm _).symm
  have hmain := pairwise_perm_eq _ _ _ hperm hanti hsorted_t hrev
  show stableSort (fun a b => decide (sortCmp f false a b ≤ 0)) books =
    (stableSort (fun a b => decide (sortCmp f true a b ≤ 0)) books).reverse
  rw [hmain, List.reverse_reverse]

end Reader
namespace Reader

/-- C9 counterexample: with sort column readingEndDate, two books with
unequal keys (one null, one a real date) are no tie, yet the null-keyed
book is pinned to the end in both directions, so descending is not the
reverse of ascending and the claim as stated fails. -/
theorem claim_C9_counterexample :
    ([{ title := ['A'], author := ['A'], status := .Finished,
        readingEndDate := some ⟨2024, 1, 1⟩ },
      { title := ['B'], author := ['B'], status := .Reading }] :
        List Book).Pairwise
      (fun a b => sortKey .readingEndDate a ≠ sortKey .readingEndDate b) ∧
    applySort .readingEndDate false
      [{ title := ['A'], author := ['A'], status := .Finished,
         readingEndDate := some ⟨2024, 1, 1⟩ },
       { title := ['B'], author := ['B'], status := .Reading }] ≠
    (applySort .readingEndDate true
      [{ title := ['A'], author := ['A'], status := .Finished,
         readingEndDate := some ⟨2024, 1, 1⟩ },
       { title := ['B'], author := ['B'], status := .Reading }]).reverse := by
  constructor
  · simp only [List.pairwise_cons, List.mem_singleton, List.not_mem_nil]
    refine ⟨?_, ?_⟩
    · intro b hb
      rw [hb]
      decide
    · simp
  · decide

theorem claim_C9_witness :
    (∀ b ∈ ([{ title := ['A'], author := ['X'], status := .Finished },
        { title := ['B'], author := ['Y'], status := .Reading }] : List Book),
      (sortKey .title b).isSome = true) ∧
    applySort .title false
      [{ title := ['A'], author := ['X'], status := .Finished },
       { title := ['B'], author := ['Y'], status := .Reading }] =
    (applySort .title true
      [{ title := ['A'], author := ['X'], status := .Finished },
       { title := ['B'], author := ['Y'], status := .Reading }]).reverse :=
  ⟨by decide, claim_C9 .title
    [{ title := ['A'], author := ['X'], status := .Finished },
     { title := ['B'], author := ['Y'], status := .Reading }]
    (by decide)
    (by
      simp only [List.pairwise_cons, List.mem_singleton, List.not_mem_nil]
      refine ⟨?_, ?_⟩
      · intro b hb
        rw [hb]
        decide
      · simp)⟩

end Reader
namespace Reader

theorem trim_eq_self_of_ends (s : Str)
    (hh : ∀ c t, s = c :: t → isWS c = false)
    (hl : ∀ c, s.getLast? = some c → isWS c = false) : trim s = s := by
  have h1 : trimLeft s = s := by
    apply trimLeft_eq_self
    cases s with
    | nil => exact .inl rfl
    | cons c t => exact .inr ⟨c, t, rfl, hh c t rfl⟩
  rw [trim, h1]
  show (s.reverse.dropWhile isWS).reverse = s
  have h2 : s.reverse.dropWhile isWS = s.reverse := by
    apply dropWhile_eq_self_of_head
    cases hr : s.reverse with
    | nil => exact .inl rfl
    | cons c t =>
      refine .inr ⟨c, t, rfl, ?_⟩
      apply hl
      rw [← List.head?_reverse, hr]
      rfl
  rw [h2, List.reverse_reverse]

theorem head_append_ne_nil (f rest : Str) (h : f ≠ []) :
    (f ++ rest).head? = f.head? := by
  cases f with
  | nil => exact absurd rfl h
  | cons c t => rfl

theorem getLast_cons_ne_nil (c : Char) (b : Str) (h : b ≠ []) :
    (c :: b).getLast? = b.getLast? := by
  cases b with
  | nil => exact absurd rfl h
  | cons x t => exact List.getLast?_cons_cons

theorem escQuotes_mem (v : Str) : ∀ c : Char, c ∈ escQuotes v → c = '"' ∨ c ∈ v := by
  induction v with
  | nil => intro c h; cases h
  | cons x rest ih =>
    intro c h
    by_cases hx : x = '"'
    · subst hx
      have he : escQuotes ('"' :: rest) = '"' :: '"' :: escQuotes rest := rfl
      rw [he] at h
      rcases List.mem_cons.mp h with h | h
      · exact .inl h
      · rcases List.mem_cons.mp h with h | h
        · exact .inl h
        · rcases ih c h with h' | h'
          · exact .inl h'
          · exact .inr (by simp [h'])
    · rw [escQuotes_cons x rest hx] at h
      rcases List.mem_cons.mp h with h | h
      · exact .inr (by simp [h])
      · rcases ih c h with h' | h'
        · exact .inl h'
        · exact .inr (by simp [h'])

theorem escapeCSV_mem (v : Str) (c : Char) (h : c ∈ escapeCSV v) :
    c = '"' ∨ c ∈ v := by
  rw [escapeCSV] at h
  by_cases h1 : v.isEmpty
  · rw [if_pos h1] at h; cases h
  · rw [if_neg h1] at h
    by_cases h2 : (v.contains ',' || v.contains '\n' || v.contains '"') = true
    · rw [if_pos h2] at h
      rcases List.mem_cons.mp h with h | h
      · exact .inl h
      · rcases List.mem_append.mp h with h | h
        · exact escQuotes_mem v c h
        · simp at h; exact .inl h
    · rw [if_neg h2] at h; exact .inr h

theorem escapeCSV_ne_nil (v : Str) (hv : v ≠ []) : escapeCSV v ≠ [] := by
  rw [escapeCSV]
  rw [if_neg (by simp [hv])]
  by_cases h2 : (v.contains ',' || v.contains '\n' || v.contains '"') = true
  · rw [if_pos h2]; simp
  · rw [if_neg h2]; exact hv

theorem escapeCSV_head (v : Str) (hv : trim v = v) :
    ∀ c t, escapeCSV v = c :: t → isWS c = false := by
  intro c t h
  rw [escapeCSV] at h
  by_cases h1 : v.isEmpty
  · rw [if_pos h1] at h; cases h
  · rw [if_neg h1] at h
    by_cases h2 : (v.contains ',' || v.contains '\n' || v.contains '"') = true
    · rw [if_pos h2] at h
      rw [List.cons_append, List.cons_eq_cons] at h
      rw [← h.1]
      decide
    · rw [if_neg h2] at h
      exact head_not_ws_of_trim_eq v c t hv h

theorem escapeCSV_last (v : Str) (hv : trim v = v) :
    ∀ c, (escapeCSV v).getLast? = some c → isWS c = false := by
  intro c h
  rw [escapeCSV] at h
  by_cases h1 : v.isEmpty
  · rw [if_pos h1] at h; cases h
  · rw [if_neg h1] at h
    by_cases h2 : (v.contains ',' || v.contains '\n' || v.contains '"') = true
    · rw [if_pos h2] at h
      rw [List.getLast?_concat] at h
      cases h
      decide
    · rw [if_neg h2] at h
      exact getLast?_not_ws_of_trim_eq v c hv h

theorem status_str_trim (s : BookStatus) : trim s.str = s.str := by
  cases s <;> decide

theorem validateStatus_str (s : BookStatus) :
    validateStatus (some s.str) = some s := by
  cases s <;> rfl

theorem status_str_lineSafe (s : BookStatus) : lineSafe s.str := by
  cases s <;> exact ⟨by decide, by decide⟩

theorem joinSep_head_eq (sep : Char) (f : Str) (t : List Str) (hf : f ≠ []) :
    (joinSep sep (f :: t)).head? = f.head? := by
  cases t with
  | nil => rfl
  | cons g gs =>
    show (f ++ sep :: joinSep sep (g :: gs)).head? = f.head?
    exact head_append_ne_nil f _ hf

theorem joinSep_ne_nil_of (sep : Char) (f : Str) (t : List Str) (hf : f ≠ []) :
    joinSep sep (f :: t) ≠ [] := by
  cases t with
  | nil => exact hf
  | cons g gs =>
    show f ++ sep :: joinSep sep (g :: gs) ≠ []
    simp

theorem joinSep_getLast (sep : Char) :
    ∀ l : List Str, l ≠ [] → (∀ f ∈ l, f ≠ []) →
      (joinSep sep l).getLast? = (l.getLastD []).getLast?
  | [], hne, _ => absurd rfl hne
  | [f], _, _ => by simp [joinSep]
  | f :: g :: t, _, hq => by
    show (f ++ sep :: joinSep sep (g :: t)).getLast? = _
    rw [List.getLast?_append_cons,
      getLast_cons_ne_nil sep _ (joinSep_ne_nil_of sep g t (hq g (by simp))),
      joinSep_getLast sep (g :: t) (by simp) (fun x hx => hq x (by simp [hx]))]
    simp [List.getLastD]

theorem splitOnChar_join (sep : Char) :
    ∀ l : List Str, (∀ f ∈ l, sep ∉ f) → l ≠ [] →
      splitOnChar sep (joinSep sep l) = l
  | [], _, hne => absurd rfl hne
  | [f], h, _ => splitOnChar_of_not_mem sep f (h f (by simp))
  | f :: g :: t, h, _ => by
    show splitOnChar sep (f ++ sep :: joinSep sep (g :: t)) = _
    rw [splitOnChar_append sep f _ (h f (by simp)),
      splitOnChar_join sep (g :: t) (fun x hx => h x (by simp [hx])) (by simp)]

theorem padValues_eq (v : List Str) : padValues v v.length = v := by
  simp [padValues]

theorem addBooksLoop_allok :
    ∀ (bs : List CsvBook) (idx cnt : Nat) (errs : List Str),
      addBooksLoop (fun _ => .ok ()) bs idx cnt errs = ⟨cnt + bs.length, errs⟩
  | [], _, _, _ => rfl
  | b :: rest, idx, cnt, errs => by
    rw [addBooksLoop]
    rw [addBooksLoop_allok rest (idx + 1) (cnt + 1) errs]
    simp
    omega

end Reader
namespace Reader

theorem map_eq_self_of {α : Type} (l : List α) (f : α → α)
    (h : ∀ a ∈ l, f a = a) : l.map f = l := by
  induction l with
  | nil => rfl
  | cons x t ih =>
    simp only [List.map, h x (by simp), ih (fun a ha => h a (by simp [ha]))]

theorem parseTags_join (ts : List Str) (hne : ts ≠ [])
    (h : ∀ t ∈ ts, tagOK t) :
    parseTags (some (joinSep ';' ts)) = ts := by
  obtain ⟨t0, ts', rfl⟩ : ∃ t0 ts', ts = t0 :: ts' := by
    cases ts with
    | nil => exact absurd rfl hne
    | cons a b => exact ⟨a, b, rfl⟩
  simp only [parseTags]
  rw [if_neg (by simp [joinSep_ne_nil_of ';' t0 ts' (h t0 (by simp)).2.1])]
  rw [splitOnChar_join ';' (t0 :: ts') (fun t ht => (h t ht).2.2) (by simp)]
  rw [map_eq_self_of _ _ (fun t ht => (h t ht).1.1)]
  rw [List.filter_eq_self.mpr]
  intro t ht
  simp [(h t ht).2.1]

theorem char_contains_eq_false (l : Str) (c : Char) (h : c ∉ l) :
    l.contains c = false := by
  cases hc : l.contains c with
  | false => rfl
  | true => exact absurd (List.mem_of_elem_eq_true hc) h

theorem toDigits_ne_nil (n : Nat) : toDigits n ≠ [] := by
  by_cases h : n < 10
  · rw [toDigits_small n h]; simp
  · rw [toDigits_step n h]; simp

theorem pad4_ne_nil (n : Nat) : pad4 n ≠ [] := toDigits_ne_nil n

theorem formatDate_some_ne_nil (x : YMD) : formatDateForCSV (some x) ≠ [] := by
  rw [formatDateForCSV_some]
  simp [pad4_ne_nil x.y.toNat]

theorem escapeCSV_date (d : Option YMD) :
    escapeCSV (formatDateForCSV d) = formatDateForCSV d := by
  cases d with
  | none => rfl
  | some x =>
    rw [escapeCSV]
    rw [if_neg (by simp [formatDate_some_ne_nil x])]
    rw [if_neg ?hc]
    case hc =>
      have h1 : ',' ∉ formatDateForCSV (some x) := fun hmem => by
        rcases formatDate_chars x ',' hmem with h | h
        · exact absurd h (by decide)
        · exact absurd h (by decide)
      have h2 : '\n' ∉ formatDateForCSV (some x) := fun hmem => by
        rcases formatDate_chars x '\n' hmem with h | h
        · exact absurd h (by decide)
        · exact absurd h (by decide)
      have h3 : '"' ∉ formatDateForCSV (some x) := fun hmem => by
        rcases formatDate_chars x '"' hmem with h | h
        · exact absurd h (by decide)
        · exact absurd h (by decide)
      simp [h1, h2, h3]

theorem buildCSVRow_fields (b : Book) :
    buildCSVRow b = joinSep ','
      ([b.title, b.author, b.status.str,
        formatDateForCSV b.publishedDate,
        formatDateForCSV b.readingStartDate,
        formatDateForCSV b.readingEndDate,
        b.notes.getD [],
        (match b.tags with
         | some ts => joinSep ';' ts
         | none => [])].map escapeCSV) := by
  rw [buildCSVRow]
  simp only [List.map]
  rw [escapeCSV_date b.publishedDate, escapeCSV_date b.readingStartDate,
    escapeCSV_date b.readingEndDate]

end Reader
namespace Reader

theorem parseBookFromRow_fields (line : Str) (v1 v2 v3 v4 v5 v6 v7 v8 : Str)
    (hline : parseCSVLine line = [v1, v2, v3, v4, v5, v6, v7, v8])
    (t1 : trim v1 = v1) (t2 : trim v2 = v2) (t3 : trim v3 = v3)
    (t4 : trim v4 = v4) (t5 : trim v5 = v5) (t6 : trim v6 = v6)
    (t7 : trim v7 = v7) (t8 : trim v8 = v8)
    (n1 : v1 ≠ []) (n2 : v2 ≠ []) (n : Nat) :
    parseBookFromRow line canonicalHeaderMap n = .ok
      { title := v1, author := v2,
        status := (validateStatus (some v3)).getD .ToRead,
        publishedDate := parseDate v4,
        readingStartDate := parseDate v5,
        readingEndDate := parseDate v6,
        notes := if v7.isEmpty then none else some v7,
        tags := if (parseTags (some v8)).length > 0
                then some (parseTags (some v8)) else none } := by
  simp only [parseBookFromRow, hline, canonicalHeaderMap, CSV_HEADERS,
    List.map, List.enum, List.enumFrom, List.foldl, padValues, List.length,
    List.getD, objInsert, objGet, List.replicate, List.get?, List.append,
    Option.getD]
  simp only [show ("Title".toList = "Author".toList) = False by decide,
    show ("Title".toList = "Status".toList) = False by decide,
    show ("Title".toList = "Published Date".toList) = False by decide,
    show ("Title".toList = "Reading Start Date".toList) = False by decide,
    show ("Title".toList = "Reading End Date".toList) = False by decide,
    show ("Title".toList = "Notes".toList) = False by decide,
    show ("Title".toList = "Tags".toList) = False by decide,
    show ("Author".toList = "Title".toList) = False by decide,
    show ("Author".toList = "Status".toList) = False by decide,
    show ("Author".toList = "Published Date".toList) = False by decide,
    show ("Author".toList = "Reading Start Date".toList) = False by decide,
    show ("Author".toList = "Reading End Date".toList) = False by decide,
    show ("Author".toList = "Notes".toList) = False by decide,
    show ("Author".toList = "Tags".toList) = False by decide,
    show ("Status".toList = "Title".toList) = False by decide,
    show ("Status".toList = "Author".toList) = False by decide,
    show ("Status".toList = "Published Date".toList) = False by decide,
    show ("Status".toList = "Reading Start Date".toList) = False by decide,
    show ("Status".toList = "Reading End Date".toList) = False by decide,
    show ("Status".toList = "Notes".toList) = False by decide,
    show ("Status".toList = "Tags".toList) = False by decide,
    show ("Published Date".toList = "Title".toList) = False by decide,
    show ("Published Date".toList = "Author".toList) = False by decide,
    show ("Published Date".toList = "Status".toList) = False by decide,
    show ("Published Date".toList = "Reading Start Date".toList) = False by decide,
    show ("Published Date".toList = "Reading End Date".toList) = False by decide,
    show ("Published Date".toList = "Notes".toList) = False by decide,
    show ("Published Date".toList = "Tags".toList) = False by decide,
    show ("Reading Start Date".toList = "Title".toList) = False by decide,
    show ("Reading Start Date".toList = "Author".toList) = False by decide,
    show ("Reading Start Date".toList = "Status".toList) = False by decide,
    show ("Reading Start Date".toList = "Published Date".toList) = False by decide,
    show ("Reading Start Date".toList = "Reading End Date".toList) = False by decide,
    show ("Reading Start Date".toList = "Notes".toList) = False by decide,
    show ("Reading Start Date".toList = "Tags".toList) = False by decide,
    show ("Reading End Date".toList = "Title".toList) = False by decide,
    show ("Reading End Date".toList = "Author".toList) = False by decide,
    show ("Reading End Date".toList = "Status".toList) = False by decide,
    show ("Reading End Date".toList = "Published Date".toList) = False by decide,
    show ("Reading End Date".toList = "Reading Start Date".toList) = False by decide,
    show ("Reading End Date".toList = "Notes".toList) = False by decide,
    show ("Reading End Date".toList = "Tags".toList) = False by decide,
    show ("Notes".toList = "Title".toList) = False by decide,
    show ("Notes".toList = "Author".toList) = False by decide,
    show ("Notes".toList = "Status".toList) = False by decide,
    show ("Notes".toList = "Published Date".toList) = False by decide,
    show ("Notes".toList = "Reading Start Date".toList) = False by decide,
    show ("Notes".toList = "Reading End Date".toList) = False by decide,
    show ("Notes".toList = "Tags".toList) = False by decide,
    show ("Tags".toList = "Title".toList) = False by decide,
    show ("Tags".toList = "Author".toList) = False by decide,
    show ("Tags".toList = "Status".toList) = False by decide,
    show ("Tags".toList = "Published Date".toList) = False by decide,
    show ("Tags".toList = "Reading Start Date".toList) = False by decide,
    show ("Tags".toList = "Reading End Date".toList) = False by decide,
    show ("Tags".toList = "Notes".toList) = False by decide,
    if_true, if_false, eq_self_iff_true]
  simp only [trim_idem, t1, t2, t3, t4, t5, t6, t7, t8]
  rw [if_neg (by simp [n1, n2])]

end Reader
namespace Reader

theorem getLastD_mem {α : Type} :
    ∀ (d : α) (l : List α), l ≠ [] → l.getLastD d ∈ l
  | _, [], hne => absurd rfl hne
  | _, [x], _ => by simp [List.getLastD]
  | d, x :: y :: t, _ => by
    rw [List.getLastD_cons]
    exact List.mem_cons_of_mem x (getLastD_mem x (y :: t) (by simp))

theorem tags_join_trim (ts : List Str) (hne : ts ≠ [])
    (h : ∀ t ∈ ts, tagOK t) :
    trim (joinSep ';' ts) = joinSep ';' ts := by
  obtain ⟨t0, ts', rfl⟩ : ∃ t0 ts', ts = t0 :: ts' := by
    cases ts with
    | nil => exact absurd rfl hne
    | cons a b => exact ⟨a, b, rfl⟩
  apply trim_eq_self_of_ends
  · intro c t hct
    have hh : (joinSep ';' (t0 :: ts')).head? = t0.head? :=
      joinSep_head_eq ';' t0 ts' (h t0 (by simp)).2.1
    rw [hct] at hh
    cases ht0 : t0 with
    | nil => exact absurd ht0 (h t0 (by simp)).2.1
    | cons c0 t0' =>
      rw [ht0] at hh
      have hc : c = c0 := by
        simp only [List.head?] at hh
        exact (Option.some.injEq _ _).mp hh
      rw [hc]
      exact head_not_ws_of_trim_eq t0 c0 t0' (h t0 (by simp)).1.1 ht0
  · intro c hc
    rw [joinSep_getLast ';' (t0 :: ts') (by simp)
      (fun t ht => (h t ht).2.1)] at hc
    have hmem := getLastD_mem [] (t0 :: ts') (by simp)
    exact getLast?_not_ws_of_trim_eq _ c (h _ hmem).1.1 hc

theorem date_trim (d : Option YMD) :
    trim (formatDateForCSV d) = formatDateForCSV d := by
  cases d with
  | none => rfl
  | some x => exact trim_eq_self_of_forall _ (formatDate_not_ws x)

theorem parseCSVLine_row (b : Book) (hs : bookCsvSafe b) :
    parseCSVLine (buildCSVRow b) =
      [b.title, b.author, b.status.str,
       formatDateForCSV b.publishedDate,
       formatDateForCSV b.readingStartDate,
       formatDateForCSV b.readingEndDate,
       b.notes.getD [],
       (match b.tags with
        | some ts => joinSep ';' ts
        | none => [])] := by
  obtain ⟨⟨ht, _⟩, htne, ⟨ha, _⟩, hane, hpd, hrsd, hred, hnotes, htags⟩ := hs
  rw [buildCSVRow_fields]
  rw [parseCSVLine_join _ (by simp)]
  simp only [List.map]
  rw [ht, ha, status_str_trim, date_trim, date_trim, date_trim]
  congr 1
  rotate_left
  congr 1
  rotate_left
  congr 1
  rotate_left
  congr 1
  rotate_left
  congr 1
  rotate_left
  congr 1
  rotate_left
  congr 1
  · cases hn : b.notes with
    | none => rfl
    | some nn => exact (hnotes nn (by simp [hn])).1.1
  · cases htg : b.tags with
    | none => rfl
    | some ts =>
      have h2 := htags ts (by simp [htg])
      show [trim (joinSep ';' ts)] = [joinSep ';' ts]
      rw [tags_join_trim ts h2.1 h2.2]

end Reader
namespace Reader

theorem parseDate_roundtrip (d : Option YMD) (hd : ∀ x ∈ d, validYMD x) :
    parseDate (formatDateForCSV d) = d := by
  cases d with
  | none => exact parseDate_format_none
  | some x => exact parseDate_format x (hd x (by simp))

theorem notes_trim (b : Book) (hs : bookCsvSafe b) :
    trim (b.notes.getD []) = b.notes.getD [] := by
  cases hn : b.notes with
  | none => rfl
  | some nn => exact (hs.2.2.2.2.2.2.2.1 nn (by simp [hn])).1.1

theorem tags_field_trim (b : Book) (hs : bookCsvSafe b) :
    trim (match b.tags with
          | some ts => joinSep ';' ts
          | none => []) =
      (match b.tags with
       | some ts => joinSep ';' ts
       | none => []) := by
  cases htg : b.tags with
  | none => rfl
  | some ts =>
    have h2 := hs.2.2.2.2.2.2.2.2 ts (by simp [htg])
    exact tags_join_trim ts h2.1 h2.2

theorem parseBookFromRow_row (b : Book) (hs : bookCsvSafe b) (n : Nat) :
    parseBookFromRow (buildCSVRow b) canonicalHeaderMap n =
      .ok (Book.toCsv b) := by
  have hline := parseCSVLine_row b hs
  have tn := notes_trim b hs
  have tg := tags_field_trim b hs
  obtain ⟨⟨ht, _⟩, htne, ⟨ha, _⟩, hane, hpd, hrsd, hred, hnotes, htags⟩ := hs
  rw [parseBookFromRow_fields _ _ _ _ _ _ _ _ _ hline ht ha
    (status_str_trim b.status) (date_trim _) (date_trim _) (date_trim _)
    tn tg htne hane n]
  simp only [Book.toCsv, Except.ok.injEq, CsvBook.mk.injEq]
  refine ⟨trivial, trivial, ?_, ?_, ?_, ?_, ?_, ?_⟩
  · simp [validateStatus_str]
  · exact parseDate_roundtrip _ hpd
  · exact parseDate_roundtrip _ hrsd
  · exact parseDate_roundtrip _ hred
  · cases hn : b.notes with
    | none => rfl
    | some nn =>
      have hne := (hnotes nn (by simp [hn])).2
      simp [hne]
  · cases htg : b.tags with
    | none => rfl
    | some ts =>
      have h2 := htags ts (by simp [htg])
      show (if (parseTags (some (joinSep ';' ts))).length > 0
            then some (parseTags (some (joinSep ';' ts))) else none) = some ts
      rw [parseTags_join ts h2.1 h2.2]
      rw [if_pos (List.length_pos.mpr h2.1)]

end Reader
namespace Reader

theorem joinSep_getLast_cases (sep : Char) :
    ∀ l : List Str, l ≠ [] →
      (joinSep sep l).getLast? = some sep ∨
      ∃ f ∈ l, (joinSep sep l).getLast? = f.getLast?
  | [], hne => absurd rfl hne
  | [f], _ => .inr ⟨f, by simp, rfl⟩
  | f :: g :: t, _ => by
    show ((f ++ sep :: joinSep sep (g :: t)).getLast? = some sep ∨
      ∃ f' ∈ f :: g :: t, (f ++ sep :: joinSep sep (g :: t)).getLast? =
        f'.getLast?)
    rw [List.getLast?_append_cons]
    cases hJ : joinSep sep (g :: t) with
    | nil => exact .inl rfl
    | cons j js =>
      rw [getLast_cons_ne_nil sep (j :: js) (by simp)]
      rcases joinSep_getLast_cases sep (g :: t) (by simp) with hI | ⟨f', hf', hI⟩
      · rw [hJ] at hI
        exact .inl hI
      · rw [hJ] at hI
        exact .inr ⟨f', List.mem_cons_of_mem f hf', hI⟩

theorem rawFields_safe (b : Book) (hs : bookCsvSafe b) :
    ∀ v ∈ [b.title, b.author, b.status.str,
      formatDateForCSV b.publishedDate,
      formatDateForCSV b.readingStartDate,
      formatDateForCSV b.readingEndDate,
      b.notes.getD [],
      (match b.tags with
       | some ts => joinSep ';' ts
       | none => [])],
      trim v = v ∧ '\n' ∉ v ∧ '\r' ∉ v := by
  have hdate : ∀ d : Option YMD,
      trim (formatDateForCSV d) = formatDateForCSV d ∧
      '\n' ∉ formatDateForCSV d ∧ '\r' ∉ formatDateForCSV d := by
    intro d
    refine ⟨date_trim d, ?_, ?_⟩ <;> intro hmem
    · cases d with
      | none => cases hmem
      | some x =>
        rcases formatDate_chars x '\n' hmem with h | h
        · exact absurd h (by decide)
        · exact absurd h (by decide)
    · cases d with
      | none => cases hmem
      | some x =>
        rcases formatDate_chars x '\r' hmem with h | h
        · exact absurd h (by decide)
        · exact absurd h (by decide)
  intro v hv
  simp only [List.mem_cons, List.not_mem_nil, or_false] at hv
  rcases hv with h | h | h | h | h | h | h | h
  · exact h ▸ ⟨hs.1.1, hs.1.2.1, hs.1.2.2⟩
  · exact h ▸ ⟨hs.2.2.1.1, hs.2.2.1.2.1, hs.2.2.1.2.2⟩
  · exact h ▸ ⟨status_str_trim b.status, (status_str_lineSafe b.status).1,
      (status_str_lineSafe b.status).2⟩
  · exact h ▸ hdate b.publishedDate
  · exact h ▸ hdate b.readingStartDate
  · exact h ▸ hdate b.readingEndDate
  · refine h ▸ ⟨notes_trim b hs, ?_, ?_⟩ <;> intro hmem
    · cases hn : b.notes with
      | none => rw [hn] at hmem; cases hmem
      | some nn =>
        rw [hn] at hmem
        exact (hs.2.2.2.2.2.2.2.1 nn (by simp [hn])).1.2.1 hmem
    · cases hn : b.notes with
      | none => rw [hn] at hmem; cases hmem
      | some nn =>
        rw [hn] at hmem
        exact (hs.2.2.2.2.2.2.2.1 nn (by simp [hn])).1.2.2 hmem
  · refine h ▸ ⟨tags_field_trim b hs, ?_, ?_⟩ <;> intro hmem
    · cases htg : b.tags with
      | none => rw [htg] at hmem; cases hmem
      | some ts =>
        rw [htg] at hmem
        have h2 := hs.2.2.2.2.2.2.2.2 ts (by simp [htg])
        rcases mem_joinSep ';' ts '\n' hmem with hc | ⟨part, hp, hc⟩
        · exact absurd hc (by decide)
        · exact (h2.2 part hp).1.2.1 hc
    · cases htg : b.tags with
      | none => rw [htg] at hmem; cases hmem
      | some ts =>
        rw [htg] at hmem
        have h2 := hs.2.2.2.2.2.2.2.2 ts (by simp [htg])
        rcases mem_joinSep ';' ts '\r' hmem with hc | ⟨part, hp, hc⟩
        · exact absurd hc (by decide)
        · exact (h2.2 part hp).1.2.2 hc

theorem buildCSVRow_ne_nil (b : Book) : buildCSVRow b ≠ [] := by
  rw [buildCSVRow_fields]
  show escapeCSV b.title ++ ',' :: _ ≠ []
  simp

theorem buildCSVRow_trim (b : Book) (hs : bookCsvSafe b) :
    trim (buildCSVRow b) = buildCSVRow b := by
  have hraw := rawFields_safe b hs
  rw [buildCSVRow_fields]
  apply trim_eq_self_of_ends
  · intro c t hct
    have hh : (joinSep ',' ([b.title, b.author, b.status.str,
        formatDateForCSV b.publishedDate,
        formatDateForCSV b.readingStartDate,
        formatDateForCSV b.readingEndDate,
        b.notes.getD [],
        (match b.tags with
         | some ts => joinSep ';' ts
         | none => [])].map escapeCSV)).head? =
        (escapeCSV b.title).head? := by
      simp only [List.map]
      exact joinSep_head_eq ',' _ _ (escapeCSV_ne_nil b.title hs.2.1)
    rw [hct] at hh
    cases he : escapeCSV b.title with
    | nil => rw [he] at hh; cases hh
    | cons c0 t0 =>
      rw [he] at hh
      have hc : c = c0 := by
        simp only [List.head?] at hh
        exact (Option.some.injEq _ _).mp hh
      rw [hc]
      exact escapeCSV_head b.title hs.1.1 c0 t0 he
  · intro c hc
    rcases joinSep_getLast_cases ',' ([b.title, b.author, b.status.str,
        formatDateForCSV b.publishedDate,
        formatDateForCSV b.readingStartDate,
        formatDateForCSV b.readingEndDate,
        b.notes.getD [],
        (match b.tags with
         | some ts => joinSep ';' ts
         | none => [])].map escapeCSV) (by simp) with h | ⟨f, hf, h⟩
    · rw [h] at hc
      cases hc
      decide
    · rw [h] at hc
      rcases List.mem_map.mp hf with ⟨raw, hraw', rfl⟩
      exact escapeCSV_last raw (hraw raw hraw').1 c hc

theorem buildCSVRow_lineSafe (b : Book) (hs : bookCsvSafe b) :
    lineSafe (buildCSVRow b) := by
  have hraw := rawFields_safe b hs
  rw [buildCSVRow_fields]
  constructor <;> intro hmem
  · rcases mem_joinSep ',' _ '\n' hmem with hc | ⟨part, hp, hc⟩
    · exact absurd hc (by decide)
    · rcases List.mem_map.mp hp with ⟨raw, hraw', rfl⟩
      rcases escapeCSV_mem raw '\n' hc with h | h
      · exact absurd h (by decide)
      · exact (hraw raw hraw').2.1 h
  · rcases mem_joinSep ',' _ '\r' hmem with hc | ⟨part, hp, hc⟩
    · exact absurd hc (by decide)
    · rcases List.mem_map.mp hp with ⟨raw, hraw', rfl⟩
      rcases escapeCSV_mem raw '\r' hc with h | h
      · exact absurd h (by decide)
      · exact (hraw raw hraw').2.2 h

end Reader
namespace Reader

theorem str_not_mem_of_contains_false (l : List Str) (v : Str)
    (h : l.contains v = false) : v ∉ l := by
  intro hm
  simp at h
  exact h hm

theorem splitLines_blocks :
    ∀ rows : List Str, (∀ r ∈ rows, lineSafe r) →
      splitLines ((rows.map (fun r => r ++ ['\n'])).flatten) = rows ++ [[]]
  | [], _ => rfl
  | r :: rest, h => by
    show splitLines ((r ++ ['\n']) ++ (rest.map (fun r => r ++ ['\n'])).flatten) =
      (r :: rest) ++ [[]]
    rw [List.append_assoc, List.singleton_append]
    rw [splitLines_append r _ (h r (by simp)).1 (h r (by simp)).2]
    rw [splitLines_blocks rest (fun x hx => h x (by simp [hx]))]
    rfl

theorem splitCSVLines_build (books : List Book)
    (hs : ∀ b ∈ books, bookCsvSafe b) :
    splitCSVLines (buildCSVContent books) =
      headerLine :: books.map buildCSVRow := by
  have hbc : buildCSVContent books = headerLine ++ '\n' ::
      ((books.map buildCSVRow).map (fun r => r ++ ['\n'])).flatten := by
    rw [buildCSVContent, List.map_map]
    rfl
  rw [splitCSVLines, hbc]
  rw [splitLines_append _ _ (by decide) (by decide)]
  rw [splitLines_blocks _ (fun r hr => by
    rcases List.mem_map.mp hr with ⟨b, hb, rfl⟩
    exact buildCSVRow_lineSafe b (hs b hb))]
  rw [List.filter_cons, if_pos (by decide)]
  rw [List.filter_append]
  rw [List.filter_eq_self.mpr (fun r hr => by
    rcases List.mem_map.mp hr with ⟨b, hb, rfl⟩
    rw [buildCSVRow_trim b (hs b hb)]
    simp
    exact List.length_pos.mpr (buildCSVRow_ne_nil b))]
  rw [show ([[]] : List Str).filter (fun line => (trim line).length > 0) = []
    from rfl]
  rw [List.append_nil]

theorem importRows_roundtrip :
    ∀ (bs : List Book) (n : Nat) (keys : List Str),
      (∀ b ∈ bs, bookCsvSafe b) →
      (∀ b ∈ bs, keys.contains (bookKey b.title b.author) = false) →
      bs.Pairwise (fun a b =>
        bookKey a.title a.author ≠ bookKey b.title b.author) →
      importRows canonicalHeaderMap (bs.map buildCSVRow) n keys =
        (bs.map Book.toCsv, [])
  | [], _, _, _, _, _ => rfl
  | b :: t, n, keys, hs, hk, hd => by
    simp only [List.map]
    rw [importRows_cons_fresh canonicalHeaderMap (buildCSVRow b) _ n keys
      (Book.toCsv b)
      (by rw [buildCSVRow_trim b (hs b (by simp))]
          simp [buildCSVRow_ne_nil b])
      (by rw [buildCSVRow_trim b (hs b (by simp))]
          exact parseBookFromRow_row b (hs b (by simp)) n)
      (hk b (by simp))]
    rw [show bookKey (Book.toCsv b).title (Book.toCsv b).author =
      bookKey b.title b.author from rfl]
    rw [importRows_roundtrip t (n + 1)
      (keys ++ [bookKey b.title b.author])
      (fun x hx => hs x (by simp [hx]))
      (fun x hx => by
        apply contains_eq_false_of_not_mem
        intro hmem
        rcases List.mem_append.mp hmem with h | h
        · exact absurd h (str_not_mem_of_contains_false _ _ (hk x (by simp [hx])))
        · have hx2 : bookKey x.title x.author = bookKey b.title b.author := by
            simpa using h
          exact absurd hx2.symm ((List.pairwise_cons.mp hd).1 x hx)
      )
      ((List.pairwise_cons.mp hd).2)]

/-- C3 (corrected): for a NON-EMPTY list of books whose fields survive
CSV encoding and whose title+author deduplication keys are pairwise
distinct, importing the text produced by exporting the list yields
exactly the original records in title, author, status, dates to day
precision, notes and tags (the `Book.toCsv` projection, which ignores
id and addedDate), with no per-row errors, and a store that accepts
every write reports one success per book and no errors. For the empty
list the claim as stated is false: the export consists of the header
line alone and re-importing it fails with a structural error (see the
counterexample). -/
theorem claim_C3 (books : List Book) (hne : books ≠ [])
    (hs : ∀ b ∈ books, bookCsvSafe b)
    (hd : books.Pairwise (fun a b =>
      bookKey a.title a.author ≠ bookKey b.title b.author)) :
    parsePhase (buildCSVContent books) [] =
      .ok (books.map Book.toCsv, []) ∧
    processCSVImport (buildCSVContent books) [] (fun _ => .ok ()) =
      .ok ⟨books.length, []⟩ := by
  obtain ⟨b0, bs, rfl⟩ : ∃ b0 bs, books = b0 :: bs := by
    cases books with
    | nil => exact absurd rfl hne
    | cons a t => exact ⟨a, t, rfl⟩
  have hsplit := splitCSVLines_build (b0 :: bs) hs
  have himp := importRows_roundtrip (b0 :: bs) 2 [] hs
    (fun x _ => rfl) hd
  have hpp : parsePhase (buildCSVContent (b0 :: bs)) [] =
      .ok ((b0 :: bs).map Book.toCsv, []) := by
    rw [parsePhase, hsplit]
    simp only [List.map]
    rw [validateHeaders_canonical]
    show Except.ok (importRows canonicalHeaderMap
      (buildCSVRow b0 :: bs.map buildCSVRow) 2 []) = _
    have : buildCSVRow b0 :: bs.map buildCSVRow =
        (b0 :: bs).map buildCSVRow := rfl
    rw [this, himp]
    rfl
  refine ⟨hpp, ?_⟩
  rw [processCSVImport, hpp]
  show Except.ok (addBooksSequentially ((b0 :: bs).map Book.toCsv)
    (fun _ => .ok ()) []) = _
  rw [addBooksSequentially, addBooksLoop_allok]
  rw [List.length_map, Nat.zero_add]

/-- C3 counterexample: exporting the empty book list produces just the
header line, and importing that text fails with the structural
"too few lines" error instead of yielding the (empty) original record
list, so the round-trip claim fails for the empty list. -/
theorem claim_C3_counterexample :
    processCSVImport (buildCSVContent []) [] (fun _ => .ok ()) =
      .error "CSV file must have at least a header row and one data row".toList :=
  rfl

end Reader
namespace Reader

theorem claim_C3_witness :
    parsePhase (buildCSVContent
      [{ title := "Dune".toList,
                  author := "Frank Herbert".toList,
                  status := .Finished,
                  publishedDate := some ⟨1965, 8, 1⟩,
                  readingStartDate := some ⟨2024, 1, 5⟩,
                  readingEndDate := some ⟨2024, 2, 10⟩,
                  notes := some "Great read".toList,
                  tags := some ["sci-fi".toList, "classic".toList] },
                { title := "Emma".toList,
                  author := "Jane Austen".toList,
                  status := .Reading }]) [] =
      .ok (([{ title := "Dune".toList,
                  author := "Frank Herbert".toList,
                  status := .Finished,
                  publishedDate := some ⟨1965, 8, 1⟩,
                  readingStartDate := some ⟨2024, 1, 5⟩,
                  readingEndDate := some ⟨2024, 2, 10⟩,
                  notes := some "Great read".toList,
                  tags := some ["sci-fi".toList, "classic".toList] },
                { title := "Emma".toList,
                  author := "Jane Austen".toList,
                  status := .Reading }]).map Book.toCsv, []) ∧
    processCSVImport (buildCSVContent
      [{ title := "Dune".toList,
                  author := "Frank Herbert".toList,
                  status := .Finished,
                  publishedDate := some ⟨1965, 8, 1⟩,
                  readingStartDate := some ⟨2024, 1, 5⟩,
                  readingEndDate := some ⟨2024, 2, 10⟩,
                  notes := some "Great read".toList,
                  tags := some ["sci-fi".toList, "classic".toList] },
                { title := "Emma".toList,
                  author := "Jane Austen".toList,
                  status := .Reading }]) [] (fun _ => .ok ()) =
      .ok ⟨2, []⟩ :=
  claim_C3 _ (by simp)
    (by
      intro b hb
      simp only [List.mem_cons, List.not_mem_nil, or_false] at hb
      rcases hb with rfl | rfl
      · refine ⟨by decide, by decide, by decide, by decide,
          ?_, ?_, ?_, ?_, ?_⟩
        · intro x hx
          simp at hx
          subst hx
          decide
        · intro x hx
          simp at hx
          subst hx
          decide
        · intro x hx
          simp at hx
          subst hx
          decide
        · intro nn hnn
          simp at hnn
          subst hnn
          exact ⟨by decide, by decide⟩
        · intro ts hts
          simp at hts
          subst hts
          exact ⟨by decide, by decide⟩
      · refine ⟨by decide, by decide, by decide, by decide,
          ?_, ?_, ?_, ?_, ?_⟩ <;>
          · intro x hx
            simp at hx)
    (by
    simp only [List.pairwise_cons, List.mem_singleton, List.not_mem_nil]
    refine ⟨?_, ?_⟩
    · intro b hb
      rw [hb]
      decide
    · simp)

end Reader
